import Mathlib

/-!
# ThermalStackFEA: shallow embedding and verification

The C++ program discretises a stack of rectangular blocks into a flat arena of
`MeshElement`s, links face-adjacent active elements with `MeshNode`s and marches
an explicit finite-difference scheme.

Conventions of the embedding:

* `double` is idealised as `ℚ` (exact arithmetic, no rounding, no NaN);
  division by zero follows Lean (`x / 0 = 0`), so every statement that divides
  carries the non-zero hypothesis it needs.
* `int` is `ℤ` without overflow.
* A `MeshElement *` pointing into `elementArray` is the index of the slot
  (a `ℕ`); `nullptr` is `none`.
* A write through a null element pointer and an out-of-range `blocks[i]` are
  undefined in C++; the functions that can reach one (`genMeshElements`,
  `mesh`, `solve`) return `Option`, `none` standing for that outcome, and the
  theorems prove that they return `some`.
* The `while` loop of `solve` has no bound; `solveLoop` runs it on fuel.
* A C++ constructor `T::T` is named `T.ctor` (a definition `T.T` would shadow
  the type inside its own namespace).
* Console output, wall-clock timing and `Block::getTempStandardDeviation`
  (a square root, used by no caller) are not modelled.
-/

namespace ThermalStackFEA

/-! ## MeshElement (MeshElement.h, MeshElement.cpp) -/

/-- The private fields of the C++ class `MeshElement`. -/
structure MeshElement where
  empty : Bool
  neighbors : List Nat
  temperature : ℚ
  energyGenPerTimestep : ℚ
  cElement : ℚ
  xyRAbsolute : ℚ
  zRAbsolute : ℚ
  zLayer : Int
  energyExternalPending : ℚ
  deriving DecidableEq

/-- The default constructor `MeshElement::MeshElement()`: it only sets
`empty = false`. The `neighbors` vector is default-constructed (empty); the
numeric members are left uninitialised in C++, so their indeterminate values
are taken from the argument `junk`. -/
def MeshElement.ctorDefault (junk : MeshElement) : MeshElement :=
  { junk with empty := false, neighbors := [] }

/-- The six-argument constructor `MeshElement::MeshElement(...)`. -/
def MeshElement.ctor (temperatureIn energyGenPerTimestepIn cElementIn
    xyRAbsoluteIn zRAbsoluteIn : ℚ) (zLayerIn : Int) : MeshElement :=
  { empty := false
    energyExternalPending := 0
    neighbors := []
    temperature := temperatureIn
    energyGenPerTimestep := energyGenPerTimestepIn
    cElement := cElementIn
    xyRAbsolute := xyRAbsoluteIn
    zRAbsolute := zRAbsoluteIn
    zLayer := zLayerIn }

def MeshElement.isEmpty (e : MeshElement) : Bool := e.empty

def MeshElement.makeEmpty (e : MeshElement) : MeshElement := { e with empty := true }

def MeshElement.rememberNeighbor (e : MeshElement) (potentialNeighbor : Nat) : MeshElement :=
  { e with neighbors := e.neighbors ++ [potentialNeighbor] }

/-- The C++ `std::find(neighbors.begin(), neighbors.end(), p) != neighbors.end()`. -/
def MeshElement.checkForExistingNode (e : MeshElement) (potentialNeighbor : Nat) : Bool :=
  decide (potentialNeighbor ∈ e.neighbors)

def MeshElement.getZLayer (e : MeshElement) : Int := e.zLayer
def MeshElement.getXYRAbsolute (e : MeshElement) : ℚ := e.xyRAbsolute
def MeshElement.getZRAbsolute (e : MeshElement) : ℚ := e.zRAbsolute
def MeshElement.getTemperature (e : MeshElement) : ℚ := e.temperature

/-- The C++ `energyExternalPending += energyTransfer`. -/
def MeshElement.setPendingEnergy (e : MeshElement) (energyTransfer : ℚ) : MeshElement :=
  { e with energyExternalPending := e.energyExternalPending + energyTransfer }

/-- The method `MeshElement::applyEnergyTransfer`. -/
def MeshElement.applyEnergyTransfer (e : MeshElement) : MeshElement :=
  if e.empty then e
  else
    let energySum := e.energyGenPerTimestep + e.energyExternalPending
    let dT := energySum / e.cElement
    { e with temperature := e.temperature + dT, energyExternalPending := 0 }

/-! ## The element arena and pointers into it -/

/-- The value read through a pointer that does not point into the arena. In C++
such a read is undefined; the embedding returns this fixed element, and every
statement that depends on a pointer being valid assumes or proves that it is
in range. -/
def MeshElement.outOfArena : MeshElement :=
  { empty := false, neighbors := [], temperature := 0, energyGenPerTimestep := 0,
    cElement := 0, xyRAbsolute := 0, zRAbsolute := 0, zLayer := 0,
    energyExternalPending := 0 }

/-- Reading `*p` (or `elementArray[p]`) for a pointer `p` into the arena. -/
def deref (arena : List MeshElement) (p : Nat) : MeshElement :=
  arena.getD p MeshElement.outOfArena

/-! ## MeshNode (MeshNode.h, MeshNode.cpp) -/

/-- The private fields of the C++ class `MeshNode`. -/
structure MeshNode where
  first : Nat
  second : Nat
  resistanceAbsolute : ℚ
  deriving DecidableEq

/-- The constructor `MeshNode::MeshNode(firstIn, secondIn)`: it registers each
endpoint in the other one's adjacency record (a write into the arena) and then
picks the combined resistance by the same-layer test. Returns the node and the
arena after the two writes. -/
def MeshNode.ctor (arena : List MeshElement) (firstIn secondIn : Nat) :
    MeshNode × List MeshElement :=
  let first := firstIn
  let second := secondIn
  let arena := arena.modify (fun e => e.rememberNeighbor second) first
  let arena := arena.modify (fun e => e.rememberNeighbor first) second
  let resistanceAbsolute :=
    if (deref arena first).getZLayer = (deref arena second).getZLayer then
      (deref arena first).getXYRAbsolute + (deref arena second).getXYRAbsolute
    else
      (deref arena first).getZRAbsolute + (deref arena second).getZRAbsolute
  ({ first := first, second := second, resistanceAbsolute := resistanceAbsolute }, arena)

/-- The energy `q * timeStep` that `calcEnergyTransfer` moves through a node. -/
def MeshNode.energy (n : MeshNode) (timeStep : ℚ) (arena : List MeshElement) : ℚ :=
  let dT := (deref arena n.first).getTemperature - (deref arena n.second).getTemperature
  let q := dT / n.resistanceAbsolute
  q * timeStep

/-- The method `MeshNode::calcEnergyTransfer(timeStep)`, acting on the arena. -/
def MeshNode.calcEnergyTransfer (n : MeshNode) (timeStep : ℚ) (arena : List MeshElement) :
    List MeshElement :=
  let energy := n.energy timeStep arena
  let arena := arena.modify (fun e => e.setPendingEnergy (-energy)) n.first
  arena.modify (fun e => e.setPendingEnergy energy) n.second

/-! ## C library functions on exact numbers -/

/-- The C function `round`: nearest integer, halfway cases away from zero. -/
def cround (q : ℚ) : Int := if 0 ≤ q then ⌊q + 1 / 2⌋ else ⌈q - 1 / 2⌉

/-- The C function `ceil`. -/
def cceil (q : ℚ) : Int := ⌈q⌉

/-- Conversion of a `double` to `int`: the fractional part is discarded. -/
def ctrunc (q : ℚ) : Int := if 0 ≤ q then ⌊q⌋ else ⌈q⌉

/-! ## Material (Material.h) -/

structure Material where
  c : ℚ
  k : ℚ
  name : String

def Material.ctor (kIn cIn : ℚ) (nameIn : String) : Material :=
  { c := cIn, k := kIn, name := nameIn }

/-! ## Block (Block.h, Block.cpp) -/

/-- The private fields of the C++ class `Block`; `blockElements` holds element
pointers, that is arena indices. -/
structure Block where
  materialName : String
  xLength : ℚ
  yLength : ℚ
  zLength : ℚ
  k : ℚ
  xyRAbsolute : ℚ
  zRAbsolute : ℚ
  c : ℚ
  cElement : ℚ
  qGenBlock : ℚ
  qGenElement : ℚ
  xElementCount : Int
  yElementCount : Int
  zElementCount : Int
  blockElements : List Nat

def Block.genMeshDimensions (b : Block) (meshSize : ℚ) : Block :=
  { b with
    xElementCount := cround (b.xLength / meshSize)
    yElementCount := cround (b.yLength / meshSize)
    zElementCount := cceil (b.zLength / meshSize) }

def Block.calcElementProperties (b : Block) : Block :=
  let blockVolume : ℚ := b.xLength * b.yLength * b.zLength
  let numElements : Int := b.xElementCount * b.yElementCount * b.zElementCount
  let cElement : ℚ := (b.c * blockVolume) / numElements
  let qGenElement : ℚ := b.qGenBlock / numElements
  let xyLengthElement : ℚ := b.xLength / b.xElementCount
  let zLengthElement : ℚ := b.zLength / b.zElementCount
  let sideAreaElement : ℚ := xyLengthElement * zLengthElement
  let verticalAreaElement : ℚ := xyLengthElement * xyLengthElement
  { b with
    cElement := cElement
    qGenElement := qGenElement
    xyRAbsolute := (xyLengthElement / 2) / (b.k * sideAreaElement)
    zRAbsolute := (zLengthElement / 2) / (b.k * verticalAreaElement) }

/-- The constructor `Block::Block`. The members that `genMeshDimensions` and
`calcElementProperties` assign before anything reads them start at `0` here. -/
def Block.ctor (xIn yIn zIn meshSizeIn : ℚ) (materialIn : Material) (qGenBlockIn : ℚ) : Block :=
  let b : Block :=
    { materialName := materialIn.name
      xLength := cround xIn
      yLength := cround yIn
      zLength := zIn
      k := materialIn.k
      c := materialIn.c
      qGenBlock := qGenBlockIn
      xyRAbsolute := 0, zRAbsolute := 0, cElement := 0, qGenElement := 0
      xElementCount := 0, yElementCount := 0, zElementCount := 0
      blockElements := [] }
  (b.genMeshDimensions meshSizeIn).calcElementProperties

def Block.rememberMyElement (b : Block) (elementPtr : Nat) : Block :=
  { b with blockElements := b.blockElements ++ [elementPtr] }

/-- The method `Block::getBulkTemp`; the element pointers are read in `arena`. -/
def Block.getBulkTemp (b : Block) (arena : List MeshElement) : ℚ :=
  let temperatureSum : ℚ :=
    b.blockElements.foldl (fun acc p => acc + (deref arena p).getTemperature) 0
  temperatureSum / b.blockElements.length

/-- One pass of the loop body of `Block::getTempNonUniformity` on `(low, high)`. -/
def Block.nonUniformityStep (arena : List MeshElement) (lh : ℚ × ℚ) (p : Nat) : ℚ × ℚ :=
  let elTemp := (deref arena p).getTemperature
  let low := if elTemp < lh.1 then elTemp else lh.1
  let high := if elTemp > lh.2 then elTemp else lh.2
  (low, high)

/-- The method `Block::getTempNonUniformity`. -/
def Block.getTempNonUniformity (b : Block) (arena : List MeshElement) : ℚ :=
  let low := b.getBulkTemp arena
  let high := b.getBulkTemp arena
  let lh := b.blockElements.foldl (Block.nonUniformityStep arena) (low, high)
  lh.2 - lh.1

def Block.getMaterialName (b : Block) : String := b.materialName
def Block.getQGen (b : Block) : ℚ := b.qGenBlock
def Block.getQGenElement (b : Block) : ℚ := b.qGenElement
def Block.getCElement (b : Block) : ℚ := b.cElement
def Block.getXYRAbsolute (b : Block) : ℚ := b.xyRAbsolute
def Block.getZRAbsolute (b : Block) : ℚ := b.zRAbsolute
def Block.getXLength (b : Block) : ℚ := b.yLength
def Block.getYLength (b : Block) : ℚ := b.yLength
def Block.getVolume (b : Block) : ℚ := b.xLength * b.yLength * b.zLength
def Block.getXElementCount (b : Block) : Int := b.xElementCount
def Block.getYElementCount (b : Block) : Int := b.yElementCount
def Block.getZElementCount (b : Block) : Int := b.zElementCount
def Block.getElementVectorCount (b : Block) : Int := b.blockElements.length

/-! ## ThermalStack (ThermalStack.h, ThermalStack.cpp) -/

/-- The private fields of the C++ class `ThermalStack`. The arena behind the
pointer `elementArray` is the list of its slots. -/
structure ThermalStack where
  currTime : ℚ
  meshSize : ℚ
  timeStep : ℚ
  sampleIntervalSteps : Int
  deltaTConvergenceThreshold : ℚ
  startingTemperature : ℚ
  previousTemperature : ℚ
  blockIndex : Int
  tempHistory : List ℚ
  blocks : List Block
  xElementCountMax : Int
  yElementCountMax : Int
  zElementCountMax : Int
  activeElementCount : Int
  totalElementCount : Int
  elementArray : List MeshElement
  nodeVector : List MeshNode

namespace ThermalStack

/-- The constructor `ThermalStack::ThermalStack`; nothing is allocated yet. -/
def ctor (meshSizeIn timeStepIn : ℚ) (sampleIntervalStepsIn : Int)
    (deltaTConvergenceThresholdIn startingTemperatureIn : ℚ) : ThermalStack :=
  { meshSize := meshSizeIn
    timeStep := timeStepIn
    sampleIntervalSteps := sampleIntervalStepsIn
    deltaTConvergenceThreshold := deltaTConvergenceThresholdIn
    startingTemperature := startingTemperatureIn
    previousTemperature := startingTemperatureIn
    currTime := timeStepIn
    xElementCountMax := 0
    yElementCountMax := 0
    zElementCountMax := 0
    activeElementCount := 0
    totalElementCount := 0
    blockIndex := 0
    tempHistory := []
    blocks := []
    elementArray := []
    nodeVector := [] }

def addBlock (s : ThermalStack) (xIn yIn zIn : ℚ) (materialIn : Material) (qGenBlockIn : ℚ) :
    ThermalStack :=
  { s with blocks := s.blocks ++ [Block.ctor xIn yIn zIn s.meshSize materialIn qGenBlockIn] }

/-- The body of the loop of `initElementArray` for the block `b = blocks[i]`. -/
def initElementArrayStep (s : ThermalStack) (b : Block) : ThermalStack :=
  let s := if s.xElementCountMax < b.getXElementCount then
      { s with xElementCountMax := b.getXElementCount } else s
  let s := if s.yElementCountMax < b.getYElementCount then
      { s with yElementCountMax := b.getYElementCount } else s
  { s with zElementCountMax := s.zElementCountMax + b.getZElementCount }

/-- The method `ThermalStack::initElementArray`. The array `new MeshElement[n]` holds `n`
default-constructed elements; `junk i` stands for the indeterminate numeric
members of slot `i`. -/
def initElementArray (junk : Nat → MeshElement) (s : ThermalStack) : ThermalStack :=
  let s := s.blocks.foldl initElementArrayStep s
  let flat3DArraySize : Nat :=
    (s.xElementCountMax * s.yElementCountMax * s.zElementCountMax).toNat
  { s with
    elementArray := (List.range flat3DArraySize).map (fun i => MeshElement.ctorDefault (junk i))
    totalElementCount := s.xElementCountMax * s.yElementCountMax * s.zElementCountMax }

/-- The linear index `x + (y * xElementCountMax) + (z * xElementCountMax * yElementCountMax)`. -/
def linearIndex (s : ThermalStack) (x y z : Int) : Int :=
  x + (y * s.xElementCountMax) + (z * s.xElementCountMax * s.yElementCountMax)

/-- The method `ThermalStack::nav3DArray`. -/
def nav3DArray (s : ThermalStack) (x y z : Int) : Option Nat :=
  if x < 0 ∨ x ≥ s.xElementCountMax ∨
     y < 0 ∨ y ≥ s.yElementCountMax ∨
     z < 0 ∨ z ≥ s.zElementCountMax then
    none
  else
    let elementPtr : Nat := (s.linearIndex x y z).toNat
    if (deref s.elementArray elementPtr).isEmpty then none else some elementPtr

/-- The innermost loop body of `genMeshElements` at `(x, y, z)` while the
layer belongs to `blocks[currBlock]`. The result is `none` when the C++ code
would write through a null `elementPtr` or index `blocks` out of range. -/
def genMeshElementsCell (currBlock : Nat) (z x y : Int) (s : ThermalStack) :
    Option ThermalStack := do
  let elementPtr ← s.nav3DArray x y z
  let blk ← s.blocks[currBlock]?
  let s := { s with
    elementArray := s.elementArray.set elementPtr
      (MeshElement.ctor s.startingTemperature (blk.getQGenElement * s.timeStep)
        blk.getCElement blk.getXYRAbsolute blk.getZRAbsolute z) }
  let xStart := (s.xElementCountMax - blk.getXElementCount).tdiv 2
  let yStart := (s.yElementCountMax - blk.getYElementCount).tdiv 2
  let xEnd := xStart + blk.getXElementCount - 1
  let yEnd := yStart + blk.getYElementCount - 1
  if x < xStart ∨ x > xEnd ∨ y < yStart ∨ y > yEnd then
    pure { s with elementArray := s.elementArray.modify MeshElement.makeEmpty elementPtr }
  else
    pure { s with
      blocks := s.blocks.modify (fun b => b.rememberMyElement elementPtr) currBlock
      activeElementCount := s.activeElementCount + 1 }

/-- The loops over `x` and `y` of `genMeshElements` for one layer `z`. -/
def genMeshElementsPlane (currBlock : Nat) (z : Int) (s : ThermalStack) : Option ThermalStack :=
  (List.range s.xElementCountMax.toNat).foldlM
    (fun s (x : Nat) =>
      (List.range s.yElementCountMax.toNat).foldlM
        (fun s (y : Nat) => genMeshElementsCell currBlock z x y s) s) s

/-- The body of the loop over `z` of `genMeshElements`; the loop state is the
stack together with the locals `currBlock` and `currBlockRemainingLayers`. -/
def genMeshElementsLayer (st : ThermalStack × Nat × Int) (z : Nat) :
    Option (ThermalStack × Nat × Int) := do
  let s ← genMeshElementsPlane st.2.1 z st.1
  let currBlock := st.2.1
  let currBlockRemainingLayers := st.2.2 - 1
  if currBlockRemainingLayers = 0 then
    let currBlock := currBlock + 1
    if currBlock < s.blocks.length then
      let blk ← s.blocks[currBlock]?
      pure (s, currBlock, blk.getZElementCount)
    else
      pure (s, currBlock, currBlockRemainingLayers)
  else
    pure (s, currBlock, currBlockRemainingLayers)

/-- The method `ThermalStack::genMeshElements`. -/
def genMeshElements (s : ThermalStack) : Option ThermalStack := do
  let blk ← s.blocks[0]?
  let st ← (List.range s.zElementCountMax.toNat).foldlM genMeshElementsLayer
    (s, 0, blk.getZElementCount)
  pure st.1

/-- The C++ `if (tempPtr != nullptr) neighbors.push_back(tempPtr)`. -/
def pushIfNotNull (neighbors : List Nat) (tempPtr : Option Nat) : List Nat :=
  match tempPtr with
  | some p => neighbors ++ [p]
  | none => neighbors

/-- The method `ThermalStack::findNeighborElements`. -/
def findNeighborElements (s : ThermalStack) (x y z : Int) : List Nat :=
  let neighbors : List Nat := []
  let neighbors := pushIfNotNull neighbors (s.nav3DArray (x + 1) y z)
  let neighbors := pushIfNotNull neighbors (s.nav3DArray (x - 1) y z)
  let neighbors := pushIfNotNull neighbors (s.nav3DArray x (y + 1) z)
  let neighbors := pushIfNotNull neighbors (s.nav3DArray x (y - 1) z)
  let neighbors := pushIfNotNull neighbors (s.nav3DArray x y (z + 1))
  let neighbors := pushIfNotNull neighbors (s.nav3DArray x y (z - 1))
  neighbors

/-- The body of the loop over `currNeighbors` in `genMeshNodes`. -/
def genMeshNodesLink (currElementPtr : Nat) (s : ThermalStack) (neighbor : Nat) : ThermalStack :=
  if (deref s.elementArray neighbor).checkForExistingNode currElementPtr = false then
    let r := MeshNode.ctor s.elementArray currElementPtr neighbor
    { s with elementArray := r.2, nodeVector := s.nodeVector ++ [r.1] }
  else s

/-- The innermost loop body of `genMeshNodes` at `(x, y, z)`. -/
def genMeshNodesCell (z x y : Int) (s : ThermalStack) : ThermalStack :=
  match s.nav3DArray x y z with
  | none => s
  | some currElementPtr =>
    let currNeighbors := s.findNeighborElements x y z
    currNeighbors.foldl (genMeshNodesLink currElementPtr) s

/-- The method `ThermalStack::genMeshNodes`. -/
def genMeshNodes (s : ThermalStack) : ThermalStack :=
  (List.range s.zElementCountMax.toNat).foldl
    (fun s (z : Nat) =>
      (List.range s.xElementCountMax.toNat).foldl
        (fun s (x : Nat) =>
          (List.range s.yElementCountMax.toNat).foldl
            (fun s (y : Nat) => genMeshNodesCell z x y s) s) s) s

/-- The method `ThermalStack::mesh`. The two local counters it sums afterwards are never
read and are left out. -/
def mesh (junk : Nat → MeshElement) (s : ThermalStack) : Option ThermalStack := do
  let s := initElementArray junk s
  let s ← genMeshElements s
  pure (genMeshNodes s)

def monitorBlock (s : ThermalStack) (blockIndexIn : Int) : ThermalStack :=
  { s with blockIndex := blockIndexIn }

/-- The loop of `locateTauStep` over the remaining history, from the current `tauStep`. -/
def locateTauStepLoop (tempSteady dTAtTauOne : ℚ) : List ℚ → Int → Int
  | [], tauStep => tauStep
  | h :: rest, tauStep =>
    let tauStep := tauStep + 1
    if tempSteady - h < dTAtTauOne then tauStep
    else locateTauStepLoop tempSteady dTAtTauOne rest tauStep

/-- The method `ThermalStack::locateTauStep`. -/
def locateTauStep (s : ThermalStack) (tempInitial tempSteady : ℚ) : Int :=
  let dTTotal := tempSteady - tempInitial
  let dTAtTauOne := dTTotal * 0.368
  let tauStep := 0
  locateTauStepLoop tempSteady dTAtTauOne s.tempHistory tauStep

/-- The first loop of an iteration of `solve`: every node deposits its transfer. -/
def transferPhase (s : ThermalStack) : ThermalStack :=
  { s with
    elementArray :=
      s.nodeVector.foldl (fun arena n => n.calcEnergyTransfer s.timeStep arena) s.elementArray }

/-- The second loop of an iteration of `solve`: every arena slot commits. -/
def commitPhase (s : ThermalStack) : ThermalStack :=
  { s with
    elementArray :=
      (List.range s.totalElementCount.toNat).foldl
        (fun arena j => arena.modify MeshElement.applyEnergyTransfer j) s.elementArray }

/-- The two loops at the head of an iteration of `solve`. -/
def solveStep (s : ThermalStack) : ThermalStack := s.transferPhase.commitPhase

end ThermalStack

/-! ## Small concrete inputs used to instantiate the theorems -/

/-- An arena of two Active elements at 70 and 60 degrees. -/
def arenaTwo : List MeshElement :=
  [MeshElement.ctor 70 0 4 1 1 0, MeshElement.ctor 60 0 4 1 1 0]

/-- The node joining the two elements of `arenaTwo`, of resistance 2. -/
def nodeTwo : MeshNode := { first := 0, second := 1, resistanceAbsolute := 2 }

/-! ## Specification-side predicates -/

/-- Following the spec's words for the time-constant index: `i` is the first
index of `history` at which `(Ts - sample) ≤ 0.368 * (Ts - T0)`. -/
def IsFirstIndexWithin (history : List ℚ) (T0 Ts : ℚ) (i : Int) : Prop :=
  0 ≤ i ∧
  (∃ h, history[i.toNat]? = some h ∧ Ts - h ≤ 0.368 * (Ts - T0)) ∧
  ∀ j : Nat, (j : Int) < i → ∀ h, history[j]? = some h → ¬ (Ts - h ≤ 0.368 * (Ts - T0))

/-- A stack whose only populated member is the sampled history. -/
def stackWithHistory (history : List ℚ) : ThermalStack :=
  { ThermalStack.ctor 1 1 1 1 0 with tempHistory := history }

/-- Some material, for concrete blocks. -/
def unitMaterial : Material := Material.ctor 1 1 "unit"

/-- A unit block with the two elements of `arenaTwo` registered. -/
def blockTwo : Block :=
  ((Block.ctor 1 1 1 1 unitMaterial 0).rememberMyElement 0).rememberMyElement 1

/-- The shape `mesh()` gives a stack, as far as the solver depends on it: the
arena has `totalElementCount` slots, and both endpoints of every node are
Active elements of the arena. -/
structure Meshed (s : ThermalStack) : Prop where
  size : s.totalElementCount.toNat = s.elementArray.length
  nodes_valid : ∀ n ∈ s.nodeVector,
    n.first < s.elementArray.length ∧ n.second < s.elementArray.length ∧
    (deref s.elementArray n.first).empty = false ∧
    (deref s.elementArray n.second).empty = false

/-- The term `(T(other endpoint of n) - T(e)) * timeStep / R(n)` that node `n`
contributes to the element at index `e`, read in `arena`; it is `0` when `n`
is not incident to `e`. -/
def inflowThrough (arena : List MeshElement) (timeStep : ℚ) (e : Nat) (n : MeshNode) : ℚ :=
  (if n.first = e then
    ((deref arena n.second).temperature - (deref arena e).temperature) * timeStep
      / n.resistanceAbsolute else 0)
  + (if n.second = e then
    ((deref arena n.first).temperature - (deref arena e).temperature) * timeStep
      / n.resistanceAbsolute else 0)

/-- A meshed two-element stack: `arenaTwo` joined by `nodeTwo`, time step 1/10. -/
def stackTwo : ThermalStack :=
  { ThermalStack.ctor 1 (1 / 10) 10 (1 / 1000) 65 with
    xElementCountMax := 2, yElementCountMax := 1, zElementCountMax := 1,
    activeElementCount := 2, totalElementCount := 2,
    elementArray := arenaTwo, nodeVector := [nodeTwo] }

/-! ## Specification-side description of the mesh -/

/-- The arena slot of the grid coordinate `(x, y, z)` in a box `Xn` wide and
`Yn` deep: the linear index `x + y*xMax + z*xMax*yMax` on natural numbers. -/
def slotOf (Xn Yn : Nat) (x y z : Nat) : Nat := x + y * Xn + z * Xn * Yn

/-- The centred XY footprint of block `blk` in the bounding box: the negation
of the test `x < xStart || x > xEnd || y < yStart || y > yEnd` in
`genMeshElements`. -/
def inFootprint (xMax yMax : Int) (blk : Block) (x y : Int) : Prop :=
  ¬ (x < (xMax - blk.getXElementCount).tdiv 2 ∨
     x > (xMax - blk.getXElementCount).tdiv 2 + blk.getXElementCount - 1 ∨
     y < (yMax - blk.getYElementCount).tdiv 2 ∨
     y > (yMax - blk.getYElementCount).tdiv 2 + blk.getYElementCount - 1)

instance (xMax yMax : Int) (blk : Block) (x y : Int) :
    Decidable (inFootprint xMax yMax blk x y) := by
  unfold inFootprint
  infer_instance

/-- The element `genMeshElements` leaves at `(x, y, z)` in a layer of block `blk`. -/
def meshedElement (T0 dt : ℚ) (xMax yMax : Int) (blk : Block) (x y z : Int) : MeshElement :=
  let e := MeshElement.ctor T0 (blk.getQGenElement * dt) blk.getCElement
    blk.getXYRAbsolute blk.getZRAbsolute z
  if inFootprint xMax yMax blk x y then e else e.makeEmpty

/-- The number of Z layers of the blocks before index `k` in stacking order. -/
def layersBefore (blocks : List Block) (k : Nat) : Int :=
  ((blocks.take k).map (fun b => b.zElementCount)).sum

/-- A block with its registered elements forgotten: what is left is the
geometry and the material data fixed at construction. -/
def Block.clearElements (b : Block) : Block := { b with blockElements := [] }

/-- Registering the pointers `ps`, in order, with a block. -/
def Block.register (ps : List Nat) (b : Block) : Block :=
  { b with blockElements := b.blockElements ++ ps }

/-- A stack without the members `genMeshElements` writes: the arena, the
blocks and the active count. -/
def ThermalStack.withoutElements (s : ThermalStack) : ThermalStack :=
  { s with elementArray := [], blocks := [], activeElementCount := 0 }

/-- Progress of `genMeshElements` from the freshly allocated stack `s1`, in a
box of `Xn * Yn * Zn` slots: `V` holds of the slots already instantiated.
Only the arena, the blocks' registered elements and the active count differ
from `s1`; an instantiated slot holds the element of the block owning its
layer; a slot not yet instantiated is still non-Empty. -/
structure GenInv (s1 : ThermalStack) (Xn Yn Zn : Nat) (V : Nat → Prop) (s : ThermalStack) :
    Prop where
  frame : s.withoutElements = s1.withoutElements
  size : s.elementArray.length = Xn * Yn * Zn
  geometry : s.blocks.map Block.clearElements = s1.blocks.map Block.clearElements
  done : ∀ i, V i → ∃ k b x y z, x < Xn ∧ y < Yn ∧ z < Zn ∧ i = slotOf Xn Yn x y z ∧
    s1.blocks[k]? = some b ∧
    layersBefore s1.blocks k ≤ (z : Int) ∧ (z : Int) < layersBefore s1.blocks (k + 1) ∧
    deref s.elementArray i =
      meshedElement s1.startingTemperature s1.timeStep Xn Yn b x y z
  todo : ∀ i, i < Xn * Yn * Zn → ¬ V i → (deref s.elementArray i).empty = false

/-- The slots of column `x` of layer `z`, rows below `m`, that lie in the
footprint of `b`, in the order `genMeshElements` visits them. -/
def columnRegs (Xn Yn : Nat) (b : Block) (z x m : Nat) : List Nat :=
  ((List.range m).filter (fun y : Nat => decide (inFootprint Xn Yn b x y))).map
    (fun y => slotOf Xn Yn x y z)

/-- The footprint slots of the columns below `j` of layer `z`, in visiting order. -/
def planeRegs (Xn Yn : Nat) (b : Block) (z j : Nat) : List Nat :=
  (List.range j).flatMap (fun x => columnRegs Xn Yn b z x Yn)

/-- The footprint slots of the `n` layers from `z0` on, in visiting order. -/
def layerRegs (Xn Yn : Nat) (b : Block) (z0 n : Nat) : List Nat :=
  (List.range n).flatMap (fun dz => planeRegs Xn Yn b (z0 + dz) Xn)

/-- A stack without its bounding box: the three maxima `initElementArray` accumulates. -/
def ThermalStack.withoutBox (s : ThermalStack) : ThermalStack :=
  { s with xElementCountMax := 0, yElementCountMax := 0, zElementCountMax := 0 }

/-- A stack without the members `genMeshNodes` writes: the arena and the nodes. -/
def ThermalStack.withoutGraph (s : ThermalStack) : ThermalStack :=
  { s with elementArray := [], nodeVector := [] }

/-- A stack on which `mesh()` has not run yet: the state the constructor and
any number of `addBlock` calls leave behind. -/
structure Unmeshed (s : ThermalStack) : Prop where
  xMax : s.xElementCountMax = 0
  yMax : s.yElementCountMax = 0
  zMax : s.zElementCountMax = 0
  active : s.activeElementCount = 0
  nodes : s.nodeVector = []
  regs : ∀ b ∈ s.blocks, b.blockElements = []

/-- The stack of `Main.cpp` cut down to two blocks: a 2 x 2 x 1 sink under a
1 x 1 x 1 source at unit mesh resolution, not meshed yet. -/
def stackUnmeshed : ThermalStack :=
  ((ThermalStack.ctor 1 (1 / 10) 10 (1 / 1000) 65).addBlock 2 2 1 unitMaterial 0).addBlock
    1 1 1 unitMaterial 100

/-- The indeterminate contents of freshly allocated slots, fixed to one value. -/
def junkZero : Nat → MeshElement := fun _ => MeshElement.outOfArena

/-! ## Specification-side description of the node graph -/

/-- An element with its adjacency record forgotten. -/
def MeshElement.clearNeighbors (e : MeshElement) : MeshElement := { e with neighbors := [] }

/-- Node `n` connects the unordered pair `{a, b}`. -/
def Joins (n : MeshNode) (a b : Nat) : Prop :=
  (n.first = a ∧ n.second = b) ∨ (n.first = b ∧ n.second = a)

instance (n : MeshNode) (a b : Nat) : Decidable (Joins n a b) := by
  unfold Joins
  infer_instance

/-- Two grid coordinates differ by exactly 1 along exactly one axis and agree
on the other two. -/
def FaceAdjacent (c c' : Nat × Nat × Nat) : Prop :=
  ((c.1 + 1 = c'.1 ∨ c'.1 + 1 = c.1) ∧ c.2.1 = c'.2.1 ∧ c.2.2 = c'.2.2) ∨
  (c.1 = c'.1 ∧ (c.2.1 + 1 = c'.2.1 ∨ c'.2.1 + 1 = c.2.1) ∧ c.2.2 = c'.2.2) ∨
  (c.1 = c'.1 ∧ c.2.1 = c'.2.1 ∧ (c.2.2 + 1 = c'.2.2 ∨ c'.2.2 + 1 = c.2.2))

instance (c c' : Nat × Nat × Nat) : Decidable (FaceAdjacent c c') := by
  unfold FaceAdjacent
  infer_instance

/-- Slots `a` and `b` of `arena` hold Active elements at face-adjacent
coordinates of the `Xn * Yn * Zn` box. -/
def AdjSlots (Xn Yn Zn : Nat) (arena : List MeshElement) (a b : Nat) : Prop :=
  ∃ x y z x' y' z', x < Xn ∧ y < Yn ∧ z < Zn ∧ x' < Xn ∧ y' < Yn ∧ z' < Zn ∧
    a = slotOf Xn Yn x y z ∧ b = slotOf Xn Yn x' y' z' ∧
    (deref arena a).empty = false ∧ (deref arena b).empty = false ∧
    FaceAdjacent (x, y, z) (x', y', z')

/-- Progress of `genMeshNodes` from the stack `s2` that `genMeshElements` left:
only the adjacency records and the node collection have changed; an element
lists another one as neighbour exactly when a node connects the two; no two
nodes connect the same pair; every node connects face-adjacent Active elements. -/
structure NodeInv (s2 : ThermalStack) (Xn Yn Zn : Nat) (s : ThermalStack) : Prop where
  frame : s.withoutGraph = s2.withoutGraph
  size : s.elementArray.length = Xn * Yn * Zn
  elems : ∀ i, (deref s.elementArray i).clearNeighbors = (deref s2.elementArray i).clearNeighbors
  linked_iff : ∀ a b, b ∈ (deref s.elementArray a).neighbors ↔
    ∃ n ∈ s.nodeVector, Joins n a b
  distinct : s.nodeVector.Pairwise (fun n m => ¬ Joins m n.first n.second)
  adjacent : ∀ n ∈ s.nodeVector, AdjSlots Xn Yn Zn s2.elementArray n.first n.second

/-- The grid coordinate `(x, y, z)` of the arena slot `i`: the inverse of the
linear index `x + y*xMax + z*xMax*yMax` on the bounding box. -/
def ThermalStack.gridCoord (s : ThermalStack) (i : Nat) : Nat × Nat × Nat :=
  (i % s.xElementCountMax.toNat,
   (i / s.xElementCountMax.toNat) % s.yElementCountMax.toNat,
   i / (s.xElementCountMax.toNat * s.yElementCountMax.toNat))

/-- Slots `a` and `b` hold Active elements whose grid coordinates differ by
exactly 1 along exactly one of X, Y, Z. -/
def ThermalStack.ActivePair (s : ThermalStack) (a b : Nat) : Prop :=
  a < s.elementArray.length ∧ b < s.elementArray.length ∧
  (deref s.elementArray a).empty = false ∧ (deref s.elementArray b).empty = false ∧
  FaceAdjacent (s.gridCoord a) (s.gridCoord b)

instance (s : ThermalStack) (a b : Nat) : Decidable (s.ActivePair a b) := by
  unfold ThermalStack.ActivePair
  infer_instance

/-- The number of unordered pairs of face-adjacent Active elements: each pair
is counted once, as `(a, b)` with `a < b`. -/
def ThermalStack.activePairCount (s : ThermalStack) : Nat :=
  ((Finset.range s.elementArray.length ×ˢ Finset.range s.elementArray.length).filter
    (fun p => p.1 < p.2 ∧ s.ActivePair p.1 p.2)).card

/-- The unordered pair a node connects, written smaller slot first. -/
def MeshNode.pair (n : MeshNode) : Nat × Nat := (min n.first n.second, max n.first n.second)

/-- Adjacency records only grow from `s` to `s'`. -/
def NeighborsGrow (s s' : ThermalStack) : Prop :=
  ∀ a b, b ∈ (deref s.elementArray a).neighbors → b ∈ (deref s'.elementArray a).neighbors

/-- The element at `(x, y, z)` has been linked with all its Active face neighbours. -/
def Closed (Xn Yn Zn : Nat) (s : ThermalStack) (x y z : Nat) : Prop :=
  (deref s.elementArray (slotOf Xn Yn x y z)).empty = false →
  ∀ x' y' z' : Nat, x' < Xn → y' < Yn → z' < Zn → FaceAdjacent (x, y, z) (x', y', z') →
    (deref s.elementArray (slotOf Xn Yn x' y' z')).empty = false →
    slotOf Xn Yn x y z ∈ (deref s.elementArray (slotOf Xn Yn x' y' z')).neighbors

/-- Every slot of the arena is at temperature `T0`, generates nothing and has
nothing pending. -/
def UniformArena (T0 : ℚ) (arena : List MeshElement) : Prop :=
  ∀ e ∈ arena, e.temperature = T0 ∧ e.energyGenPerTimestep = 0 ∧ e.energyExternalPending = 0

/-! ## The loop of `solve` -/

/-- The local variables of `solve` that live across iterations. -/
structure SolveLocals where
  haveIConvergedYet : Bool
  currStep : Int
  tauInterval : Int
  currMonitoredTemperature : ℚ

/-- The values `solve` prints when it declares convergence. `tauTemperature` is
the read `tempHistory[tauInterval]`; it is `none` when `tauInterval` is not an
index of the history. -/
structure ConvergenceReport where
  tauTime : ℚ
  tauTemperature : Option ℚ
  steadyTime : ℚ
  steadyTemperature : ℚ

namespace ThermalStack

/-- The locals of `solve` as initialised before the loop. -/
def solveLocalsInit : SolveLocals :=
  { haveIConvergedYet := false, currStep := 0, tauInterval := 0, currMonitoredTemperature := 0 }

/-- The element `blocks[blockIndex]`; `none` when the index is out of range. -/
def monitoredBlock (s : ThermalStack) : Option Block :=
  if s.blockIndex < 0 then none else s.blocks[s.blockIndex.toNat]?

/-- One iteration of the `while` loop of `solve`. The result is `none` when
`blocks[blockIndex]` is out of range. -/
def solveIteration (s : ThermalStack) (l : SolveLocals) :
    Option (ThermalStack × SolveLocals × Option ConvergenceReport) := do
  let s := s.solveStep
  let s := { s with currTime := s.currTime + s.timeStep }
  let l := { l with currStep := ctrunc (s.currTime / s.timeStep) }
  if l.currStep.tmod s.sampleIntervalSteps = 0 then
    let blk ← s.monitoredBlock
    let l := { l with currMonitoredTemperature := blk.getBulkTemp s.elementArray }
    let s := { s with tempHistory := s.tempHistory ++ [l.currMonitoredTemperature] }
    if l.currMonitoredTemperature - s.previousTemperature > s.deltaTConvergenceThreshold then
      pure ({ s with previousTemperature := l.currMonitoredTemperature }, l, none)
    else
      let l := { l with
        tauInterval := s.locateTauStep s.startingTemperature l.currMonitoredTemperature }
      let report : ConvergenceReport :=
        { tauTime := l.tauInterval * s.sampleIntervalSteps * s.timeStep
          tauTemperature := s.tempHistory[l.tauInterval.toNat]?
          steadyTime := s.currTime
          steadyTemperature := l.currMonitoredTemperature }
      let l := { l with haveIConvergedYet := true }
      pure ({ s with previousTemperature := l.currMonitoredTemperature }, l, some report)
  else
    pure (s, l, none)

/-- The `while (haveIConvergedYet == false)` loop of `solve`, run for at most `fuel`
iterations: `none` when the loop has not ended by then (or an iteration is
undefined). -/
def solveLoop : Nat → ThermalStack → SolveLocals → Option ConvergenceReport →
    Option (ThermalStack × SolveLocals × Option ConvergenceReport)
  | fuel, s, l, report =>
    if l.haveIConvergedYet = true then some (s, l, report)
    else
      match fuel with
      | 0 => none
      | fuel + 1 =>
        match s.solveIteration l with
        | none => none
        | some r => solveLoop fuel r.1 r.2.1 r.2.2

/-- The method `ThermalStack::solve`, given `fuel` iterations: the final stack, the values
printed at convergence and the thermal impedance printed last. -/
def solve (fuel : Nat) (s : ThermalStack) :
    Option (ThermalStack × Option ConvergenceReport × ℚ) := do
  let r ← solveLoop fuel s solveLocalsInit none
  let blk ← r.1.monitoredBlock
  let thermalImpedance : ℚ :=
    (r.2.1.currMonitoredTemperature - r.1.startingTemperature) / blk.getQGen
  pure (r.1, r.2.2, thermalImpedance)

end ThermalStack

/-- The stack `s` with its node collection replaced by `nodes`. -/
def ThermalStack.withNodes (s : ThermalStack) (nodes : List MeshNode) : ThermalStack :=
  { s with nodeVector := nodes }

/-- A second node between the two elements of `arenaTwo`, of resistance 4,
with its endpoints in the other order. -/
def nodeTwoBack : MeshNode := { first := 1, second := 0, resistanceAbsolute := 4 }

namespace ThermalStack

/-- The test `currStep % sampleIntervalSteps == 0` of the iteration that starts
in `s`, on the step counter `currStep = currTime / timeStep` after the time
has advanced. -/
def sampleDue (s : ThermalStack) : Prop :=
  (ctrunc ((s.currTime + s.timeStep) / s.timeStep)).tmod s.sampleIntervalSteps = 0

instance (s : ThermalStack) : Decidable s.sampleDue := by
  unfold sampleDue
  infer_instance

/-- The stack an iteration of `solve` that starts in `s` reaches before it
decides whether to sample: one step taken and the time advanced. -/
def advanced (s : ThermalStack) : ThermalStack :=
  { s.solveStep with currTime := s.currTime + s.timeStep }

/-- The stack after an iteration that sampled the temperature `c`. -/
def sampled (s : ThermalStack) (c : ℚ) : ThermalStack :=
  { s.advanced with tempHistory := s.tempHistory ++ [c], previousTemperature := c }

/-- At most `k` successive iterations of the body of the loop of `solve`, without the
loop test: `solveIterations k t` is the state after exactly `k` iterations. -/
def solveIterations : Nat → ThermalStack × SolveLocals × Option ConvergenceReport →
    Option (ThermalStack × SolveLocals × Option ConvergenceReport)
  | 0, t => some t
  | k + 1, t =>
    match solveIterations k t with
    | none => none
    | some r => r.1.solveIteration r.2.1

end ThermalStack

/-- The increase `s_i - s_(i-1)` of sample `i` of `samples` over the sample
before it, where `s_(-1) = before`. -/
def increaseAt (before : ℚ) (samples : List ℚ) (i : Nat) : ℚ :=
  (before :: samples).getD (i + 1) 0 - (before :: samples).getD i 0

/-- Every sample of `samples` rose by more than `threshold` over the one before. -/
def AllRising (threshold before : ℚ) (samples : List ℚ) : Prop :=
  ∀ i, i < samples.length → increaseAt before samples i > threshold

/-- The last sample of `samples` is the first whose increase over the sample
before it is at most `threshold`. -/
def FirstSmallIncrease (threshold before : ℚ) (samples : List ℚ) : Prop :=
  samples ≠ [] ∧
  (∀ i, i + 1 < samples.length → increaseAt before samples i > threshold) ∧
  increaseAt before samples (samples.length - 1) ≤ threshold

/-- The single 1 x 1 x 1 block of `stackHot`, generating 4 W, with its one
element registered. -/
def blockHot : Block :=
  { materialName := "unit", xLength := 1, yLength := 1, zLength := 1, k := 1
    xyRAbsolute := 1 / 2, zRAbsolute := 1 / 2, c := 1, cElement := 1
    qGenBlock := 4, qGenElement := 4
    xElementCount := 1, yElementCount := 1, zElementCount := 1
    blockElements := [0] }

/-- The stack at the start of `solve` for one 1 x 1 x 1 block of unit material
generating 4 W: mesh resolution 1, time step 1/10, a sample every 2 steps,
convergence threshold 1/2, starting temperature 65, block 0 monitored. -/
def stackHot : ThermalStack :=
  { currTime := 1 / 10, meshSize := 1, timeStep := 1 / 10, sampleIntervalSteps := 2
    deltaTConvergenceThreshold := 1 / 2, startingTemperature := 65
    previousTemperature := 65, blockIndex := 0, tempHistory := []
    blocks := [blockHot]
    xElementCountMax := 1, yElementCountMax := 1, zElementCountMax := 1
    activeElementCount := 1, totalElementCount := 1
    elementArray := [MeshElement.ctor 65 (4 * (1 / 10)) 1 (1 / 2) (1 / 2) 0]
    nodeVector := [] }

/-- The combined resistance of a node between slots `p` and `q`, as the node
constructor computes it from the elements of `arena`: the sum of the lateral
half-resistances when the two layer indices agree, of the vertical ones otherwise. -/
def nodeResistance (arena : List MeshElement) (p q : Nat) : ℚ :=
  if (deref arena p).zLayer = (deref arena q).zLayer then
    (deref arena p).xyRAbsolute + (deref arena q).xyRAbsolute
  else (deref arena p).zRAbsolute + (deref arena q).zRAbsolute

/-- Progress of `genMeshNodes` as far as resistances go: the elements of `s` are
those of `arena0` up to their adjacency records, and every node of `s` holds
the resistance computed from the elements at its endpoints. -/
def ResistancesRead (arena0 : List MeshElement) (s : ThermalStack) : Prop :=
  (∀ i, (deref s.elementArray i).clearNeighbors = (deref arena0 i).clearNeighbors) ∧
  ∀ n ∈ s.nodeVector, n.resistanceAbsolute = nodeResistance arena0 n.first n.second

/-- The energy stored in the arena: the sum over the Active elements of
capacitance times temperature. -/
def storedEnergy (arena : List MeshElement) : ℚ :=
  (arena.map (fun e => if e.empty then 0 else e.cElement * e.temperature)).sum

/-- The energy generated in one step: the sum over the Active elements of their
generation per time step. -/
def generatedPerStep (arena : List MeshElement) : ℚ :=
  (arena.map (fun e => if e.empty then 0 else e.energyGenPerTimestep)).sum

/-! # Theorems -/

/-! ## Reading and writing arena slots -/

theorem deref_of_lt {arena : List MeshElement} {i : Nat} (h : i < arena.length) :
    deref arena i = arena[i] := by
  simp [deref, List.getD_eq_getElem?_getD, List.getElem?_eq_getElem h]

theorem deref_of_ge {arena : List MeshElement} {i : Nat} (h : arena.length ≤ i) :
    deref arena i = MeshElement.outOfArena := by
  simp [deref, List.getD_eq_getElem?_getD, List.getElem?_eq_none h]

theorem deref_modify (f : MeshElement → MeshElement) (n : Nat) (arena : List MeshElement)
    (i : Nat) :
    deref (arena.modify f n) i =
      if n = i ∧ i < arena.length then f (deref arena i) else deref arena i := by
  by_cases hi : i < arena.length
  · have hi' : i < (arena.modify f n).length := by simpa using hi
    rw [deref_of_lt hi', deref_of_lt hi, List.getElem_modify]
    by_cases hn : n = i <;> simp [hn, hi]
  · have hi' : (arena.modify f n).length ≤ i := by simpa using hi
    rw [deref_of_ge hi', deref_of_ge (not_lt.mp hi)]
    simp [hi]

theorem deref_set (e : MeshElement) (n : Nat) (arena : List MeshElement) (i : Nat) :
    deref (arena.set n e) i = if n = i ∧ i < arena.length then e else deref arena i := by
  by_cases hi : i < arena.length
  · have hi' : i < (arena.set n e).length := by simpa using hi
    rw [deref_of_lt hi', deref_of_lt hi, List.getElem_set]
    by_cases hn : n = i <;> simp [hn, hi]
  · have hi' : (arena.set n e).length ≤ i := by simpa using hi
    rw [deref_of_ge hi', deref_of_ge (not_lt.mp hi)]
    simp [hi]

/-- C6: `applyEnergyTransfer` leaves an Empty element as it is; on an Active
element it adds `(generation-per-step + pending) / capacitance` to the
temperature, clears the pending accumulator and keeps every other field. -/
theorem C6_applyEnergyTransfer_effect (e : MeshElement) :
    (e.empty = true → e.applyEnergyTransfer = e) ∧
    (e.empty = false →
      e.applyEnergyTransfer.temperature =
        e.temperature + (e.energyGenPerTimestep + e.energyExternalPending) / e.cElement ∧
      e.applyEnergyTransfer.energyExternalPending = 0 ∧
      e.applyEnergyTransfer.energyGenPerTimestep = e.energyGenPerTimestep ∧
      e.applyEnergyTransfer.cElement = e.cElement ∧
      e.applyEnergyTransfer.xyRAbsolute = e.xyRAbsolute ∧
      e.applyEnergyTransfer.zRAbsolute = e.zRAbsolute ∧
      e.applyEnergyTransfer.zLayer = e.zLayer ∧
      e.applyEnergyTransfer.empty = e.empty ∧
      e.applyEnergyTransfer.neighbors = e.neighbors) := by
  constructor
  · intro h
    simp [MeshElement.applyEnergyTransfer, h]
  · intro h
    simp [MeshElement.applyEnergyTransfer, h]

/-- C6 at a concrete Empty element and a concrete Active element. -/
theorem C6_applyEnergyTransfer_effect_witness :
    ({ MeshElement.ctor 65 2 4 1 1 0 with empty := true, energyExternalPending := 6 }
        : MeshElement).applyEnergyTransfer =
      { MeshElement.ctor 65 2 4 1 1 0 with empty := true, energyExternalPending := 6 } ∧
    ({ MeshElement.ctor 65 2 4 1 1 0 with energyExternalPending := 6 }
        : MeshElement).applyEnergyTransfer.temperature = 67 :=
  ⟨(C6_applyEnergyTransfer_effect _).1 rfl, by
    rw [((C6_applyEnergyTransfer_effect _).2 rfl).1]
    norm_num [MeshElement.ctor]⟩

/-- C5: for a node with endpoints `a`, `b` in the arena, `calcEnergyTransfer dt`
adds `-E` to the pending accumulator of `a` and `+E` to that of `b`, where
`E = ((T_a - T_b) / resistance) * dt`; the two changes cancel, every other
field of `a` and `b` (the temperature included) and every other element is
left as it was. -/
theorem C5_calcEnergyTransfer_effect (n : MeshNode) (dt : ℚ) (arena : List MeshElement)
    (ha : n.first < arena.length) (hb : n.second < arena.length) :
    (n.calcEnergyTransfer dt arena).length = arena.length ∧
    (∀ i, deref (n.calcEnergyTransfer dt arena) i =
      { deref arena i with
        energyExternalPending :=
          (deref arena i).energyExternalPending
            + (if i = n.first then
                -((((deref arena n.first).temperature - (deref arena n.second).temperature)
                    / n.resistanceAbsolute) * dt) else 0)
            + (if i = n.second then
                ((((deref arena n.first).temperature - (deref arena n.second).temperature)
                    / n.resistanceAbsolute) * dt) else 0) }) ∧
    (∀ i, (deref (n.calcEnergyTransfer dt arena) i).temperature = (deref arena i).temperature) ∧
    (∀ i, i ≠ n.first → i ≠ n.second →
      (n.calcEnergyTransfer dt arena)[i]? = arena[i]?) ∧
    (n.first ≠ n.second →
      ((deref (n.calcEnergyTransfer dt arena) n.first).energyExternalPending
          - (deref arena n.first).energyExternalPending)
        + ((deref (n.calcEnergyTransfer dt arena) n.second).energyExternalPending
          - (deref arena n.second).energyExternalPending) = 0) := by
  have key : ∀ i, deref (n.calcEnergyTransfer dt arena) i =
      { deref arena i with
        energyExternalPending :=
          (deref arena i).energyExternalPending
            + (if i = n.first then
                -((((deref arena n.first).temperature - (deref arena n.second).temperature)
                    / n.resistanceAbsolute) * dt) else 0)
            + (if i = n.second then
                ((((deref arena n.first).temperature - (deref arena n.second).temperature)
                    / n.resistanceAbsolute) * dt) else 0) } := by
    intro i
    unfold MeshNode.calcEnergyTransfer MeshNode.energy
    simp only [deref_modify, List.length_modify, MeshElement.getTemperature]
    by_cases h1 : n.first = i <;> by_cases h2 : n.second = i
    · subst h1
      simp [← h2, ha, MeshElement.setPendingEnergy]
    · subst h1
      simp [h2, ha, MeshElement.setPendingEnergy, Ne.symm h2]
    · subst h2
      simp [h1, hb, MeshElement.setPendingEnergy, Ne.symm h1]
    · simp [h1, h2, Ne.symm h1, Ne.symm h2]
  refine ⟨by simp [MeshNode.calcEnergyTransfer], key, ?_, ?_, ?_⟩
  · intro i
    rw [key i]
  · intro i h1 h2
    simp [MeshNode.calcEnergyTransfer, List.getElem?_modify, Ne.symm h1, Ne.symm h2]
  · intro hne
    rw [key n.first, key n.second]
    simp [hne, Ne.symm hne]

/-- C5 at the node of `arenaTwo` with a time step of one tenth. -/
theorem C5_calcEnergyTransfer_effect_witness :
    (nodeTwo.calcEnergyTransfer (1 / 10) arenaTwo).length = arenaTwo.length :=
  (C5_calcEnergyTransfer_effect nodeTwo (1 / 10) arenaTwo (by decide) (by decide)).1

/-! ## Addressing -/

/-- Inside the bounding box the linear index is a valid arena offset. -/
theorem linearIndex_bounds (X Y Z x y z : Int)
    (hx0 : 0 ≤ x) (hx : x < X) (hy0 : 0 ≤ y) (hy : y < Y) (hz0 : 0 ≤ z) (hz : z < Z) :
    0 ≤ x + y * X + z * X * Y ∧ x + y * X + z * X * Y < X * Y * Z := by
  have hX : 0 < X := by omega
  have hY : 0 < Y := by omega
  have h1 : 0 ≤ y * X := mul_nonneg hy0 hX.le
  have h2 : 0 ≤ z * X * Y := mul_nonneg (mul_nonneg hz0 hX.le) hY.le
  have h3 : y * X ≤ (Y - 1) * X := mul_le_mul_of_nonneg_right (by omega) hX.le
  have h4 : z * (X * Y) ≤ (Z - 1) * (X * Y) :=
    mul_le_mul_of_nonneg_right (by omega) (mul_pos hX hY).le
  constructor
  · omega
  · nlinarith

/-- C3: with the arena at its allocated size, `nav3DArray x y z` is null exactly
when `(x, y, z)` lies outside the bounding box or the element stored at the
linear index `x + y*xMax + z*xMax*yMax` is Empty; otherwise it returns the
pointer to the element stored at that index, which is an arena slot. -/
theorem C3_nav3DArray_null_iff (s : ThermalStack) (x y z : Int)
    (hsize : s.elementArray.length =
      (s.xElementCountMax * s.yElementCountMax * s.zElementCountMax).toNat) :
    (s.nav3DArray x y z = none ↔
      (x < 0 ∨ s.xElementCountMax ≤ x ∨ y < 0 ∨ s.yElementCountMax ≤ y ∨
        z < 0 ∨ s.zElementCountMax ≤ z) ∨
      ∃ e, s.elementArray[(x + y * s.xElementCountMax
              + z * s.xElementCountMax * s.yElementCountMax).toNat]? = some e ∧
        e.empty = true) ∧
    (s.nav3DArray x y z ≠ none →
      s.nav3DArray x y z =
        some (x + y * s.xElementCountMax + z * s.xElementCountMax * s.yElementCountMax).toNat ∧
      (x + y * s.xElementCountMax + z * s.xElementCountMax * s.yElementCountMax).toNat
        < s.elementArray.length ∧
      0 ≤ x + y * s.xElementCountMax + z * s.xElementCountMax * s.yElementCountMax) := by
  by_cases hout : x < 0 ∨ x ≥ s.xElementCountMax ∨ y < 0 ∨ y ≥ s.yElementCountMax ∨
      z < 0 ∨ z ≥ s.zElementCountMax
  · have hnav : s.nav3DArray x y z = none := by simp [ThermalStack.nav3DArray, hout]
    refine ⟨⟨fun _ => Or.inl (by simpa [ge_iff_le] using hout), fun _ => hnav⟩, ?_⟩
    intro h
    exact absurd hnav h
  · have hin : 0 ≤ x ∧ x < s.xElementCountMax ∧ 0 ≤ y ∧ y < s.yElementCountMax ∧
        0 ≤ z ∧ z < s.zElementCountMax := by omega
    obtain ⟨hx0, hx, hy0, hy, hz0, hz⟩ := hin
    obtain ⟨hlo, hhi⟩ := linearIndex_bounds _ _ _ x y z hx0 hx hy0 hy hz0 hz
    have hlt : (x + y * s.xElementCountMax
        + z * s.xElementCountMax * s.yElementCountMax).toNat < s.elementArray.length := by
      rw [hsize]; omega
    have hnav : s.nav3DArray x y z =
        if (s.elementArray[(x + y * s.xElementCountMax
              + z * s.xElementCountMax * s.yElementCountMax).toNat]).empty then none
        else some (x + y * s.xElementCountMax
              + z * s.xElementCountMax * s.yElementCountMax).toNat := by
      simp [ThermalStack.nav3DArray, hout, ThermalStack.linearIndex, deref_of_lt hlt,
        MeshElement.isEmpty]
    have hout' : ¬(x < 0 ∨ s.xElementCountMax ≤ x ∨ y < 0 ∨ s.yElementCountMax ≤ y ∨
        z < 0 ∨ s.zElementCountMax ≤ z) := by omega
    rw [hnav]
    by_cases he : (s.elementArray[(x + y * s.xElementCountMax
              + z * s.xElementCountMax * s.yElementCountMax).toNat]).empty = true
    · simp [he, hout', List.getElem?_eq_getElem hlt]
    · simp [he, hout', List.getElem?_eq_getElem hlt, hlt, hlo]

/-- C3 on a one-slot arena: the origin is found, its neighbour at `x = -1` is not. -/
theorem C3_nav3DArray_null_iff_witness :
    ThermalStack.nav3DArray
        { ThermalStack.ctor 1 1 1 1 65 with
          xElementCountMax := 1, yElementCountMax := 1, zElementCountMax := 1,
          elementArray := [MeshElement.ctor 65 0 4 1 1 0] } 0 0 0 = some 0 :=
  ((C3_nav3DArray_null_iff
      { ThermalStack.ctor 1 1 1 1 65 with
          xElementCountMax := 1, yElementCountMax := 1, zElementCountMax := 1,
          elementArray := [MeshElement.ctor 65 0 4 1 1 0] } 0 0 0 (by decide)).2
    (by decide)).1

/-! ## Time-constant location -/

theorem locateTauStepLoop_spec (Ts d : ℚ) (hist : List ℚ) (t : Int)
    (hex : ∃ h ∈ hist, Ts - h < d) :
    ∃ i : Nat, i < hist.length ∧
      ThermalStack.locateTauStepLoop Ts d hist t = t + i + 1 ∧
      (∃ h, hist[i]? = some h ∧ Ts - h < d) ∧
      ∀ j : Nat, j < i → ∀ h, hist[j]? = some h → ¬ (Ts - h < d) := by
  induction hist generalizing t with
  | nil => simp at hex
  | cons a rest ih =>
    by_cases ha : Ts - a < d
    · refine ⟨0, by simp, by simp [ThermalStack.locateTauStepLoop, ha], ⟨a, by simp, ha⟩, ?_⟩
      intro j hj
      omega
    · have hex' : ∃ h ∈ rest, Ts - h < d := by
        obtain ⟨h, hmem, hlt⟩ := hex
        rcases List.mem_cons.mp hmem with rfl | hmem'
        · exact absurd hlt ha
        · exact ⟨h, hmem', hlt⟩
      obtain ⟨i, hi, hval, hfound, hfirst⟩ := ih (t + 1) hex'
      refine ⟨i + 1, by simpa using hi, ?_, by simpa using hfound, ?_⟩
      · simp only [ThermalStack.locateTauStepLoop, ha, if_false, hval]
        push_cast
        ring
      · intro j hj h hjh
        cases j with
        | zero =>
          simp at hjh
          subst hjh
          exact ha
        | succ j =>
          simp at hjh
          exact hfirst j (by omega) h hjh

/-- C8 (as the code has it): for a non-empty history whose last sample is the
steady temperature `Ts > T0`, `locateTauStep T0 Ts` returns `i + 1`, where `i`
is the first index of the history with `(Ts - history[i]) < 0.368 * (Ts - T0)`
(strictly); such an index exists. -/
theorem C8_locateTauStep_first_strict (hist : List ℚ) (T0 Ts : ℚ)
    (hlast : hist.getLast? = some Ts) (hgt : T0 < Ts) :
    ∃ i : Nat, i < hist.length ∧
      (stackWithHistory hist).locateTauStep T0 Ts = (i : Int) + 1 ∧
      (∃ h, hist[i]? = some h ∧ Ts - h < 0.368 * (Ts - T0)) ∧
      ∀ j : Nat, j < i → ∀ h, hist[j]? = some h → ¬ (Ts - h < 0.368 * (Ts - T0)) := by
  have hex : ∃ h ∈ hist, Ts - h < (Ts - T0) * 0.368 := by
    refine ⟨Ts, List.mem_of_getLast?_eq_some hlast, ?_⟩
    have : 0 < Ts - T0 := sub_pos.mpr hgt
    have h2 : (0 : ℚ) < (Ts - T0) * 0.368 := mul_pos this (by norm_num)
    simpa using h2
  obtain ⟨i, hi, hval, hfound, hfirst⟩ := locateTauStepLoop_spec Ts ((Ts - T0) * 0.368) hist 0 hex
  refine ⟨i, hi, ?_, ?_, ?_⟩
  · simp only [ThermalStack.locateTauStep, stackWithHistory, hval]
    ring
  · simpa [mul_comm] using hfound
  · simpa [mul_comm] using hfirst

/-- C8 at the history `[1, 2]` with `T0 = 0`, `Ts = 2`. -/
theorem C8_locateTauStep_first_strict_witness :
    ∃ i : Nat, i < [(1 : ℚ), 2].length ∧
      (stackWithHistory [1, 2]).locateTauStep 0 2 = (i : Int) + 1 ∧
      (∃ h, [(1 : ℚ), 2][i]? = some h ∧ 2 - h < 0.368 * (2 - 0)) ∧
      ∀ j : Nat, j < i → ∀ h, [(1 : ℚ), 2][j]? = some h → ¬ (2 - h < 0.368 * (2 - 0)) :=
  C8_locateTauStep_first_strict [1, 2] 0 2 (by simp) (by norm_num)

/-- C8 as stated fails: on the monotone history `[1, 2]` from `T0 = 0` to the
steady value `2`, the first index within 36.8 percent is `1`, and
`locateTauStep` returns `2`, which is not an index of the history at all. -/
theorem C8_counterexample :
    ([(1 : ℚ), 2] ≠ [] ∧ List.Sorted (· ≤ ·) [(1 : ℚ), 2] ∧ (0 : ℚ) ≤ 1 ∧
      [(1 : ℚ), 2].getLast? = some 2 ∧ (0 : ℚ) < 2) ∧
    (stackWithHistory [1, 2]).locateTauStep 0 2 = 2 ∧
    IsFirstIndexWithin [1, 2] 0 2 1 ∧
    ¬ IsFirstIndexWithin [1, 2] 0 2 ((stackWithHistory [1, 2]).locateTauStep 0 2) := by
  have hval : (stackWithHistory [1, 2]).locateTauStep 0 2 = 2 := by
    norm_num [ThermalStack.locateTauStep, stackWithHistory, ThermalStack.locateTauStepLoop,
      ThermalStack.ctor]
  refine ⟨⟨by simp, by simp, by norm_num, by simp, by norm_num⟩, hval, ?_, ?_⟩
  · refine ⟨by norm_num, ⟨2, by simp, by norm_num⟩, ?_⟩
    intro j hj h hjh
    have hj0 : j = 0 := by omega
    subst hj0
    simp at hjh
    subst hjh
    norm_num
  · rw [hval]
    rintro ⟨-, ⟨h, hh, -⟩, -⟩
    simp at hh

/-! ## Block statistics -/

theorem foldl_add_temperature (arena : List MeshElement) (ps : List Nat) (acc : ℚ) :
    ps.foldl (fun acc p => acc + (deref arena p).getTemperature) acc =
      acc + (ps.map (fun p => (deref arena p).temperature)).sum := by
  induction ps generalizing acc with
  | nil => simp
  | cons p ps ih =>
    simp only [List.foldl_cons, List.map_cons, List.sum_cons]
    rw [ih]
    simp only [MeshElement.getTemperature]
    ring

/-- The mean of a non-empty list lies between any lower and upper bound of it. -/
theorem mean_between (ts : List ℚ) (hne : ts ≠ []) (lo hi : ℚ)
    (hlo : ∀ t ∈ ts, lo ≤ t) (hhi : ∀ t ∈ ts, t ≤ hi) :
    lo ≤ ts.sum / ts.length ∧ ts.sum / ts.length ≤ hi := by
  have hlen : (0 : ℚ) < ts.length := by
    have : 0 < ts.length := List.length_pos.mpr hne
    exact_mod_cast this
  have h1 : (ts.length : ℚ) * lo ≤ ts.sum := by
    clear hhi hne hlen
    induction ts with
    | nil => simp
    | cons a ts ih =>
      have ha := hlo a (by simp)
      have := ih (fun t ht => hlo t (List.mem_cons_of_mem _ ht))
      simp only [List.length_cons, List.sum_cons]
      push_cast
      linarith
  have h2 : ts.sum ≤ (ts.length : ℚ) * hi := by
    clear hlo hne hlen h1
    induction ts with
    | nil => simp
    | cons a ts ih =>
      have ha := hhi a (by simp)
      have := ih (fun t ht => hhi t (List.mem_cons_of_mem _ ht))
      simp only [List.length_cons, List.sum_cons]
      push_cast
      linarith
  constructor
  · rw [le_div_iff₀ hlen]; linarith
  · rw [div_le_iff₀ hlen]; linarith

/-- The loop of `getTempNonUniformity` computes running extremes. -/
theorem nonUniformity_foldl (arena : List MeshElement) (ps : List Nat) (lh : ℚ × ℚ) :
    (ps.foldl (Block.nonUniformityStep arena) lh).1 ≤ lh.1 ∧
    lh.2 ≤ (ps.foldl (Block.nonUniformityStep arena) lh).2 ∧
    (∀ p ∈ ps, (ps.foldl (Block.nonUniformityStep arena) lh).1 ≤ (deref arena p).temperature ∧
      (deref arena p).temperature ≤ (ps.foldl (Block.nonUniformityStep arena) lh).2) ∧
    ((ps.foldl (Block.nonUniformityStep arena) lh).1 = lh.1 ∨
      ∃ p ∈ ps, (ps.foldl (Block.nonUniformityStep arena) lh).1 = (deref arena p).temperature) ∧
    ((ps.foldl (Block.nonUniformityStep arena) lh).2 = lh.2 ∨
      ∃ p ∈ ps, (ps.foldl (Block.nonUniformityStep arena) lh).2 = (deref arena p).temperature) := by
  induction ps generalizing lh with
  | nil => simp
  | cons q ps ih =>
    obtain ⟨h1, h2, h3, h4, h5⟩ := ih (Block.nonUniformityStep arena lh q)
    simp only [List.foldl_cons]
    have e1 : (Block.nonUniformityStep arena lh q).1 =
        if (deref arena q).temperature < lh.1 then (deref arena q).temperature else lh.1 := rfl
    have e2 : (Block.nonUniformityStep arena lh q).2 =
        if (deref arena q).temperature > lh.2 then (deref arena q).temperature else lh.2 := rfl
    have b1 : (Block.nonUniformityStep arena lh q).1 ≤ lh.1 ∧
        (Block.nonUniformityStep arena lh q).1 ≤ (deref arena q).temperature := by
      rw [e1]; split_ifs with h <;> constructor <;> linarith
    have b2 : lh.2 ≤ (Block.nonUniformityStep arena lh q).2 ∧
        (deref arena q).temperature ≤ (Block.nonUniformityStep arena lh q).2 := by
      rw [e2]; split_ifs with h <;> constructor <;> linarith
    refine ⟨h1.trans b1.1, b2.1.trans h2, ?_, ?_, ?_⟩
    · intro p hp
      rcases List.mem_cons.mp hp with rfl | hp'
      · exact ⟨h1.trans b1.2, b2.2.trans h2⟩
      · exact h3 p hp'
    · rcases h4 with h4 | ⟨p, hp, h4⟩
      · rw [h4, e1]
        split_ifs with h
        · exact Or.inr ⟨q, by simp, rfl⟩
        · exact Or.inl rfl
      · exact Or.inr ⟨p, List.mem_cons_of_mem _ hp, h4⟩
    · rcases h5 with h5 | ⟨p, hp, h5⟩
      · rw [h5, e2]
        split_ifs with h
        · exact Or.inr ⟨q, by simp, rfl⟩
        · exact Or.inl rfl
      · exact Or.inr ⟨p, List.mem_cons_of_mem _ hp, h5⟩

/-- C9: for a block with at least one registered element, `getTempNonUniformity`
is the maximum minus the minimum of the registered elements' temperatures:
there are registered elements `pmax`, `pmin` whose temperatures bound those of
all registered elements and whose difference is the value returned. Seeding
both running extremes with the mean does not change this. -/
theorem C9_getTempNonUniformity_max_minus_min (b : Block) (arena : List MeshElement)
    (hne : b.blockElements ≠ []) :
    ∃ pmin ∈ b.blockElements, ∃ pmax ∈ b.blockElements,
      (∀ p ∈ b.blockElements, (deref arena pmin).temperature ≤ (deref arena p).temperature ∧
        (deref arena p).temperature ≤ (deref arena pmax).temperature) ∧
      b.getTempNonUniformity arena =
        (deref arena pmax).temperature - (deref arena pmin).temperature := by
  obtain ⟨h1, h2, h3, h4, h5⟩ := nonUniformity_foldl arena b.blockElements
    (b.getBulkTemp arena, b.getBulkTemp arena)
  set r := b.blockElements.foldl (Block.nonUniformityStep arena)
    (b.getBulkTemp arena, b.getBulkTemp arena) with hr
  have hmean : b.getBulkTemp arena =
      (b.blockElements.map (fun p => (deref arena p).temperature)).sum /
        ((b.blockElements.map (fun p => (deref arena p).temperature)).length : ℚ) := by
    simp [Block.getBulkTemp, foldl_add_temperature]
  have hne' : b.blockElements.map (fun p => (deref arena p).temperature) ≠ [] := by
    simpa using hne
  obtain ⟨hm1, hm2⟩ := mean_between _ hne' r.1 r.2
    (by
      intro t ht
      obtain ⟨p, hp, rfl⟩ := List.mem_map.mp ht
      exact (h3 p hp).1)
    (by
      intro t ht
      obtain ⟨p, hp, rfl⟩ := List.mem_map.mp ht
      exact (h3 p hp).2)
  rw [← hmean] at hm1 hm2
  simp only at h1 h2 h4 h5
  obtain ⟨p0, hp0⟩ := List.exists_mem_of_ne_nil _ hne
  have hmin : ∃ pmin ∈ b.blockElements, r.1 = (deref arena pmin).temperature := by
    rcases h4 with h4 | h4
    · -- the low extreme is still the mean, so every temperature equals the mean
      refine ⟨p0, hp0, ?_⟩
      by_contra hcon
      have hlt : r.1 < (deref arena p0).temperature := lt_of_le_of_ne (h3 p0 hp0).1 hcon
      have hstrict : r.1 * (b.blockElements.length : ℚ) <
          (b.blockElements.map (fun p => (deref arena p).temperature)).sum := by
        clear hmean hm1 hm2 h1 h2 h4 h5 hne hne' hcon
        have hge : ∀ p ∈ b.blockElements, r.1 ≤ (deref arena p).temperature :=
          fun p hp => (h3 p hp).1
        clear h3 hr
        generalize b.blockElements = l at hp0 hge
        induction l with
        | nil => simp at hp0
        | cons a l ih =>
          simp only [List.length_cons, List.map_cons, List.sum_cons]
          push_cast
          have hsum : r.1 * (l.length : ℚ) ≤
              (l.map (fun p => (deref arena p).temperature)).sum := by
            clear ih hp0
            have hge' : ∀ p ∈ l, r.1 ≤ (deref arena p).temperature :=
              fun p hp => hge p (List.mem_cons_of_mem _ hp)
            clear hge
            induction l with
            | nil => simp
            | cons c l ih2 =>
              simp only [List.length_cons, List.map_cons, List.sum_cons]
              push_cast
              have := ih2 (fun p hp => hge' p (List.mem_cons_of_mem _ hp))
              have := hge' c (by simp)
              linarith
          rcases List.mem_cons.mp hp0 with rfl | hp0'
          · linarith
          · have := ih hp0' (fun p hp => hge p (List.mem_cons_of_mem _ hp))
            have := hge a (by simp)
            linarith
      have hlen : (0 : ℚ) < b.blockElements.length := by
        have : 0 < b.blockElements.length := List.length_pos.mpr hne
        exact_mod_cast this
      have : r.1 < b.getBulkTemp arena := by
        rw [hmean, lt_div_iff₀ (by simpa using hlen)]
        simpa using hstrict
      linarith
    · exact h4
  have hmax : ∃ pmax ∈ b.blockElements, r.2 = (deref arena pmax).temperature := by
    rcases h5 with h5 | h5
    · refine ⟨p0, hp0, ?_⟩
      by_contra hcon
      have hlt : (deref arena p0).temperature < r.2 :=
        lt_of_le_of_ne (h3 p0 hp0).2 (Ne.symm hcon)
      have hstrict : (b.blockElements.map (fun p => (deref arena p).temperature)).sum <
          r.2 * (b.blockElements.length : ℚ) := by
        clear hmean hm1 hm2 h1 h2 h4 h5 hne hne' hcon hmin
        have hge : ∀ p ∈ b.blockElements, (deref arena p).temperature ≤ r.2 :=
          fun p hp => (h3 p hp).2
        clear h3 hr
        generalize b.blockElements = l at hp0 hge
        induction l with
        | nil => simp at hp0
        | cons a l ih =>
          simp only [List.length_cons, List.map_cons, List.sum_cons]
          push_cast
          have hsum : (l.map (fun p => (deref arena p).temperature)).sum ≤
              r.2 * (l.length : ℚ) := by
            clear ih hp0
            have hge' : ∀ p ∈ l, (deref arena p).temperature ≤ r.2 :=
              fun p hp => hge p (List.mem_cons_of_mem _ hp)
            clear hge
            induction l with
            | nil => simp
            | cons c l ih2 =>
              simp only [List.length_cons, List.map_cons, List.sum_cons]
              push_cast
              have := ih2 (fun p hp => hge' p (List.mem_cons_of_mem _ hp))
              have := hge' c (by simp)
              linarith
          rcases List.mem_cons.mp hp0 with rfl | hp0'
          · linarith
          · have := ih hp0' (fun p hp => hge p (List.mem_cons_of_mem _ hp))
            have := hge a (by simp)
            linarith
      have hlen : (0 : ℚ) < b.blockElements.length := by
        have : 0 < b.blockElements.length := List.length_pos.mpr hne
        exact_mod_cast this
      have : b.getBulkTemp arena < r.2 := by
        rw [hmean, div_lt_iff₀ (by simpa using hlen)]
        simpa using hstrict
      linarith
    · exact h5
  obtain ⟨pmin, hpmin, hmin⟩ := hmin
  obtain ⟨pmax, hpmax, hmax⟩ := hmax
  refine ⟨pmin, hpmin, pmax, hpmax, ?_, ?_⟩
  · intro p hp
    rw [← hmin, ← hmax]
    exact h3 p hp
  · rw [← hmin, ← hmax]
    rfl

/-- C9 at a block holding the two elements of `arenaTwo`. -/
theorem C9_getTempNonUniformity_max_minus_min_witness :
    blockTwo.blockElements ≠ [] ∧
    ∃ pmin ∈ blockTwo.blockElements, ∃ pmax ∈ blockTwo.blockElements,
      (∀ p ∈ blockTwo.blockElements,
        (deref arenaTwo pmin).temperature ≤ (deref arenaTwo p).temperature ∧
        (deref arenaTwo p).temperature ≤ (deref arenaTwo pmax).temperature) ∧
      blockTwo.getTempNonUniformity arenaTwo =
        (deref arenaTwo pmax).temperature - (deref arenaTwo pmin).temperature :=
  ⟨by decide, C9_getTempNonUniformity_max_minus_min blockTwo arenaTwo (by decide)⟩

/-! ## Block construction -/

theorem cround_of_nonneg {q : ℚ} (h : 0 ≤ q) : cround q = ⌊q + 1 / 2⌋ := by
  simp [cround, h]

theorem cround_nonneg {q : ℚ} (h : 0 ≤ q) : 0 ≤ cround q := by
  rw [cround_of_nonneg h]
  exact Int.floor_nonneg.mpr (by linarith)

theorem one_le_cround_iff {q : ℚ} (h : 0 ≤ q) : 1 ≤ cround q ↔ 1 / 2 ≤ q := by
  rw [cround_of_nonneg h, Int.le_floor]
  constructor <;> intro h' <;> norm_num at h' ⊢ <;> linarith

theorem Block.ctor_xElementCount (xIn yIn zIn m : ℚ) (mat : Material) (q : ℚ) :
    (Block.ctor xIn yIn zIn m mat q).xElementCount = cround ((cround xIn : ℚ) / m) := rfl

theorem Block.ctor_yElementCount (xIn yIn zIn m : ℚ) (mat : Material) (q : ℚ) :
    (Block.ctor xIn yIn zIn m mat q).yElementCount = cround ((cround yIn : ℚ) / m) := rfl

theorem Block.ctor_zElementCount (xIn yIn zIn m : ℚ) (mat : Material) (q : ℚ) :
    (Block.ctor xIn yIn zIn m mat q).zElementCount = ⌈zIn / m⌉ := rfl

/-- C10 (as the code has it): for a block built with positive lengths and a
positive mesh resolution, `zElementCount ≥ 1`; `xElementCount ≥ 1` holds exactly
when the rounded X length is at least half the mesh resolution
(`meshSize ≤ 2 * round(xIn)`), and likewise for Y. -/
theorem C10_element_counts_ge_one_iff (xIn yIn zIn m : ℚ) (mat : Material) (q : ℚ)
    (hx : 0 < xIn) (hy : 0 < yIn) (hz : 0 < zIn) (hm : 0 < m) :
    1 ≤ (Block.ctor xIn yIn zIn m mat q).zElementCount ∧
    (1 ≤ (Block.ctor xIn yIn zIn m mat q).xElementCount ↔ m ≤ 2 * (cround xIn : ℚ)) ∧
    (1 ≤ (Block.ctor xIn yIn zIn m mat q).yElementCount ↔ m ≤ 2 * (cround yIn : ℚ)) := by
  have key : ∀ a : ℚ, 0 < a →
      (1 ≤ cround ((cround a : ℚ) / m) ↔ m ≤ 2 * (cround a : ℚ)) := by
    intro a ha
    have h0 : (0 : ℚ) ≤ (cround a : ℚ) := by exact_mod_cast cround_nonneg ha.le
    rw [one_le_cround_iff (div_nonneg h0 hm.le), le_div_iff₀ hm]
    constructor <;> intro h <;> linarith
  refine ⟨?_, ?_, ?_⟩
  · rw [Block.ctor_zElementCount]
    have : 0 < ⌈zIn / m⌉ := Int.ceil_pos.mpr (div_pos hz hm)
    omega
  · rw [Block.ctor_xElementCount]
    exact key xIn hx
  · rw [Block.ctor_yElementCount]
    exact key yIn hy

/-- C10 at the 15 x 10 x 3 block of mesh resolution one half. -/
theorem C10_element_counts_ge_one_iff_witness :
    1 ≤ (Block.ctor 15 10 3 (1 / 2) unitMaterial 0).zElementCount :=
  (C10_element_counts_ge_one_iff 15 10 3 (1 / 2) unitMaterial 0
    (by norm_num) (by norm_num) (by norm_num) (by norm_num)).1

/-- C10 as stated fails: a block of X length 3/10 (positive), unit Y and Z
lengths and unit mesh resolution gets `xElementCount = 0`. -/
theorem C10_counterexample :
    ((0 : ℚ) < 3 / 10 ∧ (0 : ℚ) < 1) ∧
    (Block.ctor (3 / 10) 1 1 1 unitMaterial 0).xElementCount = 0 ∧
    ¬ (1 ≤ (Block.ctor (3 / 10) 1 1 1 unitMaterial 0).xElementCount) := by
  have h1 : cround (3 / 10) = 0 := by
    rw [cround_of_nonneg (by norm_num), Int.floor_eq_iff]
    norm_num
  have h : (Block.ctor (3 / 10) 1 1 1 unitMaterial 0).xElementCount = 0 := by
    rw [Block.ctor_xElementCount, h1]
    norm_num [cround]
  refine ⟨⟨by norm_num, by norm_num⟩, h, ?_⟩
  rw [h]
  norm_num

/-! ## One solver step -/

theorem calcEnergyTransfer_length (n : MeshNode) (dt : ℚ) (arena : List MeshElement) :
    (n.calcEnergyTransfer dt arena).length = arena.length := by
  simp [MeshNode.calcEnergyTransfer]

/-- What a node deposits on the element at index `i`, in the sign convention
of the code. -/
theorem calcEnergyTransfer_deref (n : MeshNode) (dt : ℚ) (arena : List MeshElement)
    (ha : n.first < arena.length) (hb : n.second < arena.length) (i : Nat) :
    deref (n.calcEnergyTransfer dt arena) i =
      { deref arena i with
        energyExternalPending :=
          (deref arena i).energyExternalPending + inflowThrough arena dt i n } := by
  unfold MeshNode.calcEnergyTransfer MeshNode.energy inflowThrough
  simp only [deref_modify, List.length_modify, MeshElement.getTemperature]
  by_cases h1 : n.first = i <;> by_cases h2 : n.second = i
  · subst h1
    simp [← h2, ha, MeshElement.setPendingEnergy]
  · subst h1
    simp [h2, ha, MeshElement.setPendingEnergy, Ne.symm h2]
    ring
  · subst h2
    simp [h1, hb, MeshElement.setPendingEnergy, Ne.symm h1]
    ring
  · simp [h1, h2, Ne.symm h1, Ne.symm h2]

theorem inflowThrough_congr (arena arena' : List MeshElement) (dt : ℚ) (i : Nat) (n : MeshNode)
    (h : ∀ j, (deref arena' j).temperature = (deref arena j).temperature) :
    inflowThrough arena' dt i n = inflowThrough arena dt i n := by
  simp [inflowThrough, h]

/-- The transfer loop: every element ends with its pending accumulator raised
by the inflow through every node, all read at the temperatures of the start. -/
theorem transfer_foldl (dt : ℚ) (nodes : List MeshNode) (arena : List MeshElement)
    (hn : ∀ n ∈ nodes, n.first < arena.length ∧ n.second < arena.length) :
    (nodes.foldl (fun arena n => n.calcEnergyTransfer dt arena) arena).length = arena.length ∧
    ∀ i, deref (nodes.foldl (fun arena n => n.calcEnergyTransfer dt arena) arena) i =
      { deref arena i with
        energyExternalPending :=
          (deref arena i).energyExternalPending
            + (nodes.map (inflowThrough arena dt i)).sum } := by
  induction nodes generalizing arena with
  | nil => simp
  | cons n nodes ih =>
    obtain ⟨ha, hb⟩ := hn n (by simp)
    have hlen := calcEnergyTransfer_length n dt arena
    have hn' : ∀ m ∈ nodes, m.first < (n.calcEnergyTransfer dt arena).length ∧
        m.second < (n.calcEnergyTransfer dt arena).length := by
      intro m hm
      rw [hlen]
      exact hn m (List.mem_cons_of_mem _ hm)
    obtain ⟨ih1, ih2⟩ := ih (n.calcEnergyTransfer dt arena) hn'
    have htemp : ∀ j, (deref (n.calcEnergyTransfer dt arena) j).temperature =
        (deref arena j).temperature := by
      intro j
      rw [calcEnergyTransfer_deref n dt arena ha hb j]
    refine ⟨by simpa [hlen] using ih1, ?_⟩
    intro i
    simp only [List.foldl_cons, List.map_cons, List.sum_cons]
    rw [ih2 i, calcEnergyTransfer_deref n dt arena ha hb i]
    have hcongr : (nodes.map (inflowThrough (n.calcEnergyTransfer dt arena) dt i)) =
        (nodes.map (inflowThrough arena dt i)) := by
      apply List.map_congr_left
      intro m _
      exact inflowThrough_congr _ _ _ _ _ htemp
    rw [hcongr]
    simp only [add_assoc]

/-- The commit loop over the first `k` slots. -/
theorem commit_foldl (k : Nat) (arena : List MeshElement) :
    ((List.range k).foldl
        (fun arena j => arena.modify MeshElement.applyEnergyTransfer j) arena).length
      = arena.length ∧
    ∀ i, deref ((List.range k).foldl
        (fun arena j => arena.modify MeshElement.applyEnergyTransfer j) arena) i =
      if i < k ∧ i < arena.length then (deref arena i).applyEnergyTransfer
      else deref arena i := by
  induction k with
  | zero => simp
  | succ k ih =>
    obtain ⟨ih1, ih2⟩ := ih
    rw [List.range_succ, List.foldl_append]
    simp only [List.foldl_cons, List.foldl_nil, List.length_modify]
    refine ⟨ih1, ?_⟩
    intro i
    rw [deref_modify, ih1, ih2 i]
    by_cases hik : k = i
    · subst hik
      by_cases hlt : k < arena.length <;> simp [hlt]
    · by_cases hlt : i < k
      · have : i < k + 1 := by omega
        simp [hik, hlt, this]
      · have : ¬ i < k + 1 := by omega
        simp [hik, hlt, this]

/-- C1: in a meshed stack whose pending accumulators are all zero and whose
Active capacitances are non-zero, one transfer phase followed by one commit
phase turns the temperature of every Active element `e` into
`T(e) + (gen(e) + Σ_n (T(other endpoint of n) - T(e)) * timeStep / R(n)) / c(e)`,
the sum taken over the nodes incident to `e` and every `T` read at the start of
the step; Empty elements are left exactly as they were. -/
theorem C1_solveStep_explicit_update (s : ThermalStack) (hm : Meshed s)
    (hpending : ∀ e ∈ s.elementArray, e.energyExternalPending = 0)
    (hcap : ∀ e ∈ s.elementArray, e.empty = false → e.cElement ≠ 0) :
    s.solveStep.elementArray.length = s.elementArray.length ∧
    ∀ (i : Nat) (e : MeshElement), s.elementArray[i]? = some e →
      ∃ e', s.solveStep.elementArray[i]? = some e' ∧
        (e.empty = false →
          e.cElement ≠ 0 ∧
          e'.temperature =
            e.temperature + (e.energyGenPerTimestep
              + (s.nodeVector.map (inflowThrough s.elementArray s.timeStep i)).sum)
              / e.cElement) ∧
        (e.empty = true → e' = e) := by
  obtain ⟨ht1, ht2⟩ := transfer_foldl s.timeStep s.nodeVector s.elementArray
    (fun n hn => ⟨(hm.nodes_valid n hn).1, (hm.nodes_valid n hn).2.1⟩)
  obtain ⟨hc1, hc2⟩ :=
    commit_foldl s.transferPhase.totalElementCount.toNat s.transferPhase.elementArray
  have htot : s.transferPhase.totalElementCount = s.totalElementCount := rfl
  have hlen : s.solveStep.elementArray.length = s.elementArray.length := by
    simp only [ThermalStack.solveStep, ThermalStack.commitPhase] at hc1 ⊢
    rw [hc1]
    exact ht1
  refine ⟨hlen, ?_⟩
  intro i e hie
  have hi : i < s.elementArray.length := by
    by_contra hcon
    rw [List.getElem?_eq_none (not_lt.mp hcon)] at hie
    cases hie
  have hei : s.elementArray[i] = e := by
    rw [List.getElem?_eq_getElem hi] at hie
    exact Option.some.inj hie
  have hmem : e ∈ s.elementArray := hei ▸ List.getElem_mem hi
  have hi' : i < s.solveStep.elementArray.length := by rw [hlen]; exact hi
  refine ⟨s.solveStep.elementArray[i], List.getElem?_eq_getElem hi', ?_, ?_⟩
  all_goals
    have hval : s.solveStep.elementArray[i] =
        (deref s.transferPhase.elementArray i).applyEnergyTransfer := by
      rw [← deref_of_lt hi']
      have := hc2 i
      simp only [ThermalStack.solveStep, ThermalStack.commitPhase] at this ⊢
      rw [this, if_pos]
      refine ⟨by rw [htot, hm.size]; exact hi, ?_⟩
      simp only [ThermalStack.transferPhase]
      rw [ht1]
      exact hi
    have hmid : deref s.transferPhase.elementArray i =
        { e with energyExternalPending :=
            e.energyExternalPending
              + (s.nodeVector.map (inflowThrough s.elementArray s.timeStep i)).sum } := by
      simp only [ThermalStack.transferPhase]
      rw [ht2 i, deref_of_lt hi, hei]
  · intro hact
    refine ⟨hcap e hmem hact, ?_⟩
    rw [hval, hmid]
    simp [MeshElement.applyEnergyTransfer, hact, hpending e hmem]
  · intro hemp
    rw [hval, hmid]
    -- no node is incident to an Empty element
    have hzero : (s.nodeVector.map (inflowThrough s.elementArray s.timeStep i)).sum = 0 := by
      apply List.sum_eq_zero
      intro v hv
      obtain ⟨n, hn, rfl⟩ := List.mem_map.mp hv
      obtain ⟨-, -, h1, h2⟩ := hm.nodes_valid n hn
      have hne1 : n.first ≠ i := by
        rintro rfl
        rw [deref_of_lt hi, hei, hemp] at h1
        cases h1
      have hne2 : n.second ≠ i := by
        rintro rfl
        rw [deref_of_lt hi, hei, hemp] at h2
        cases h2
      simp [inflowThrough, hne1, hne2]
    cases e
    simp_all [MeshElement.applyEnergyTransfer]

theorem stackTwo_meshed : Meshed stackTwo := ⟨by decide, by decide⟩

/-- C1 on `stackTwo`: the element at 70 degrees, joined through resistance 2 to
one at 60 degrees, ends the step at `70 + ((60 - 70) * (1/10) / 2) / 4`. -/
theorem C1_solveStep_explicit_update_witness :
    ∃ e', stackTwo.solveStep.elementArray[0]? = some e' ∧ e'.temperature = 559 / 8 := by
  obtain ⟨-, h⟩ := C1_solveStep_explicit_update stackTwo stackTwo_meshed
    (by simp [stackTwo, arenaTwo, MeshElement.ctor])
    (by simp [stackTwo, arenaTwo, MeshElement.ctor])
  obtain ⟨e', he', hact, -⟩ := h 0 (MeshElement.ctor 70 0 4 1 1 0) rfl
  refine ⟨e', he', ?_⟩
  rw [(hact rfl).2]
  norm_num [stackTwo, arenaTwo, nodeTwo, inflowThrough, deref, MeshElement.ctor,
    ThermalStack.ctor]

/-! ## Loops as folds -/

/-- Invariant rule for a `for` loop that may fail. -/
theorem foldlM_range_inv {σ : Type} (f : σ → Nat → Option σ) (P : Nat → σ → Prop) (n : Nat)
    (s0 : σ) (h0 : P 0 s0)
    (hstep : ∀ i s, i < n → P i s → ∃ s', f s i = some s' ∧ P (i + 1) s') :
    ∃ s', (List.range n).foldlM f s0 = some s' ∧ P n s' := by
  induction n with
  | zero => exact ⟨s0, by simp, h0⟩
  | succ n ih =>
    obtain ⟨s1, h1, hP1⟩ := ih (fun i s hi hP => hstep i s (by omega) hP)
    obtain ⟨s2, h2, hP2⟩ := hstep n s1 (by omega) hP1
    refine ⟨s2, ?_, hP2⟩
    rw [List.range_succ, List.foldlM_append, h1]
    simp [h2]

/-- Invariant rule for a `for` loop. -/
theorem foldl_range_inv {σ : Type} (f : σ → Nat → σ) (P : Nat → σ → Prop) (n : Nat)
    (s0 : σ) (h0 : P 0 s0) (hstep : ∀ i s, i < n → P i s → P (i + 1) (f s i)) :
    P n ((List.range n).foldl f s0) := by
  induction n with
  | zero => simpa using h0
  | succ n ih =>
    rw [List.range_succ, List.foldl_append]
    simp only [List.foldl_cons, List.foldl_nil]
    exact hstep n _ (by omega) (ih (fun i s hi hP => hstep i s (by omega) hP))

/-! ## Grid addressing on natural numbers -/

theorem slotOf_lt {Xn Yn Zn x y z : Nat} (hx : x < Xn) (hy : y < Yn) (hz : z < Zn) :
    slotOf Xn Yn x y z < Xn * Yn * Zn := by
  have h := linearIndex_bounds (Xn : Int) Yn Zn x y z (by omega) (by omega) (by omega)
    (by omega) (by omega) (by omega)
  unfold slotOf
  have h2 := h.2
  exact_mod_cast h2

theorem slotOf_inj {Xn Yn x y z x' y' z' : Nat} (hx : x < Xn) (hy : y < Yn)
    (hx' : x' < Xn) (hy' : y' < Yn)
    (h : slotOf Xn Yn x y z = slotOf Xn Yn x' y' z') : x = x' ∧ y = y' ∧ z = z' := by
  unfold slotOf at h
  have e1 : ∀ a b c : Nat, a < Xn → (a + b * Xn + c * Xn * Yn) % Xn = a := by
    intro a b c ha
    have : a + b * Xn + c * Xn * Yn = a + Xn * (b + c * Yn) := by ring
    rw [this, Nat.add_mul_mod_self_left, Nat.mod_eq_of_lt ha]
  have e2 : ∀ a b c : Nat, a < Xn → (a + b * Xn + c * Xn * Yn) / Xn = b + c * Yn := by
    intro a b c ha
    have : a + b * Xn + c * Xn * Yn = a + Xn * (b + c * Yn) := by ring
    rw [this, Nat.add_mul_div_left _ _ (by omega), Nat.div_eq_of_lt ha, Nat.zero_add]
  have hxx : x = x' := by
    have := congrArg (· % Xn) h
    simpa [e1 x y z hx, e1 x' y' z' hx'] using this
  have h2 : y + z * Yn = y' + z' * Yn := by
    have := congrArg (· / Xn) h
    simpa [e2 x y z hx, e2 x' y' z' hx'] using this
  have hyy : y = y' := by
    have := congrArg (· % Yn) h2
    simpa [Nat.add_mul_mod_self_right, Nat.mod_eq_of_lt hy, Nat.mod_eq_of_lt hy'] using this
  have hzz : z = z' := by
    have := congrArg (· / Yn) h2
    simpa [Nat.add_mul_div_right _ _ (show 0 < Yn by omega), Nat.div_eq_of_lt hy,
      Nat.div_eq_of_lt hy'] using this
  exact ⟨hxx, hyy, hzz⟩

theorem slotOf_surj {Xn Yn Zn i : Nat} (hi : i < Xn * Yn * Zn) :
    ∃ x y z, x < Xn ∧ y < Yn ∧ z < Zn ∧ i = slotOf Xn Yn x y z := by
  have hX : 0 < Xn := by
    rcases Nat.eq_zero_or_pos Xn with h | h
    · subst h; simp at hi
    · exact h
  have hY : 0 < Yn := by
    rcases Nat.eq_zero_or_pos Yn with h | h
    · subst h; simp at hi
    · exact h
  refine ⟨i % Xn, (i / Xn) % Yn, i / Xn / Yn, Nat.mod_lt _ hX, Nat.mod_lt _ hY, ?_, ?_⟩
  · rw [Nat.div_div_eq_div_mul]
    exact Nat.div_lt_of_lt_mul hi
  · unfold slotOf
    have h1 := Nat.mod_add_div i Xn
    have h2 := Nat.mod_add_div (i / Xn) Yn
    calc i = i % Xn + Xn * (i / Xn) := h1.symm
      _ = i % Xn + Xn * ((i / Xn) % Yn + Yn * (i / Xn / Yn)) := by rw [h2]
      _ = i % Xn + (i / Xn) % Yn * Xn + i / Xn / Yn * Xn * Yn := by ring

theorem linearIndex_toNat (s : ThermalStack) (Xn Yn : Nat) (hX : s.xElementCountMax = Xn)
    (hY : s.yElementCountMax = Yn) (x y z : Nat) :
    (s.linearIndex x y z).toNat = slotOf Xn Yn x y z := by
  unfold ThermalStack.linearIndex slotOf
  rw [hX, hY]
  have : ((x : Int) + (y : Int) * (Xn : Int) + (z : Int) * (Xn : Int) * (Yn : Int)) =
      ((x + y * Xn + z * Xn * Yn : Nat) : Int) := by push_cast; ring
  rw [this, Int.toNat_natCast]

/-- In-box lookups of a non-Empty slot succeed. -/
theorem nav3DArray_of_active (s : ThermalStack) (Xn Yn Zn : Nat)
    (hX : s.xElementCountMax = Xn) (hY : s.yElementCountMax = Yn)
    (hZ : s.zElementCountMax = Zn) (x y z : Nat) (hx : x < Xn) (hy : y < Yn) (hz : z < Zn) :
    s.nav3DArray x y z =
      if (deref s.elementArray (slotOf Xn Yn x y z)).empty then none
      else some (slotOf Xn Yn x y z) := by
  unfold ThermalStack.nav3DArray
  rw [linearIndex_toNat s Xn Yn hX hY, hX, hY, hZ]
  have : ¬ ((x : Int) < 0 ∨ (x : Int) ≥ Xn ∨ (y : Int) < 0 ∨ (y : Int) ≥ Yn ∨
      (z : Int) < 0 ∨ (z : Int) ≥ Zn) := by omega
  simp only [this, if_false, MeshElement.isEmpty]

/-! ## Element instantiation (`genMeshElements`) -/

theorem Block.register_nil (b : Block) : Block.register [] b = b := by
  simp [Block.register]

theorem Block.register_register (ps qs : List Nat) (b : Block) :
    Block.register qs (Block.register ps b) = Block.register (ps ++ qs) b := by
  simp [Block.register]

theorem Block.clearElements_register (ps : List Nat) (b : Block) :
    (Block.register ps b).clearElements = b.clearElements := rfl

theorem Block.rememberMyElement_eq (p : Nat) (b : Block) :
    b.rememberMyElement p = Block.register [p] b := rfl

theorem inFootprint_congr (xMax yMax : Int) (b b' : Block)
    (h : b.clearElements = b'.clearElements) (x y : Int) :
    inFootprint xMax yMax b x y ↔ inFootprint xMax yMax b' x y := by
  have hx : b.xElementCount = b'.xElementCount := by
    have := congrArg Block.xElementCount h
    exact this
  have hy : b.yElementCount = b'.yElementCount := by
    have := congrArg Block.yElementCount h
    exact this
  simp [inFootprint, Block.getXElementCount, Block.getYElementCount, hx, hy]

theorem meshedElement_congr (T0 dt : ℚ) (xMax yMax : Int) (b b' : Block)
    (h : b.clearElements = b'.clearElements) (x y z : Int) :
    meshedElement T0 dt xMax yMax b x y z = meshedElement T0 dt xMax yMax b' x y z := by
  have h1 : b.qGenElement = b'.qGenElement := by
    have := congrArg Block.qGenElement h
    exact this
  have h2 : b.cElement = b'.cElement := by
    have := congrArg Block.cElement h
    exact this
  have h3 : b.xyRAbsolute = b'.xyRAbsolute := by
    have := congrArg Block.xyRAbsolute h
    exact this
  have h4 : b.zRAbsolute = b'.zRAbsolute := by
    have := congrArg Block.zRAbsolute h
    exact this
  simp only [meshedElement, inFootprint_congr xMax yMax b b' h, Block.getQGenElement,
    Block.getCElement, Block.getXYRAbsolute, Block.getZRAbsolute, h1, h2, h3, h4]

theorem modify_register_nil (l : List Block) (k : Nat) :
    l.modify (Block.register []) k = l := by
  have : Block.register [] = id := funext Block.register_nil
  rw [this]
  exact List.modify_id k l

theorem modify_register_register (l : List Block) (k : Nat) (ps qs : List Nat) :
    (l.modify (Block.register ps) k).modify (Block.register qs) k =
      l.modify (Block.register (ps ++ qs)) k := by
  apply List.ext_getElem?
  intro i
  simp only [List.getElem?_modify]
  cases l[i]? with
  | none => simp
  | some b =>
    by_cases h : k = i <;> simp [h, Block.register_register]

theorem map_clearElements_modify_register (l : List Block) (k : Nat) (ps : List Nat) :
    (l.modify (Block.register ps) k).map Block.clearElements = l.map Block.clearElements := by
  apply List.ext_getElem?
  intro i
  simp only [List.getElem?_map, List.getElem?_modify]
  cases l[i]? with
  | none => simp
  | some b =>
    by_cases h : k = i <;> simp [h, Block.clearElements_register]

theorem set_modify_same (l : List MeshElement) (i : Nat) (e : MeshElement)
    (f : MeshElement → MeshElement) : (l.set i e).modify f i = l.set i (f e) := by
  apply List.ext_getElem?
  intro j
  simp only [List.getElem?_modify, List.getElem?_set]
  by_cases h : i = j
  · subst h
    by_cases hl : i < l.length <;> simp [hl]
  · simp [h]

theorem GenInv.xMax {s1 s : ThermalStack} {Xn Yn Zn : Nat} {V : Nat → Prop}
    (h : GenInv s1 Xn Yn Zn V s) : s.xElementCountMax = s1.xElementCountMax := by
  have := congrArg ThermalStack.xElementCountMax h.frame
  exact this

theorem GenInv.yMax {s1 s : ThermalStack} {Xn Yn Zn : Nat} {V : Nat → Prop}
    (h : GenInv s1 Xn Yn Zn V s) : s.yElementCountMax = s1.yElementCountMax := by
  have := congrArg ThermalStack.yElementCountMax h.frame
  exact this

theorem GenInv.zMax {s1 s : ThermalStack} {Xn Yn Zn : Nat} {V : Nat → Prop}
    (h : GenInv s1 Xn Yn Zn V s) : s.zElementCountMax = s1.zElementCountMax := by
  have := congrArg ThermalStack.zElementCountMax h.frame
  exact this

theorem GenInv.startingTemperature_eq {s1 s : ThermalStack} {Xn Yn Zn : Nat} {V : Nat → Prop}
    (h : GenInv s1 Xn Yn Zn V s) : s.startingTemperature = s1.startingTemperature := by
  have := congrArg ThermalStack.startingTemperature h.frame
  exact this

theorem GenInv.timeStep_eq {s1 s : ThermalStack} {Xn Yn Zn : Nat} {V : Nat → Prop}
    (h : GenInv s1 Xn Yn Zn V s) : s.timeStep = s1.timeStep := by
  have := congrArg ThermalStack.timeStep h.frame
  exact this

/-- The block the loop reads at index `k` has the geometry of the block declared there. -/
theorem GenInv.block_at {s1 s : ThermalStack} {Xn Yn Zn : Nat} {V : Nat → Prop}
    (h : GenInv s1 Xn Yn Zn V s) {k : Nat} {b : Block} (hb : s1.blocks[k]? = some b) :
    ∃ blk, s.blocks[k]? = some blk ∧ blk.clearElements = b.clearElements := by
  have hg := congrArg (fun l => l[k]?) h.geometry
  simp only [List.getElem?_map, hb, Option.map_some'] at hg
  cases hs : s.blocks[k]? with
  | none => simp [hs] at hg
  | some blk =>
    refine ⟨blk, rfl, ?_⟩
    simpa [hs] using hg

/-- One pass of the innermost loop body of `genMeshElements`. -/
theorem genMeshElementsCell_spec (s1 : ThermalStack) (Xn Yn Zn : Nat)
    (hX : s1.xElementCountMax = Xn) (hY : s1.yElementCountMax = Yn)
    (hZ : s1.zElementCountMax = Zn)
    (V : Nat → Prop) (s : ThermalStack) (hinv : GenInv s1 Xn Yn Zn V s)
    (cb : Nat) (b : Block) (hb : s1.blocks[cb]? = some b)
    (x y z : Nat) (hx : x < Xn) (hy : y < Yn) (hz : z < Zn)
    (hlay : layersBefore s1.blocks cb ≤ (z : Int) ∧ (z : Int) < layersBefore s1.blocks (cb + 1))
    (hV : ¬ V (slotOf Xn Yn x y z)) :
    ∃ s', ThermalStack.genMeshElementsCell cb z x y s = some s' ∧
      GenInv s1 Xn Yn Zn (fun i => V i ∨ i = slotOf Xn Yn x y z) s' ∧
      s'.blocks = s.blocks.modify
        (Block.register (if inFootprint Xn Yn b x y then [slotOf Xn Yn x y z] else [])) cb ∧
      s'.activeElementCount =
        s.activeElementCount + (if inFootprint Xn Yn b x y then 1 else 0) := by
  have hsX : s.xElementCountMax = Xn := hinv.xMax.trans hX
  have hsY : s.yElementCountMax = Yn := hinv.yMax.trans hY
  have hsZ : s.zElementCountMax = Zn := hinv.zMax.trans hZ
  have hslot : slotOf Xn Yn x y z < Xn * Yn * Zn := slotOf_lt hx hy hz
  have hnav : s.nav3DArray x y z = some (slotOf Xn Yn x y z) := by
    rw [nav3DArray_of_active s Xn Yn Zn hsX hsY hsZ x y z hx hy hz,
      hinv.todo _ hslot hV]
    simp
  obtain ⟨blk, hblk, hgeo⟩ := hinv.block_at hb
  have hfp : inFootprint Xn Yn blk x y ↔ inFootprint Xn Yn b x y :=
    inFootprint_congr _ _ _ _ hgeo _ _
  have helem : meshedElement s.startingTemperature s.timeStep Xn Yn blk x y z =
      meshedElement s1.startingTemperature s1.timeStep Xn Yn b x y z := by
    rw [hinv.startingTemperature_eq, hinv.timeStep_eq]
    exact meshedElement_congr _ _ _ _ _ _ hgeo _ _ _
  -- the two outcomes of the footprint test
  by_cases hin : inFootprint Xn Yn b x y
  · have hin' : inFootprint Xn Yn blk x y := hfp.mpr hin
    have hcond : ¬ ((x : Int) < ((Xn : Int) - blk.getXElementCount).tdiv 2 ∨
        (x : Int) > ((Xn : Int) - blk.getXElementCount).tdiv 2 + blk.getXElementCount - 1 ∨
        (y : Int) < ((Yn : Int) - blk.getYElementCount).tdiv 2 ∨
        (y : Int) > ((Yn : Int) - blk.getYElementCount).tdiv 2 + blk.getYElementCount - 1) :=
      hin'
    refine ⟨{ s with
        elementArray := s.elementArray.set (slotOf Xn Yn x y z)
          (meshedElement s1.startingTemperature s1.timeStep Xn Yn b x y z)
        blocks := s.blocks.modify (fun b => b.rememberMyElement (slotOf Xn Yn x y z)) cb
        activeElementCount := s.activeElementCount + 1 }, ?_, ?_, ?_, ?_⟩
    · rw [← helem]
      simp [ThermalStack.genMeshElementsCell, hnav, hblk, hsX, hsY, hcond, meshedElement, hin']
    · refine ⟨hinv.frame, ?_, ?_, ?_, ?_⟩
      · simpa using hinv.size
      · show (s.blocks.modify (Block.register [slotOf Xn Yn x y z]) cb).map Block.clearElements
            = s1.blocks.map Block.clearElements
        rw [map_clearElements_modify_register]
        exact hinv.geometry
      · intro i hi
        show ∃ k b' x' y' z', _ ∧ _ ∧ _ ∧ _ ∧ _ ∧ _ ∧ _ ∧
          deref (s.elementArray.set (slotOf Xn Yn x y z) _) i = _
        rw [deref_set]
        by_cases hsl : slotOf Xn Yn x y z = i
        · subst hsl
          refine ⟨cb, b, x, y, z, hx, hy, hz, rfl, hb, hlay.1, hlay.2, ?_⟩
          simp [hinv.size, hslot]
        · rcases hi with hi | hi
          · obtain ⟨k, b', x', y', z', h1, h2, h3, h4, h5, h6, h7, h8⟩ := hinv.done i hi
            exact ⟨k, b', x', y', z', h1, h2, h3, h4, h5, h6, h7, by simp [hsl, h8]⟩
          · exact absurd hi.symm hsl
      · intro i hi hnv
        show (deref (s.elementArray.set (slotOf Xn Yn x y z) _) i).empty = false
        rw [deref_set]
        have hsl : slotOf Xn Yn x y z ≠ i := fun h => hnv (Or.inr h.symm)
        simp only [hsl, false_and, if_false]
        exact hinv.todo i hi (fun h => hnv (Or.inl h))
    · simp [hin]
      rfl
    · simp [hin]
  · have hin' : ¬ inFootprint Xn Yn blk x y := fun h => hin (hfp.mp h)
    have hcond : ((x : Int) < ((Xn : Int) - blk.getXElementCount).tdiv 2 ∨
        (x : Int) > ((Xn : Int) - blk.getXElementCount).tdiv 2 + blk.getXElementCount - 1 ∨
        (y : Int) < ((Yn : Int) - blk.getYElementCount).tdiv 2 ∨
        (y : Int) > ((Yn : Int) - blk.getYElementCount).tdiv 2 + blk.getYElementCount - 1) :=
      not_not.mp hin'
    refine ⟨{ s with
        elementArray := s.elementArray.set (slotOf Xn Yn x y z)
          (meshedElement s1.startingTemperature s1.timeStep Xn Yn b x y z) }, ?_, ?_, ?_, ?_⟩
    · rw [← helem]
      simp [ThermalStack.genMeshElementsCell, hnav, hblk, hsX, hsY, hcond, meshedElement, hin',
        set_modify_same]
    · refine ⟨hinv.frame, ?_, hinv.geometry, ?_, ?_⟩
      · simpa using hinv.size
      · intro i hi
        show ∃ k b' x' y' z', _ ∧ _ ∧ _ ∧ _ ∧ _ ∧ _ ∧ _ ∧
          deref (s.elementArray.set (slotOf Xn Yn x y z) _) i = _
        rw [deref_set]
        by_cases hsl : slotOf Xn Yn x y z = i
        · subst hsl
          refine ⟨cb, b, x, y, z, hx, hy, hz, rfl, hb, hlay.1, hlay.2, ?_⟩
          simp [hinv.size, hslot]
        · rcases hi with hi | hi
          · obtain ⟨k, b', x', y', z', h1, h2, h3, h4, h5, h6, h7, h8⟩ := hinv.done i hi
            exact ⟨k, b', x', y', z', h1, h2, h3, h4, h5, h6, h7, by simp [hsl, h8]⟩
          · exact absurd hi.symm hsl
      · intro i hi hnv
        show (deref (s.elementArray.set (slotOf Xn Yn x y z) _) i).empty = false
        rw [deref_set]
        have hsl : slotOf Xn Yn x y z ≠ i := fun h => hnv (Or.inr h.symm)
        simp only [hsl, false_and, if_false]
        exact hinv.todo i hi (fun h => hnv (Or.inl h))
    · simp [hin, modify_register_nil]
    · simp [hin]

theorem GenInv.congr {s1 s : ThermalStack} {Xn Yn Zn : Nat} {V V' : Nat → Prop}
    (h : GenInv s1 Xn Yn Zn V s) (hV : ∀ i, V i ↔ V' i) : GenInv s1 Xn Yn Zn V' s := by
  have : V = V' := funext (fun i => propext (hV i))
  rw [← this]
  exact h

theorem columnRegs_succ (Xn Yn : Nat) (b : Block) (z x m : Nat) :
    columnRegs Xn Yn b z x (m + 1) =
      columnRegs Xn Yn b z x m ++ (if inFootprint Xn Yn b x m then [slotOf Xn Yn x m z] else []) := by
  unfold columnRegs
  rw [List.range_succ, List.filter_append, List.map_append]
  by_cases h : inFootprint Xn Yn b x m <;> simp [h]

theorem planeRegs_succ (Xn Yn : Nat) (b : Block) (z j : Nat) :
    planeRegs Xn Yn b z (j + 1) = planeRegs Xn Yn b z j ++ columnRegs Xn Yn b z j Yn := by
  unfold planeRegs
  rw [List.range_succ, List.flatMap_append]
  simp

theorem layerRegs_succ (Xn Yn : Nat) (b : Block) (z0 n : Nat) :
    layerRegs Xn Yn b z0 (n + 1) = layerRegs Xn Yn b z0 n ++ planeRegs Xn Yn b (z0 + n) Xn := by
  unfold layerRegs
  rw [List.range_succ, List.flatMap_append]
  simp

/-- The loop over `y` of `genMeshElements` for one column. -/
theorem genMeshElements_column (s1 : ThermalStack) (Xn Yn Zn : Nat)
    (hX : s1.xElementCountMax = Xn) (hY : s1.yElementCountMax = Yn)
    (hZ : s1.zElementCountMax = Zn)
    (V : Nat → Prop) (s : ThermalStack) (hinv : GenInv s1 Xn Yn Zn V s)
    (cb : Nat) (b : Block) (hb : s1.blocks[cb]? = some b)
    (x z : Nat) (hx : x < Xn) (hz : z < Zn)
    (hlay : layersBefore s1.blocks cb ≤ (z : Int) ∧ (z : Int) < layersBefore s1.blocks (cb + 1))
    (hV : ∀ y, y < Yn → ¬ V (slotOf Xn Yn x y z)) :
    ∃ s', (List.range s.yElementCountMax.toNat).foldlM
        (fun s (y : Nat) => ThermalStack.genMeshElementsCell cb z x y s) s = some s' ∧
      GenInv s1 Xn Yn Zn (fun i => V i ∨ ∃ y, y < Yn ∧ i = slotOf Xn Yn x y z) s' ∧
      s'.blocks = s.blocks.modify (Block.register (columnRegs Xn Yn b z x Yn)) cb ∧
      s'.activeElementCount = s.activeElementCount + (columnRegs Xn Yn b z x Yn).length := by
  have hsY : s.yElementCountMax.toNat = Yn := by rw [hinv.yMax, hY]; simp
  rw [hsY]
  apply foldlM_range_inv
    (fun s (y : Nat) => ThermalStack.genMeshElementsCell cb z x y s)
    (fun m s' => GenInv s1 Xn Yn Zn (fun i => V i ∨ ∃ y, y < m ∧ i = slotOf Xn Yn x y z) s' ∧
      s'.blocks = s.blocks.modify (Block.register (columnRegs Xn Yn b z x m)) cb ∧
      s'.activeElementCount = s.activeElementCount + (columnRegs Xn Yn b z x m).length)
  · refine ⟨hinv.congr (fun i => by simp), ?_, ?_⟩
    · simp [columnRegs, modify_register_nil]
    · simp [columnRegs]
  · intro m s' hm ⟨hinv', hblocks, hcount⟩
    have hV' : ¬ (V (slotOf Xn Yn x m z) ∨
        ∃ y, y < m ∧ slotOf Xn Yn x m z = slotOf Xn Yn x y z) := by
      rintro (h | ⟨y, hy, h⟩)
      · exact hV m hm h
      · have := (slotOf_inj hx hm hx (by omega) h).2.1
        omega
    obtain ⟨s'', hcell, hinv'', hb'', hc''⟩ :=
      genMeshElementsCell_spec s1 Xn Yn Zn hX hY hZ _ s' hinv' cb b hb x m z hx hm hz hlay hV'
    refine ⟨s'', hcell, hinv''.congr ?_, ?_, ?_⟩
    · intro i
      constructor
      · rintro ((h | ⟨y, hy, h⟩) | h)
        · exact Or.inl h
        · exact Or.inr ⟨y, by omega, h⟩
        · exact Or.inr ⟨m, by omega, h⟩
      · rintro (h | ⟨y, hy, h⟩)
        · exact Or.inl (Or.inl h)
        · by_cases hym : y = m
          · subst hym; exact Or.inr h
          · exact Or.inl (Or.inr ⟨y, by omega, h⟩)
    · rw [hb'', hblocks, modify_register_register, columnRegs_succ]
    · rw [hc'', hcount, columnRegs_succ]
      by_cases hin : inFootprint Xn Yn b x m <;> simp [hin]
      ring

/-- The loops over `x` and `y` of `genMeshElements` for one layer. -/
theorem genMeshElements_plane (s1 : ThermalStack) (Xn Yn Zn : Nat)
    (hX : s1.xElementCountMax = Xn) (hY : s1.yElementCountMax = Yn)
    (hZ : s1.zElementCountMax = Zn)
    (V : Nat → Prop) (s : ThermalStack) (hinv : GenInv s1 Xn Yn Zn V s)
    (cb : Nat) (b : Block) (hb : s1.blocks[cb]? = some b)
    (z : Nat) (hz : z < Zn)
    (hlay : layersBefore s1.blocks cb ≤ (z : Int) ∧ (z : Int) < layersBefore s1.blocks (cb + 1))
    (hV : ∀ x y, x < Xn → y < Yn → ¬ V (slotOf Xn Yn x y z)) :
    ∃ s', ThermalStack.genMeshElementsPlane cb z s = some s' ∧
      GenInv s1 Xn Yn Zn
        (fun i => V i ∨ ∃ x y, x < Xn ∧ y < Yn ∧ i = slotOf Xn Yn x y z) s' ∧
      s'.blocks = s.blocks.modify (Block.register (planeRegs Xn Yn b z Xn)) cb ∧
      s'.activeElementCount = s.activeElementCount + (planeRegs Xn Yn b z Xn).length := by
  have hsX : s.xElementCountMax.toNat = Xn := by rw [hinv.xMax, hX]; simp
  unfold ThermalStack.genMeshElementsPlane
  rw [hsX]
  apply foldlM_range_inv
    (fun s (x : Nat) => (List.range s.yElementCountMax.toNat).foldlM
        (fun s (y : Nat) => ThermalStack.genMeshElementsCell cb z x y s) s)
    (fun j s' => GenInv s1 Xn Yn Zn
        (fun i => V i ∨ ∃ x y, x < j ∧ y < Yn ∧ i = slotOf Xn Yn x y z) s' ∧
      s'.blocks = s.blocks.modify (Block.register (planeRegs Xn Yn b z j)) cb ∧
      s'.activeElementCount = s.activeElementCount + (planeRegs Xn Yn b z j).length)
  · refine ⟨hinv.congr (fun i => by simp), ?_, ?_⟩
    · simp [planeRegs, modify_register_nil]
    · simp [planeRegs]
  · intro j s' hj ⟨hinv', hblocks, hcount⟩
    have hV' : ∀ y, y < Yn → ¬ (V (slotOf Xn Yn j y z) ∨
        ∃ x y', x < j ∧ y' < Yn ∧ slotOf Xn Yn j y z = slotOf Xn Yn x y' z) := by
      intro y hy
      rintro (h | ⟨x, y', hx, hy', h⟩)
      · exact hV j y hj hy h
      · have := (slotOf_inj hj hy (by omega) hy' h).1
        omega
    obtain ⟨s'', hcol, hinv'', hb'', hc''⟩ :=
      genMeshElements_column s1 Xn Yn Zn hX hY hZ _ s' hinv' cb b hb j z hj hz hlay hV'
    refine ⟨s'', hcol, hinv''.congr ?_, ?_, ?_⟩
    · intro i
      constructor
      · rintro ((h | ⟨x, y, hx, hy, h⟩) | ⟨y, hy, h⟩)
        · exact Or.inl h
        · exact Or.inr ⟨x, y, by omega, hy, h⟩
        · exact Or.inr ⟨j, y, by omega, hy, h⟩
      · rintro (h | ⟨x, y, hx, hy, h⟩)
        · exact Or.inl (Or.inl h)
        · by_cases hxj : x = j
          · subst hxj; exact Or.inr ⟨y, hy, h⟩
          · exact Or.inl (Or.inr ⟨x, y, by omega, hy, h⟩)
    · rw [hb'', hblocks, modify_register_register, planeRegs_succ]
    · rw [hc'', hcount, planeRegs_succ]
      simp only [List.length_append]
      push_cast
      ring

theorem mem_of_getElem?_some {α : Type} {l : List α} {k : Nat} {a : α} (h : l[k]? = some a) :
    a ∈ l := by
  have hk : k < l.length := by
    by_contra hcon
    rw [List.getElem?_eq_none (not_lt.mp hcon)] at h
    cases h
  rw [List.getElem?_eq_getElem hk] at h
  exact Option.some.inj h ▸ List.getElem_mem hk

theorem lt_length_of_getElem?_some {α : Type} {l : List α} {k : Nat} {a : α}
    (h : l[k]? = some a) : k < l.length := by
  by_contra hcon
  rw [List.getElem?_eq_none (not_lt.mp hcon)] at h
  cases h

theorem layersBefore_zero (B : List Block) : layersBefore B 0 = 0 := by
  simp [layersBefore]

theorem layersBefore_succ (B : List Block) (k : Nat) (b : Block) (hb : B[k]? = some b) :
    layersBefore B (k + 1) = layersBefore B k + b.zElementCount := by
  unfold layersBefore
  have hk : k < B.length := by
    by_contra hcon
    rw [List.getElem?_eq_none (not_lt.mp hcon)] at hb
    cases hb
  have hbk : B[k] = b := by
    rw [List.getElem?_eq_getElem hk] at hb
    exact Option.some.inj hb
  rw [List.take_succ, List.getElem?_eq_getElem hk, hbk]
  simp

theorem layersBefore_length (B : List Block) :
    layersBefore B B.length = (B.map (fun b => b.zElementCount)).sum := by
  simp [layersBefore]

/-- The sum of the registered-element counts after one block registers `ps`. -/
theorem sum_length_modify_register (l : List Block) (k : Nat) (ps : List Nat)
    (hk : k < l.length) :
    ((l.modify (Block.register ps) k).map (fun b => (b.blockElements.length : Int))).sum =
      (l.map (fun b => (b.blockElements.length : Int))).sum + ps.length := by
  induction l generalizing k with
  | nil => simp at hk
  | cons a l ih =>
    cases k with
    | zero =>
      simp [List.modify, Block.register]
      ring
    | succ k =>
      have := ih k (by simpa using hk)
      simp only [List.modify_succ_cons, List.map_cons, List.sum_cons, this]
      ring

/-- The loop over `z` of `genMeshElements`, up to layer `n`. -/
theorem genMeshElements_layers (s1 : ThermalStack) (Xn Yn Zn : Nat)
    (hX : s1.xElementCountMax = Xn) (hY : s1.yElementCountMax = Yn)
    (hZ : s1.zElementCountMax = Zn)
    (hZsum : (Zn : Int) = layersBefore s1.blocks s1.blocks.length)
    (hpos : ∀ b ∈ s1.blocks, 1 ≤ b.zElementCount)
    (b0 : Block) (hb0 : s1.blocks[0]? = some b0)
    (hinit : GenInv s1 Xn Yn Zn (fun _ => False) s1) :
    ∃ st, (List.range Zn).foldlM ThermalStack.genMeshElementsLayer
        (s1, 0, b0.getZElementCount) = some st ∧
      GenInv s1 Xn Yn Zn
        (fun i => ∃ x y z, x < Xn ∧ y < Yn ∧ z < Zn ∧ i = slotOf Xn Yn x y z) st.1 ∧
      (∀ k b, s1.blocks[k]? = some b →
        st.1.blocks[k]? = some (Block.register
          (layerRegs Xn Yn b (layersBefore s1.blocks k).toNat b.zElementCount.toNat) b)) ∧
      st.1.activeElementCount - s1.activeElementCount =
        (st.1.blocks.map (fun b => (b.blockElements.length : Int))).sum
          - (s1.blocks.map (fun b => (b.blockElements.length : Int))).sum := by
  have hpre_nonneg : ∀ k, 0 ≤ layersBefore s1.blocks k := by
    intro k
    unfold layersBefore
    apply List.sum_nonneg
    intro v hv
    obtain ⟨b, hb, rfl⟩ := List.mem_map.mp hv
    have := hpos b (List.mem_of_mem_take hb)
    omega
  have hmain := foldlM_range_inv ThermalStack.genMeshElementsLayer
    (fun n (st : ThermalStack × Nat × Int) =>
      GenInv s1 Xn Yn Zn
        (fun i => ∃ x y z, x < Xn ∧ y < Yn ∧ z < n ∧ i = slotOf Xn Yn x y z) st.1 ∧
      ((st.2.1 < s1.blocks.length ∧ layersBefore s1.blocks st.2.1 ≤ (n : Int) ∧
          (n : Int) < layersBefore s1.blocks (st.2.1 + 1) ∧
          st.2.2 = layersBefore s1.blocks (st.2.1 + 1) - n) ∨
        (st.2.1 = s1.blocks.length ∧ (n : Int) = Zn)) ∧
      (∀ k b, s1.blocks[k]? = some b →
        st.1.blocks[k]? = some (Block.register
          (layerRegs Xn Yn b (layersBefore s1.blocks k).toNat
            (if k < st.2.1 then b.zElementCount.toNat
              else if k = st.2.1 then n - (layersBefore s1.blocks k).toNat else 0)) b)) ∧
      st.1.activeElementCount - s1.activeElementCount =
        (st.1.blocks.map (fun b => (b.blockElements.length : Int))).sum
          - (s1.blocks.map (fun b => (b.blockElements.length : Int))).sum)
    Zn (s1, 0, b0.getZElementCount) ?_ ?_
  · obtain ⟨st, hst, hinv, hcase, hregs, hcount⟩ := hmain
    refine ⟨st, hst, hinv, ?_, hcount⟩
    intro k b hkb
    have hk : k < s1.blocks.length := by
      by_contra hcon
      rw [List.getElem?_eq_none (not_lt.mp hcon)] at hkb
      cases hkb
    rcases hcase with ⟨hcb, -, hlt, -⟩ | ⟨hcb, -⟩
    · -- all layers are done, so no block is still open
      exfalso
      have hmono : layersBefore s1.blocks (st.2.1 + 1) ≤ layersBefore s1.blocks s1.blocks.length := by
        have key : ∀ d, st.2.1 + 1 + d ≤ s1.blocks.length →
            layersBefore s1.blocks (st.2.1 + 1) ≤ layersBefore s1.blocks (st.2.1 + 1 + d) := by
          intro d
          induction d with
          | zero => intro _; simp
          | succ d ih =>
            intro hd
            have hlt' : st.2.1 + 1 + d < s1.blocks.length := by omega
            have := layersBefore_succ s1.blocks (st.2.1 + 1 + d) _
              (List.getElem?_eq_getElem hlt')
            have hp := hpos _ (List.getElem_mem hlt')
            have := ih (by omega)
            rw [show st.2.1 + 1 + (d + 1) = st.2.1 + 1 + d + 1 by ring]
            omega
        have := key (s1.blocks.length - (st.2.1 + 1)) (by omega)
        rwa [show st.2.1 + 1 + (s1.blocks.length - (st.2.1 + 1)) = s1.blocks.length by omega]
          at this
      omega
    · have := hregs k b hkb
      rw [hcb] at this
      simpa [hk] using this
  · -- before the first layer
    have hlen : 0 < s1.blocks.length := by
      by_contra hcon
      rw [List.getElem?_eq_none (by omega)] at hb0
      cases hb0
    have h1 := layersBefore_succ s1.blocks 0 b0 hb0
    have hp := hpos b0 (mem_of_getElem?_some hb0)
    rw [layersBefore_zero] at h1
    refine ⟨hinit.congr (fun i => by simp), Or.inl ⟨hlen, ?_, ?_, ?_⟩, ?_, by simp⟩
    · simp [layersBefore_zero]
    · simp only [Nat.zero_add, h1]
      push_cast
      omega
    · simp only [Nat.zero_add, h1, Block.getZElementCount]
      push_cast
      ring
    · intro k b hkb
      have : (if k < 0 then b.zElementCount.toNat
          else if k = 0 then 0 - (layersBefore s1.blocks k).toNat else 0) = 0 := by
        by_cases hk0 : k = 0 <;> simp [hk0]
      simp only [this]
      simp [layerRegs, Block.register_nil, hkb]
  · -- one layer
    rintro n ⟨s, cb, rem⟩ hn ⟨hinv, hcase, hregs, hcount⟩
    simp only at hinv hcase hregs hcount
    rcases hcase with ⟨hcb, hlo, hhi, hrem⟩ | ⟨-, hfin⟩
    swap
    · omega
    obtain ⟨b, hbcb⟩ : ∃ b, s1.blocks[cb]? = some b := ⟨_, List.getElem?_eq_getElem hcb⟩
    have hsucc := layersBefore_succ s1.blocks cb b hbcb
    have hV : ∀ x y, x < Xn → y < Yn →
        ¬ ∃ x' y' z', x' < Xn ∧ y' < Yn ∧ z' < n ∧ slotOf Xn Yn x y n = slotOf Xn Yn x' y' z' := by
      rintro x y hx hy ⟨x', y', z', hx', hy', hz', h⟩
      have := (slotOf_inj hx hy hx' hy' h).2.2
      omega
    obtain ⟨s', hplane, hinv', hblocks', hcount'⟩ :=
      genMeshElements_plane s1 Xn Yn Zn hX hY hZ _ s hinv cb b hbcb n hn ⟨hlo, hhi⟩ hV
    have hlenEq : s.blocks.length = s1.blocks.length := by
      have := congrArg List.length hinv.geometry
      simpa using this
    have hlenEq' : s'.blocks.length = s1.blocks.length := by
      have := congrArg List.length hinv'.geometry
      simpa using this
    have hinvNext : GenInv s1 Xn Yn Zn
        (fun i => ∃ x y z, x < Xn ∧ y < Yn ∧ z < n + 1 ∧ i = slotOf Xn Yn x y z) s' := by
      apply hinv'.congr
      intro i
      constructor
      · rintro (⟨x, y, z, hx, hy, hz, h⟩ | ⟨x, y, hx, hy, h⟩)
        · exact ⟨x, y, z, hx, hy, by omega, h⟩
        · exact ⟨x, y, n, hx, hy, by omega, h⟩
      · rintro ⟨x, y, z, hx, hy, hz, h⟩
        by_cases hzn : z = n
        · subst hzn; exact Or.inr ⟨x, y, hx, hy, h⟩
        · exact Or.inl ⟨x, y, z, hx, hy, by omega, h⟩
    have hcountNext : s'.activeElementCount - s1.activeElementCount =
        (s'.blocks.map (fun b => (b.blockElements.length : Int))).sum
          - (s1.blocks.map (fun b => (b.blockElements.length : Int))).sum := by
      rw [hcount', hblocks', sum_length_modify_register _ _ _ (by omega)]
      linarith
    -- the registered elements after this layer, for an arbitrary block index
    have hregsNext : ∀ k bk, s1.blocks[k]? = some bk →
        s'.blocks[k]? = some (Block.register
          (layerRegs Xn Yn bk (layersBefore s1.blocks k).toNat
            (if k < cb then bk.zElementCount.toNat
              else if k = cb then n + 1 - (layersBefore s1.blocks k).toNat else 0)) bk) := by
      intro k bk hk
      rw [hblocks', List.getElem?_modify, hregs k bk hk]
      by_cases hkc : cb = k
      · subst hkc
        have hbk : bk = b := by
          rw [hbcb] at hk
          exact (Option.some.inj hk).symm
        subst hbk
        have hpn := hpre_nonneg cb
        simp only [lt_irrefl, if_false, if_true, Option.map_eq_map, Option.map_some',
          Block.register_register]
        have e1 : n + 1 - (layersBefore s1.blocks cb).toNat =
            (n - (layersBefore s1.blocks cb).toNat) + 1 := by omega
        have e2 : (layersBefore s1.blocks cb).toNat + (n - (layersBefore s1.blocks cb).toNat)
            = n := by omega
        rw [e1, layerRegs_succ, e2]
      · have hkc' : ¬ k = cb := fun h => hkc h.symm
        simp [hkc, hkc']
    have hstep : ThermalStack.genMeshElementsLayer (s, cb, rem) n =
        (if rem - 1 = 0 then
          if cb + 1 < s'.blocks.length then
            (s'.blocks[cb + 1]?).bind (fun blk => some (s', cb + 1, blk.getZElementCount))
          else some (s', cb + 1, rem - 1)
        else some (s', cb, rem - 1)) := by
      simp only [ThermalStack.genMeshElementsLayer, hplane, Option.bind_eq_bind,
        Option.some_bind]
      split_ifs <;> rfl
    rw [hstep]
    by_cases hr : rem - 1 = 0
    · have hz1 : ((n : Int) + 1) = layersBefore s1.blocks (cb + 1) := by omega
      by_cases hnext : cb + 1 < s'.blocks.length
      · have hnext1 : cb + 1 < s1.blocks.length := by omega
        have hb1 : s1.blocks[cb + 1]? = some s1.blocks[cb + 1] :=
          List.getElem?_eq_getElem hnext1
        obtain ⟨blk, hblk, hgeo⟩ := hinv'.block_at hb1
        have hzc : blk.getZElementCount = (s1.blocks[cb + 1]).zElementCount := by
          have := congrArg Block.zElementCount hgeo
          exact this
        have hsucc1 := layersBefore_succ s1.blocks (cb + 1) _ hb1
        have hp1 := hpos _ (List.getElem_mem hnext1)
        refine ⟨(s', cb + 1, blk.getZElementCount), by simp [hr, hnext, hblk], hinvNext,
          Or.inl ⟨hnext1, ?_, ?_, ?_⟩, ?_, hcountNext⟩
        · push_cast; omega
        · push_cast; omega
        · push_cast; rw [hzc]; omega
        · intro k bk hk
          rw [hregsNext k bk hk]
          by_cases hk1 : k < cb
          · have : k < cb + 1 := by omega
            simp [hk1, this]
          · by_cases hk2 : k = cb
            · subst hk2
              have hbk : bk = b := by
                rw [hbcb] at hk
                exact (Option.some.inj hk).symm
              subst hbk
              have hpn := hpre_nonneg k
              have : n + 1 - (layersBefore s1.blocks k).toNat = bk.zElementCount.toNat := by
                omega
              simp [this]
            · have h3 : ¬ k < cb + 1 := by omega
              by_cases hk4 : k = cb + 1
              · subst hk4
                have hpn := hpre_nonneg (cb + 1)
                have : n + 1 - (layersBefore s1.blocks (cb + 1)).toNat = 0 := by omega
                simp [this]
              · simp [hk1, hk2, h3, hk4]
      · have hcbEnd : cb + 1 = s1.blocks.length := by omega
        refine ⟨(s', cb + 1, rem - 1), by simp [hr, hnext], hinvNext,
          Or.inr ⟨hcbEnd, ?_⟩, ?_, hcountNext⟩
        · rw [hZsum, ← hcbEnd]
          push_cast
          omega
        · intro k bk hk
          rw [hregsNext k bk hk]
          have hklt : k < s1.blocks.length := by
            by_contra hcon
            rw [List.getElem?_eq_none (not_lt.mp hcon)] at hk
            cases hk
          by_cases hk1 : k < cb
          · have : k < cb + 1 := by omega
            simp [hk1, this]
          · have hk2 : k = cb := by omega
            subst hk2
            have hbk : bk = b := by
              rw [hbcb] at hk
              exact (Option.some.inj hk).symm
            subst hbk
            have hpn := hpre_nonneg k
            have : n + 1 - (layersBefore s1.blocks k).toNat = bk.zElementCount.toNat := by
              omega
            simp [this]
    · refine ⟨(s', cb, rem - 1), by simp [hr], hinvNext,
        Or.inl ⟨hcb, ?_, ?_, ?_⟩, ?_, hcountNext⟩
      · push_cast; omega
      · push_cast; omega
      · push_cast; omega
      · intro k bk hk
        exact hregsNext k bk hk

/-! ## Bounding box and allocation (`initElementArray`) -/

theorem initElementArrayStep_foldl (B : List Block) (s : ThermalStack) :
    (B.foldl ThermalStack.initElementArrayStep s).withoutBox = s.withoutBox ∧
    (B.foldl ThermalStack.initElementArrayStep s).zElementCountMax =
      s.zElementCountMax + (B.map (fun b => b.zElementCount)).sum ∧
    s.xElementCountMax ≤ (B.foldl ThermalStack.initElementArrayStep s).xElementCountMax ∧
    s.yElementCountMax ≤ (B.foldl ThermalStack.initElementArrayStep s).yElementCountMax ∧
    (∀ b ∈ B, b.xElementCount ≤ (B.foldl ThermalStack.initElementArrayStep s).xElementCountMax) ∧
    (∀ b ∈ B, b.yElementCount ≤ (B.foldl ThermalStack.initElementArrayStep s).yElementCountMax) := by
  induction B generalizing s with
  | nil => simp
  | cons a B ih =>
    obtain ⟨h1, h2, h3, h4, h5, h6⟩ := ih (ThermalStack.initElementArrayStep s a)
    have e1 : (ThermalStack.initElementArrayStep s a).withoutBox = s.withoutBox := by
      unfold ThermalStack.initElementArrayStep ThermalStack.withoutBox
      by_cases hxa : s.xElementCountMax < a.getXElementCount <;>
        by_cases hya : s.yElementCountMax < a.getYElementCount <;> simp [hxa, hya]
    have e2 : (ThermalStack.initElementArrayStep s a).zElementCountMax =
        s.zElementCountMax + a.zElementCount := by
      unfold ThermalStack.initElementArrayStep
      by_cases hxa : s.xElementCountMax < a.getXElementCount <;>
        by_cases hya : s.yElementCountMax < a.getYElementCount <;>
        simp [hxa, hya, Block.getZElementCount]
    have e3 : s.xElementCountMax ≤ (ThermalStack.initElementArrayStep s a).xElementCountMax ∧
        a.xElementCount ≤ (ThermalStack.initElementArrayStep s a).xElementCountMax := by
      unfold ThermalStack.initElementArrayStep
      by_cases hxa : s.xElementCountMax < a.getXElementCount <;>
        by_cases hya : s.yElementCountMax < a.getYElementCount <;>
        simp only [hxa, hya, if_true, if_false] <;>
        simp only [Block.getXElementCount] at hxa ⊢ <;> omega
    have e4 : s.yElementCountMax ≤ (ThermalStack.initElementArrayStep s a).yElementCountMax ∧
        a.yElementCount ≤ (ThermalStack.initElementArrayStep s a).yElementCountMax := by
      unfold ThermalStack.initElementArrayStep
      by_cases hxa : s.xElementCountMax < a.getXElementCount <;>
        by_cases hya : s.yElementCountMax < a.getYElementCount <;>
        simp only [hxa, hya, if_true, if_false] <;>
        simp only [Block.getYElementCount] at hya ⊢ <;> omega
    simp only [List.foldl_cons, List.map_cons, List.sum_cons]
    refine ⟨h1.trans e1, by rw [h2, e2]; ring, e3.1.trans h3, e4.1.trans h4, ?_, ?_⟩
    · intro b hb
      rcases List.mem_cons.mp hb with rfl | hb'
      · exact e3.2.trans h3
      · exact h5 b hb'
    · intro b hb
      rcases List.mem_cons.mp hb with rfl | hb'
      · exact e4.2.trans h4
      · exact h6 b hb'

/-- What `initElementArray` establishes on a stack that has not been meshed. -/
theorem initElementArray_spec (junk : Nat → MeshElement) (s0 : ThermalStack)
    (hun : Unmeshed s0) (hpos : ∀ b ∈ s0.blocks, 1 ≤ b.zElementCount) :
    ∃ Xn Yn Zn : Nat,
      (ThermalStack.initElementArray junk s0).xElementCountMax = Xn ∧
      (ThermalStack.initElementArray junk s0).yElementCountMax = Yn ∧
      (ThermalStack.initElementArray junk s0).zElementCountMax = Zn ∧
      (ThermalStack.initElementArray junk s0).totalElementCount = ((Xn * Yn * Zn : Nat) : Int) ∧
      (ThermalStack.initElementArray junk s0).blocks = s0.blocks ∧
      (ThermalStack.initElementArray junk s0).activeElementCount = 0 ∧
      (ThermalStack.initElementArray junk s0).nodeVector = [] ∧
      (ThermalStack.initElementArray junk s0).startingTemperature = s0.startingTemperature ∧
      (ThermalStack.initElementArray junk s0).timeStep = s0.timeStep ∧
      (Zn : Int) = layersBefore s0.blocks s0.blocks.length ∧
      (∀ b ∈ s0.blocks, b.xElementCount ≤ (Xn : Int) ∧ b.yElementCount ≤ (Yn : Int)) ∧
      GenInv (ThermalStack.initElementArray junk s0) Xn Yn Zn (fun _ => False)
        (ThermalStack.initElementArray junk s0) := by
  obtain ⟨h1, h2, h3, h4, h5, h6⟩ := initElementArrayStep_foldl s0.blocks s0
  set sf := s0.blocks.foldl ThermalStack.initElementArrayStep s0 with hsf
  have hx0 : 0 ≤ sf.xElementCountMax := by rw [← hun.xMax]; exact h3
  have hy0 : 0 ≤ sf.yElementCountMax := by rw [← hun.yMax]; exact h4
  have hz0 : 0 ≤ sf.zElementCountMax := by
    rw [h2, hun.zMax]
    have : 0 ≤ (s0.blocks.map (fun b => b.zElementCount)).sum := by
      apply List.sum_nonneg
      intro v hv
      obtain ⟨b, hb, rfl⟩ := List.mem_map.mp hv
      have := hpos b hb
      omega
    omega
  have hblocks : sf.blocks = s0.blocks := by
    have := congrArg ThermalStack.blocks h1
    exact this
  have hactive : sf.activeElementCount = s0.activeElementCount := by
    have := congrArg ThermalStack.activeElementCount h1
    exact this
  have hnodes : sf.nodeVector = s0.nodeVector := by
    have := congrArg ThermalStack.nodeVector h1
    exact this
  have hT : sf.startingTemperature = s0.startingTemperature := by
    have := congrArg ThermalStack.startingTemperature h1
    exact this
  have hdt : sf.timeStep = s0.timeStep := by
    have := congrArg ThermalStack.timeStep h1
    exact this
  have hprod : sf.xElementCountMax * sf.yElementCountMax * sf.zElementCountMax =
      ((sf.xElementCountMax.toNat * sf.yElementCountMax.toNat * sf.zElementCountMax.toNat : Nat)
        : Int) := by
    push_cast
    rw [Int.toNat_of_nonneg hx0, Int.toNat_of_nonneg hy0, Int.toNat_of_nonneg hz0]
  refine ⟨sf.xElementCountMax.toNat, sf.yElementCountMax.toNat, sf.zElementCountMax.toNat,
    ?_, ?_, ?_, ?_, hblocks, ?_, ?_, hT, hdt, ?_, ?_, ?_⟩
  · show sf.xElementCountMax = _
    omega
  · show sf.yElementCountMax = _
    omega
  · show sf.zElementCountMax = _
    omega
  · show sf.xElementCountMax * sf.yElementCountMax * sf.zElementCountMax = _
    exact hprod
  · show sf.activeElementCount = 0
    rw [hactive, hun.active]
  · show sf.nodeVector = []
    rw [hnodes, hun.nodes]
  · rw [Int.toNat_of_nonneg hz0, h2, hun.zMax, layersBefore_length]
    ring
  · intro b hb
    have := h5 b hb
    have := h6 b hb
    omega
  · refine ⟨rfl, ?_, rfl, fun i hi => absurd hi id, ?_⟩
    · show ((List.range _).map _).length = _
      rw [List.length_map, List.length_range, hprod, Int.toNat_natCast]
    · intro i hi _
      show (deref ((List.range _).map _) i).empty = false
      have hlt : i < ((List.range (sf.xElementCountMax * sf.yElementCountMax
          * sf.zElementCountMax).toNat).map
            (fun i => MeshElement.ctorDefault (junk i))).length := by
        rw [List.length_map, List.length_range, hprod, Int.toNat_natCast]
        exact hi
      rw [deref_of_lt hlt]
      simp [MeshElement.ctorDefault]

/-- The method `genMeshElements` on a freshly allocated stack: it succeeds, instantiates every
slot of the box, and registers with every block the footprint slots of its
own layers. -/
theorem genMeshElements_spec (junk : Nat → MeshElement) (s0 : ThermalStack)
    (hun : Unmeshed s0) (hne : s0.blocks ≠ [])
    (hpos : ∀ b ∈ s0.blocks, 1 ≤ b.zElementCount) :
    ∃ (Xn Yn Zn : Nat) (s2 : ThermalStack),
      (ThermalStack.initElementArray junk s0).genMeshElements = some s2 ∧
      (ThermalStack.initElementArray junk s0).xElementCountMax = Xn ∧
      (ThermalStack.initElementArray junk s0).yElementCountMax = Yn ∧
      (ThermalStack.initElementArray junk s0).zElementCountMax = Zn ∧
      (ThermalStack.initElementArray junk s0).totalElementCount = ((Xn * Yn * Zn : Nat) : Int) ∧
      (ThermalStack.initElementArray junk s0).blocks = s0.blocks ∧
      (ThermalStack.initElementArray junk s0).nodeVector = [] ∧
      (ThermalStack.initElementArray junk s0).startingTemperature = s0.startingTemperature ∧
      (ThermalStack.initElementArray junk s0).timeStep = s0.timeStep ∧
      (Zn : Int) = layersBefore s0.blocks s0.blocks.length ∧
      (∀ b ∈ s0.blocks, b.xElementCount ≤ (Xn : Int) ∧ b.yElementCount ≤ (Yn : Int)) ∧
      GenInv (ThermalStack.initElementArray junk s0) Xn Yn Zn
        (fun i => ∃ x y z, x < Xn ∧ y < Yn ∧ z < Zn ∧ i = slotOf Xn Yn x y z) s2 ∧
      (∀ k b, s0.blocks[k]? = some b →
        s2.blocks[k]? = some (Block.register
          (layerRegs Xn Yn b (layersBefore s0.blocks k).toNat b.zElementCount.toNat) b)) ∧
      s2.activeElementCount =
        (s2.blocks.map (fun b => (b.blockElements.length : Int))).sum := by
  obtain ⟨Xn, Yn, Zn, hX, hY, hZ, htot, hblocks, hactive, hnodes, hT, hdt, hZsum, hfit, hinit⟩ :=
    initElementArray_spec junk s0 hun hpos
  set s1 := ThermalStack.initElementArray junk s0 with hs1
  obtain ⟨b0, hb0⟩ : ∃ b0, s1.blocks[0]? = some b0 := by
    rw [hblocks]
    cases hB : s0.blocks with
    | nil => exact absurd hB hne
    | cons a l => exact ⟨a, by simp⟩
  obtain ⟨st, hst, hinv, hregs, hcount⟩ := genMeshElements_layers s1 Xn Yn Zn hX hY hZ
    (by rw [hblocks]; exact hZsum) (by rw [hblocks]; exact hpos) b0 hb0 hinit
  refine ⟨Xn, Yn, Zn, st.1, ?_, hX, hY, hZ, htot, hblocks, hnodes, hT, hdt, hZsum, hfit, hinv,
    ?_, ?_⟩
  · have hzn : s1.zElementCountMax.toNat = Zn := by rw [hZ]; simp
    simp [ThermalStack.genMeshElements, hb0, hzn, hst]
  · intro k b hkb
    have := hregs k b (by rw [hblocks]; exact hkb)
    rw [hblocks] at this
    exact this
  · have hzero : (s1.blocks.map (fun b => (b.blockElements.length : Int))).sum = 0 := by
      rw [hblocks]
      apply List.sum_eq_zero
      intro v hv
      obtain ⟨b, hb, rfl⟩ := List.mem_map.mp hv
      simp [hun.regs b hb]
    rw [hactive, hzero] at hcount
    linarith

/-! ## Counting the footprint -/

theorem length_filter_interval (n a c : Nat) :
    ((List.range n).filter (fun y => decide (a ≤ y ∧ y < a + c))).length
      = min n (a + c) - min n a := by
  induction n with
  | zero => simp
  | succ n ih =>
    rw [List.range_succ, List.filter_append, List.length_append, ih]
    by_cases h : a ≤ n ∧ n < a + c
    · simp [h]; omega
    · simp [h]; omega

theorem sum_map_interval (n a c v : Nat) :
    ((List.range n).map (fun x => if a ≤ x ∧ x < a + c then v else 0)).sum
      = (min n (a + c) - min n a) * v := by
  induction n with
  | zero => simp
  | succ n ih =>
    rw [List.range_succ, List.map_append, List.sum_append, ih]
    by_cases h : a ≤ n ∧ n < a + c
    · have : min (n + 1) (a + c) - min (n + 1) a = (min n (a + c) - min n a) + 1 := by omega
      simp [h, this]; ring
    · have : min (n + 1) (a + c) - min (n + 1) a = min n (a + c) - min n a := by omega
      simp [h, this]

/-- The footprint test on natural coordinates, for a block that fits the box. -/
theorem inFootprint_iff (Xn Yn : Nat) (b : Block)
    (hx1 : 1 ≤ b.xElementCount) (hx2 : b.xElementCount ≤ (Xn : Int))
    (hy1 : 1 ≤ b.yElementCount) (hy2 : b.yElementCount ≤ (Yn : Int)) (x y : Nat) :
    inFootprint Xn Yn b x y ↔
      ((Xn - b.xElementCount.toNat) / 2 ≤ x ∧
        x < (Xn - b.xElementCount.toNat) / 2 + b.xElementCount.toNat) ∧
      ((Yn - b.yElementCount.toNat) / 2 ≤ y ∧
        y < (Yn - b.yElementCount.toNat) / 2 + b.yElementCount.toNat) := by
  unfold inFootprint Block.getXElementCount Block.getYElementCount
  rw [Int.tdiv_eq_ediv (by omega) (by norm_num), Int.tdiv_eq_ediv (by omega) (by norm_num)]
  omega

theorem columnRegs_length (Xn Yn : Nat) (b : Block)
    (hx1 : 1 ≤ b.xElementCount) (hx2 : b.xElementCount ≤ (Xn : Int))
    (hy1 : 1 ≤ b.yElementCount) (hy2 : b.yElementCount ≤ (Yn : Int)) (z x : Nat) :
    (columnRegs Xn Yn b z x Yn).length =
      if (Xn - b.xElementCount.toNat) / 2 ≤ x ∧
          x < (Xn - b.xElementCount.toNat) / 2 + b.xElementCount.toNat
      then b.yElementCount.toNat else 0 := by
  unfold columnRegs
  rw [List.length_map]
  by_cases hxin : (Xn - b.xElementCount.toNat) / 2 ≤ x ∧
      x < (Xn - b.xElementCount.toNat) / 2 + b.xElementCount.toNat
  · rw [if_pos hxin]
    have hcongr : (List.range Yn).filter (fun y : Nat => decide (inFootprint Xn Yn b x y)) =
        (List.range Yn).filter (fun y => decide ((Yn - b.yElementCount.toNat) / 2 ≤ y ∧
          y < (Yn - b.yElementCount.toNat) / 2 + b.yElementCount.toNat)) := by
      apply List.filter_congr
      intro y _
      rw [decide_eq_decide, inFootprint_iff Xn Yn b hx1 hx2 hy1 hy2]
      simp [hxin]
    rw [hcongr, length_filter_interval]
    omega
  · rw [if_neg hxin]
    have hcongr : (List.range Yn).filter (fun y : Nat => decide (inFootprint Xn Yn b x y)) = [] := by
      rw [List.filter_eq_nil_iff]
      intro y _
      rw [decide_eq_true_eq, inFootprint_iff Xn Yn b hx1 hx2 hy1 hy2]
      simp [hxin]
    rw [hcongr]
    rfl

theorem planeRegs_length (Xn Yn : Nat) (b : Block)
    (hx1 : 1 ≤ b.xElementCount) (hx2 : b.xElementCount ≤ (Xn : Int))
    (hy1 : 1 ≤ b.yElementCount) (hy2 : b.yElementCount ≤ (Yn : Int)) (z : Nat) :
    (planeRegs Xn Yn b z Xn).length = b.xElementCount.toNat * b.yElementCount.toNat := by
  unfold planeRegs
  rw [List.length_flatMap]
  have : (List.length ∘ fun x => columnRegs Xn Yn b z x Yn) =
      fun x => if (Xn - b.xElementCount.toNat) / 2 ≤ x ∧
          x < (Xn - b.xElementCount.toNat) / 2 + b.xElementCount.toNat
        then b.yElementCount.toNat else 0 := by
    funext x
    exact columnRegs_length Xn Yn b hx1 hx2 hy1 hy2 z x
  rw [this, sum_map_interval]
  congr 1
  omega

theorem layerRegs_length (Xn Yn : Nat) (b : Block)
    (hx1 : 1 ≤ b.xElementCount) (hx2 : b.xElementCount ≤ (Xn : Int))
    (hy1 : 1 ≤ b.yElementCount) (hy2 : b.yElementCount ≤ (Yn : Int)) (z0 n : Nat) :
    (layerRegs Xn Yn b z0 n).length = n * (b.xElementCount.toNat * b.yElementCount.toNat) := by
  induction n with
  | zero => simp [layerRegs]
  | succ n ih =>
    rw [layerRegs_succ, List.length_append, ih, planeRegs_length Xn Yn b hx1 hx2 hy1 hy2]
    ring

/-! ## Frame of node construction (`genMeshNodes`) -/

theorem genMeshNodesLink_withoutGraph (p : Nat) (s : ThermalStack) (nb : Nat) :
    (ThermalStack.genMeshNodesLink p s nb).withoutGraph = s.withoutGraph := by
  unfold ThermalStack.genMeshNodesLink
  split_ifs <;> rfl

theorem genMeshNodesCell_withoutGraph (z x y : Int) (s : ThermalStack) :
    (ThermalStack.genMeshNodesCell z x y s).withoutGraph = s.withoutGraph := by
  unfold ThermalStack.genMeshNodesCell
  cases s.nav3DArray x y z with
  | none => rfl
  | some p =>
    simp only
    generalize s.findNeighborElements x y z = nbs
    induction nbs generalizing s with
    | nil => rfl
    | cons nb nbs ih =>
      rw [List.foldl_cons, ih, genMeshNodesLink_withoutGraph]

theorem genMeshNodes_withoutGraph (s : ThermalStack) :
    s.genMeshNodes.withoutGraph = s.withoutGraph := by
  unfold ThermalStack.genMeshNodes
  exact foldl_range_inv _ (fun _ (s' : ThermalStack) => s'.withoutGraph = s.withoutGraph) _ _ rfl
    (fun z s' _ hs' =>
      foldl_range_inv _ (fun _ (s'' : ThermalStack) => s''.withoutGraph = s.withoutGraph) _ _ hs'
        (fun x s'' _ hs'' =>
          foldl_range_inv _ (fun _ (s3 : ThermalStack) => s3.withoutGraph = s.withoutGraph) _ _ hs''
            (fun y s3 _ hs3 => by
              show (ThermalStack.genMeshNodesCell _ _ _ s3).withoutGraph = s.withoutGraph
              rw [genMeshNodesCell_withoutGraph, hs3])))

/-! ## The mesh as a whole -/

/-- The blocks of a meshed stack, with the number of elements registered to each. -/
theorem mesh_blocks_spec (junk : Nat → MeshElement) (s0 : ThermalStack)
    (hun : Unmeshed s0) (hne : s0.blocks ≠ [])
    (hpos : ∀ b ∈ s0.blocks,
      1 ≤ b.xElementCount ∧ 1 ≤ b.yElementCount ∧ 1 ≤ b.zElementCount) :
    ∃ s, s0.mesh junk = some s ∧
      s.activeElementCount = (s.blocks.map (fun b => (b.blockElements.length : Int))).sum ∧
      s.blocks.length = s0.blocks.length ∧
      ∀ (k : Nat) (b : Block), s0.blocks[k]? = some b →
        ∃ b' : Block, s.blocks[k]? = some b' ∧ b'.clearElements = b.clearElements ∧
          (b'.blockElements.length : Int) =
            b.xElementCount * b.yElementCount * b.zElementCount := by
  obtain ⟨Xn, Yn, Zn, s2, hgen, hX, hY, hZ, htot, hblocks, hnodes, hT, hdt, hZsum, hfit, hinv,
    hregs, hcount⟩ := genMeshElements_spec junk s0 hun hne (fun b hb => (hpos b hb).2.2)
  have hframe := genMeshNodes_withoutGraph s2
  have hb2 : s2.genMeshNodes.blocks = s2.blocks := by
    have := congrArg ThermalStack.blocks hframe
    exact this
  have ha2 : s2.genMeshNodes.activeElementCount = s2.activeElementCount := by
    have := congrArg ThermalStack.activeElementCount hframe
    exact this
  refine ⟨s2.genMeshNodes, ?_, ?_, ?_, ?_⟩
  · simp [ThermalStack.mesh, hgen]
  · rw [ha2, hb2, hcount]
  · rw [hb2]
    have := congrArg List.length hinv.geometry
    simpa [hblocks] using this
  · intro k b hkb
    have hbmem : b ∈ s0.blocks := mem_of_getElem?_some hkb
    obtain ⟨hx1, hy1, hz1⟩ := hpos b hbmem
    obtain ⟨hx2, hy2⟩ := hfit b hbmem
    refine ⟨_, by rw [hb2]; exact hregs k b hkb, Block.clearElements_register _ _, ?_⟩
    simp only [Block.register, hun.regs b hbmem, List.nil_append]
    rw [layerRegs_length Xn Yn b hx1 hx2 hy1 hy2]
    push_cast
    rw [Int.toNat_of_nonneg (by omega), Int.toNat_of_nonneg (by omega),
      Int.toNat_of_nonneg (by omega)]
    ring

/-- C4: for a non-empty list of blocks with element counts at least 1 on every
axis, `mesh()` succeeds; afterwards the active element count is the sum over
the blocks of `X count * Y count * Z count`, and each block has exactly
`X count * Y count * Z count` elements registered with it (its geometry being
what it was declared with). -/
theorem C4_mesh_active_element_count (junk : Nat → MeshElement) (s0 : ThermalStack)
    (hun : Unmeshed s0) (hne : s0.blocks ≠ [])
    (hpos : ∀ b ∈ s0.blocks,
      1 ≤ b.xElementCount ∧ 1 ≤ b.yElementCount ∧ 1 ≤ b.zElementCount) :
    ∃ s, s0.mesh junk = some s ∧
      s.activeElementCount =
        (s0.blocks.map (fun b => b.xElementCount * b.yElementCount * b.zElementCount)).sum ∧
      s.blocks.length = s0.blocks.length ∧
      ∀ (k : Nat) (b : Block), s0.blocks[k]? = some b →
        ∃ b' : Block, s.blocks[k]? = some b' ∧ b'.clearElements = b.clearElements ∧
          b'.getElementVectorCount = b.xElementCount * b.yElementCount * b.zElementCount := by
  obtain ⟨s, hmesh, hcount, hlen, hblk⟩ := mesh_blocks_spec junk s0 hun hne hpos
  refine ⟨s, hmesh, ?_, hlen, hblk⟩
  rw [hcount]
  congr 1
  apply List.ext_getElem?
  intro k
  simp only [List.getElem?_map]
  cases hk : s0.blocks[k]? with
  | none =>
    have : s.blocks[k]? = none := by
      rw [List.getElem?_eq_none_iff] at hk ⊢
      omega
    simp [this]
  | some b =>
    obtain ⟨b', hb', -, hlen'⟩ := hblk k b hk
    simp [hb', hlen']

theorem stackUnmeshed_unmeshed : Unmeshed stackUnmeshed :=
  ⟨rfl, rfl, rfl, rfl, rfl, by decide⟩

theorem stackUnmeshed_counts : ∀ b ∈ stackUnmeshed.blocks,
    1 ≤ b.xElementCount ∧ 1 ≤ b.yElementCount ∧ 1 ≤ b.zElementCount := by
  have h1 : cround 1 = 1 := by
    rw [cround_of_nonneg (by norm_num), Int.floor_eq_iff]; norm_num
  have h2 : cround 2 = 2 := by
    rw [cround_of_nonneg (by norm_num), Int.floor_eq_iff]; norm_num
  intro b hb
  simp only [stackUnmeshed, ThermalStack.addBlock, ThermalStack.ctor, List.nil_append,
    List.cons_append, List.mem_cons, List.mem_singleton, List.not_mem_nil, or_false] at hb
  rcases hb with rfl | rfl
  · simp only [Block.ctor_xElementCount, Block.ctor_yElementCount, Block.ctor_zElementCount]
    norm_num [h2]
  · simp only [Block.ctor_xElementCount, Block.ctor_yElementCount, Block.ctor_zElementCount]
    norm_num [h1]

/-- C4 on the two-block stack `stackUnmeshed`. -/
theorem C4_mesh_active_element_count_witness :
    ∃ s, stackUnmeshed.mesh junkZero = some s ∧
      s.activeElementCount =
        (stackUnmeshed.blocks.map
          (fun b => b.xElementCount * b.yElementCount * b.zElementCount)).sum :=
  let ⟨s, h1, h2, _⟩ := C4_mesh_active_element_count junkZero stackUnmeshed
    stackUnmeshed_unmeshed (by simp [stackUnmeshed, ThermalStack.addBlock])
    stackUnmeshed_counts
  ⟨s, h1, h2⟩

/-! ## Node construction (`genMeshNodes`) -/

theorem Joins.swap {n : MeshNode} {a b : Nat} (h : Joins n a b) : Joins n b a := by
  rcases h with h | h
  · exact Or.inr h
  · exact Or.inl h

theorem FaceAdjacent.symm {c c' : Nat × Nat × Nat} (h : FaceAdjacent c c') :
    FaceAdjacent c' c := by
  unfold FaceAdjacent at h ⊢
  omega

theorem FaceAdjacent.ne {c c' : Nat × Nat × Nat} (h : FaceAdjacent c c') : c ≠ c' := by
  rintro rfl
  unfold FaceAdjacent at h
  omega

theorem AdjSlots.flip {Xn Yn Zn : Nat} {arena : List MeshElement} {a b : Nat}
    (h : AdjSlots Xn Yn Zn arena a b) : AdjSlots Xn Yn Zn arena b a := by
  obtain ⟨x, y, z, x', y', z', h1, h2, h3, h4, h5, h6, h7, h8, h9, h10, h11⟩ := h
  exact ⟨x', y', z', x, y, z, h4, h5, h6, h1, h2, h3, h8, h7, h10, h9, h11.symm⟩

theorem AdjSlots.distinct {Xn Yn Zn : Nat} {arena : List MeshElement} {a b : Nat}
    (h : AdjSlots Xn Yn Zn arena a b) : a ≠ b := by
  obtain ⟨x, y, z, x', y', z', h1, h2, h3, h4, h5, h6, h7, h8, h9, h10, h11⟩ := h
  intro hab
  rw [h7, h8] at hab
  obtain ⟨e1, e2, e3⟩ := slotOf_inj h1 h2 h4 h5 hab
  subst e1 e2 e3
  exact h11.ne rfl

theorem AdjSlots.lt {Xn Yn Zn : Nat} {arena : List MeshElement} {a b : Nat}
    (h : AdjSlots Xn Yn Zn arena a b) : a < Xn * Yn * Zn ∧ b < Xn * Yn * Zn := by
  obtain ⟨x, y, z, x', y', z', h1, h2, h3, h4, h5, h6, h7, h8, h9, h10, h11⟩ := h
  rw [h7, h8]
  exact ⟨slotOf_lt h1 h2 h3, slotOf_lt h4 h5 h6⟩

/-- The arena after the constructor of a node between distinct slots `p` and `q`. -/
theorem MeshNode.ctor_deref (arena : List MeshElement) (p q : Nat) (hpq : p ≠ q)
    (hp : p < arena.length) (hq : q < arena.length) (i : Nat) :
    deref (MeshNode.ctor arena p q).2 i =
      if i = p then (deref arena p).rememberNeighbor q
      else if i = q then (deref arena q).rememberNeighbor p
      else deref arena i := by
  unfold MeshNode.ctor
  simp only [deref_modify, List.length_modify]
  by_cases h1 : i = p
  · subst h1
    simp [hpq, Ne.symm hpq, hp]
  · by_cases h2 : i = q
    · subst h2
      simp [hpq, Ne.symm hpq, hq, h1]
    · simp [h1, h2, Ne.symm h1, Ne.symm h2]

theorem MeshNode.ctor_first (arena : List MeshElement) (p q : Nat) :
    (MeshNode.ctor arena p q).1.first = p := rfl

theorem MeshNode.ctor_second (arena : List MeshElement) (p q : Nat) :
    (MeshNode.ctor arena p q).1.second = q := rfl

theorem MeshNode.ctor_length (arena : List MeshElement) (p q : Nat) :
    (MeshNode.ctor arena p q).2.length = arena.length := by
  simp [MeshNode.ctor]

/-- One pass of the loop over `currNeighbors` in `genMeshNodes`. -/
theorem genMeshNodesLink_spec (s2 : ThermalStack) (Xn Yn Zn : Nat) (s : ThermalStack)
    (hinv : NodeInv s2 Xn Yn Zn s) (p q : Nat)
    (hadj : AdjSlots Xn Yn Zn s2.elementArray p q) :
    NodeInv s2 Xn Yn Zn (ThermalStack.genMeshNodesLink p s q) ∧
    p ∈ (deref (ThermalStack.genMeshNodesLink p s q).elementArray q).neighbors ∧
    ∀ a b, b ∈ (deref s.elementArray a).neighbors →
      b ∈ (deref (ThermalStack.genMeshNodesLink p s q).elementArray a).neighbors := by
  have hpq : p ≠ q := hadj.distinct
  have hp : p < s.elementArray.length := by rw [hinv.size]; exact hadj.lt.1
  have hq : q < s.elementArray.length := by rw [hinv.size]; exact hadj.lt.2
  unfold ThermalStack.genMeshNodesLink
  by_cases hchk : (deref s.elementArray q).checkForExistingNode p = false
  · rw [if_pos hchk]
    have hnot : p ∉ (deref s.elementArray q).neighbors := by
      simpa [MeshElement.checkForExistingNode] using hchk
    have hnbrs : ∀ a b, b ∈ (deref (MeshNode.ctor s.elementArray p q).2 a).neighbors ↔
        (b ∈ (deref s.elementArray a).neighbors ∨ (a = p ∧ b = q) ∨ (a = q ∧ b = p)) := by
      intro a b
      rw [MeshNode.ctor_deref _ _ _ hpq hp hq]
      by_cases h1 : a = p
      · subst h1
        simp [MeshElement.rememberNeighbor, hpq]
      · by_cases h2 : a = q
        · subst h2
          simp [MeshElement.rememberNeighbor, h1]
        · simp [h1, h2]
    refine ⟨⟨hinv.frame, ?_, ?_, ?_, ?_, ?_⟩, ?_, ?_⟩
    · show (MeshNode.ctor s.elementArray p q).2.length = _
      rw [MeshNode.ctor_length, hinv.size]
    · intro i
      show (deref (MeshNode.ctor s.elementArray p q).2 i).clearNeighbors = _
      rw [MeshNode.ctor_deref _ _ _ hpq hp hq, ← hinv.elems i]
      by_cases h1 : i = p
      · subst h1
        simp [MeshElement.rememberNeighbor, MeshElement.clearNeighbors]
      · by_cases h2 : i = q
        · subst h2
          simp [MeshElement.rememberNeighbor, MeshElement.clearNeighbors, h1]
        · simp [h1, h2]
    · intro a b
      show b ∈ (deref (MeshNode.ctor s.elementArray p q).2 a).neighbors ↔
        ∃ n ∈ s.nodeVector ++ [(MeshNode.ctor s.elementArray p q).1], Joins n a b
      rw [hnbrs, hinv.linked_iff]
      constructor
      · rintro (⟨n, hn, hj⟩ | h | h)
        · exact ⟨n, List.mem_append_left _ hn, hj⟩
        · exact ⟨_, List.mem_append_right _ (List.mem_singleton_self _),
            Or.inl ⟨h.1.symm, h.2.symm⟩⟩
        · exact ⟨_, List.mem_append_right _ (List.mem_singleton_self _),
            Or.inr ⟨h.2.symm, h.1.symm⟩⟩
      · rintro ⟨n, hn, hj⟩
        rcases List.mem_append.mp hn with hn | hn
        · exact Or.inl ⟨n, hn, hj⟩
        · rw [List.mem_singleton] at hn
          subst hn
          rcases hj with ⟨h1, h2⟩ | ⟨h1, h2⟩
          · exact Or.inr (Or.inl ⟨h1.symm, h2.symm⟩)
          · exact Or.inr (Or.inr ⟨h2.symm, h1.symm⟩)
    · show (s.nodeVector ++ [(MeshNode.ctor s.elementArray p q).1]).Pairwise _
      rw [List.pairwise_append]
      refine ⟨hinv.distinct, List.pairwise_singleton _ _, ?_⟩
      intro n hn m hm
      rw [List.mem_singleton] at hm
      subst hm
      intro hj
      apply hnot
      rw [hinv.linked_iff]
      refine ⟨n, hn, ?_⟩
      rcases hj with ⟨h1, h2⟩ | ⟨h1, h2⟩
      · exact Or.inr ⟨h1.symm, h2.symm⟩
      · exact Or.inl ⟨h2.symm, h1.symm⟩
    · intro n hn
      rcases List.mem_append.mp hn with hn | hn
      · exact hinv.adjacent n hn
      · rw [List.mem_singleton] at hn
        subst hn
        exact hadj
    · show p ∈ (deref (MeshNode.ctor s.elementArray p q).2 q).neighbors
      rw [hnbrs]
      exact Or.inr (Or.inr ⟨rfl, rfl⟩)
    · intro a b hab
      show b ∈ (deref (MeshNode.ctor s.elementArray p q).2 a).neighbors
      rw [hnbrs]
      exact Or.inl hab
  · rw [if_neg hchk]
    refine ⟨hinv, ?_, fun a b h => h⟩
    simpa [MeshElement.checkForExistingNode] using hchk

/-- The lookups that succeed are those of in-box coordinates whose slot is not Empty. -/
theorem nav3DArray_eq_some_iff (s : ThermalStack) (Xn Yn Zn : Nat)
    (hX : s.xElementCountMax = Xn) (hY : s.yElementCountMax = Yn)
    (hZ : s.zElementCountMax = Zn) (xi yi zi : Int) (p : Nat) :
    s.nav3DArray xi yi zi = some p ↔
      ∃ x y z : Nat, xi = x ∧ yi = y ∧ zi = z ∧ x < Xn ∧ y < Yn ∧ z < Zn ∧
        (deref s.elementArray (slotOf Xn Yn x y z)).empty = false ∧
        p = slotOf Xn Yn x y z := by
  by_cases hin : 0 ≤ xi ∧ xi < Xn ∧ 0 ≤ yi ∧ yi < Yn ∧ 0 ≤ zi ∧ zi < Zn
  · obtain ⟨h1, h2, h3, h4, h5, h6⟩ := hin
    obtain ⟨x, rfl⟩ := Int.eq_ofNat_of_zero_le h1
    obtain ⟨y, rfl⟩ := Int.eq_ofNat_of_zero_le h3
    obtain ⟨z, rfl⟩ := Int.eq_ofNat_of_zero_le h5
    rw [nav3DArray_of_active s Xn Yn Zn hX hY hZ x y z (by omega) (by omega) (by omega)]
    constructor
    · intro h
      by_cases he : (deref s.elementArray (slotOf Xn Yn x y z)).empty = true
      · simp [he] at h
      · simp only [he] at h
        refine ⟨x, y, z, rfl, rfl, rfl, by omega, by omega, by omega, by simpa using he, ?_⟩
        simpa using h.symm
    · rintro ⟨x', y', z', e1, e2, e3, -, -, -, he, hp⟩
      have e1' : x = x' := by exact_mod_cast e1
      have e2' : y = y' := by exact_mod_cast e2
      have e3' : z = z' := by exact_mod_cast e3
      subst e1' e2' e3'
      simp [he, hp]
  · have hnone : s.nav3DArray xi yi zi = none := by
      unfold ThermalStack.nav3DArray
      rw [hX, hY, hZ, if_pos (by omega)]
    rw [hnone]
    constructor
    · intro h; cases h
    · rintro ⟨x, y, z, rfl, rfl, rfl, h1, h2, h3, -, -⟩
      exfalso
      apply hin
      omega

theorem mem_pushIfNotNull (l : List Nat) (o : Option Nat) (p : Nat) :
    p ∈ ThermalStack.pushIfNotNull l o ↔ p ∈ l ∨ o = some p := by
  cases o with
  | none => simp [ThermalStack.pushIfNotNull]
  | some q =>
    simp only [ThermalStack.pushIfNotNull, List.mem_append, List.mem_singleton, Option.some.injEq]
    constructor <;> rintro (h | h)
    · exact Or.inl h
    · exact Or.inr h.symm
    · exact Or.inl h
    · exact Or.inr h.symm

/-- The neighbours found at an in-box coordinate are exactly the Active slots
at face-adjacent in-box coordinates. -/
theorem mem_findNeighborElements (s : ThermalStack) (Xn Yn Zn : Nat)
    (hX : s.xElementCountMax = Xn) (hY : s.yElementCountMax = Yn)
    (hZ : s.zElementCountMax = Zn) (x y z : Nat) (p : Nat) :
    p ∈ s.findNeighborElements x y z ↔
      ∃ x' y' z' : Nat, x' < Xn ∧ y' < Yn ∧ z' < Zn ∧
        FaceAdjacent (x, y, z) (x', y', z') ∧
        (deref s.elementArray (slotOf Xn Yn x' y' z')).empty = false ∧
        p = slotOf Xn Yn x' y' z' := by
  unfold ThermalStack.findNeighborElements
  simp only [mem_pushIfNotNull, List.not_mem_nil, false_or,
    nav3DArray_eq_some_iff s Xn Yn Zn hX hY hZ]
  unfold FaceAdjacent
  constructor
  · rintro (((((h | h) | h) | h) | h) | h) <;>
      obtain ⟨x', y', z', e1, e2, e3, h1, h2, h3, he, hp⟩ := h <;>
      exact ⟨x', y', z', h1, h2, h3, by simp only; omega, he, hp⟩
  · rintro ⟨x', y', z', h1, h2, h3, hadj, he, hp⟩
    simp only at hadj
    rcases hadj with ⟨hx | hx, hy, hz⟩ | ⟨hx, hy | hy, hz⟩ | ⟨hx, hy, hz | hz⟩
    · exact Or.inl (Or.inl (Or.inl (Or.inl (Or.inl
        ⟨x', y', z', by omega, by omega, by omega, h1, h2, h3, he, hp⟩))))
    · exact Or.inl (Or.inl (Or.inl (Or.inl (Or.inr
        ⟨x', y', z', by omega, by omega, by omega, h1, h2, h3, he, hp⟩))))
    · exact Or.inl (Or.inl (Or.inl (Or.inr
        ⟨x', y', z', by omega, by omega, by omega, h1, h2, h3, he, hp⟩)))
    · exact Or.inl (Or.inl (Or.inr
        ⟨x', y', z', by omega, by omega, by omega, h1, h2, h3, he, hp⟩))
    · exact Or.inl (Or.inr
        ⟨x', y', z', by omega, by omega, by omega, h1, h2, h3, he, hp⟩)
    · exact Or.inr
        ⟨x', y', z', by omega, by omega, by omega, h1, h2, h3, he, hp⟩
theorem NodeInv.boxX {s2 s : ThermalStack} {Xn Yn Zn : Nat} (h : NodeInv s2 Xn Yn Zn s) :
    s.xElementCountMax = s2.xElementCountMax := by
  have := congrArg ThermalStack.xElementCountMax h.frame
  exact this

theorem NodeInv.boxY {s2 s : ThermalStack} {Xn Yn Zn : Nat} (h : NodeInv s2 Xn Yn Zn s) :
    s.yElementCountMax = s2.yElementCountMax := by
  have := congrArg ThermalStack.yElementCountMax h.frame
  exact this

theorem NodeInv.boxZ {s2 s : ThermalStack} {Xn Yn Zn : Nat} (h : NodeInv s2 Xn Yn Zn s) :
    s.zElementCountMax = s2.zElementCountMax := by
  have := congrArg ThermalStack.zElementCountMax h.frame
  exact this

theorem NodeInv.empty_eq {s2 s : ThermalStack} {Xn Yn Zn : Nat} (h : NodeInv s2 Xn Yn Zn s)
    (i : Nat) : (deref s.elementArray i).empty = (deref s2.elementArray i).empty := by
  have := congrArg MeshElement.empty (h.elems i)
  exact this

theorem NeighborsGrow.refl (s : ThermalStack) : NeighborsGrow s s := fun _ _ h => h

theorem NeighborsGrow.trans {s s' s'' : ThermalStack} (h : NeighborsGrow s s')
    (h' : NeighborsGrow s' s'') : NeighborsGrow s s'' := fun a b hab => h' a b (h a b hab)

/-- The loop over `currNeighbors` for the element at slot `p`. -/
theorem genMeshNodesLink_foldl (s2 : ThermalStack) (Xn Yn Zn : Nat) (p : Nat)
    (nbs : List Nat) (s : ThermalStack) (hinv : NodeInv s2 Xn Yn Zn s)
    (hadj : ∀ q ∈ nbs, AdjSlots Xn Yn Zn s2.elementArray p q) :
    NodeInv s2 Xn Yn Zn (nbs.foldl (ThermalStack.genMeshNodesLink p) s) ∧
    NeighborsGrow s (nbs.foldl (ThermalStack.genMeshNodesLink p) s) ∧
    ∀ q ∈ nbs, p ∈ (deref (nbs.foldl (ThermalStack.genMeshNodesLink p) s).elementArray q).neighbors := by
  induction nbs generalizing s with
  | nil => exact ⟨hinv, NeighborsGrow.refl s, fun q hq => absurd hq (List.not_mem_nil q)⟩
  | cons q nbs ih =>
    obtain ⟨h1, h2, h3⟩ := genMeshNodesLink_spec s2 Xn Yn Zn s hinv p q (hadj q (by simp))
    obtain ⟨i1, i2, i3⟩ := ih (ThermalStack.genMeshNodesLink p s q) h1
      (fun q' hq' => hadj q' (List.mem_cons_of_mem _ hq'))
    simp only [List.foldl_cons]
    refine ⟨i1, NeighborsGrow.trans h3 i2, ?_⟩
    intro q' hq'
    rcases List.mem_cons.mp hq' with rfl | hq''
    · exact i2 _ _ h2
    · exact i3 q' hq''

theorem Closed.mono {Xn Yn Zn : Nat} {s2 s s' : ThermalStack} {x y z : Nat}
    (hs : NodeInv s2 Xn Yn Zn s) (hs' : NodeInv s2 Xn Yn Zn s')
    (hg : NeighborsGrow s s') (h : Closed Xn Yn Zn s x y z) : Closed Xn Yn Zn s' x y z := by
  intro he x' y' z' hx' hy' hz' hadj he'
  rw [hs'.empty_eq, ← hs.empty_eq] at he he'
  exact hg _ _ (h he x' y' z' hx' hy' hz' hadj he')

/-- One pass of the innermost loop body of `genMeshNodes`. -/
theorem genMeshNodesCell_spec (s2 : ThermalStack) (Xn Yn Zn : Nat)
    (hX : s2.xElementCountMax = Xn) (hY : s2.yElementCountMax = Yn)
    (hZ : s2.zElementCountMax = Zn)
    (s : ThermalStack) (hinv : NodeInv s2 Xn Yn Zn s)
    (x y z : Nat) (hx : x < Xn) (hy : y < Yn) (hz : z < Zn) :
    NodeInv s2 Xn Yn Zn (ThermalStack.genMeshNodesCell z x y s) ∧
    NeighborsGrow s (ThermalStack.genMeshNodesCell z x y s) ∧
    Closed Xn Yn Zn (ThermalStack.genMeshNodesCell z x y s) x y z := by
  have hsX : s.xElementCountMax = Xn := hinv.boxX.trans hX
  have hsY : s.yElementCountMax = Yn := hinv.boxY.trans hY
  have hsZ : s.zElementCountMax = Zn := hinv.boxZ.trans hZ
  unfold ThermalStack.genMeshNodesCell
  rw [nav3DArray_of_active s Xn Yn Zn hsX hsY hsZ x y z hx hy hz]
  by_cases he : (deref s.elementArray (slotOf Xn Yn x y z)).empty = true
  · simp only [he, if_true]
    refine ⟨hinv, NeighborsGrow.refl s, ?_⟩
    intro he'
    rw [he] at he'
    cases he'
  · have he' : (deref s.elementArray (slotOf Xn Yn x y z)).empty = false := by simpa using he
    simp only [he', Bool.false_eq_true, if_false]
    have hadj : ∀ q ∈ s.findNeighborElements x y z,
        AdjSlots Xn Yn Zn s2.elementArray (slotOf Xn Yn x y z) q := by
      intro q hq
      rw [mem_findNeighborElements s Xn Yn Zn hsX hsY hsZ] at hq
      obtain ⟨x', y', z', hx', hy', hz', hfa, heq, hp⟩ := hq
      refine ⟨x, y, z, x', y', z', hx, hy, hz, hx', hy', hz', rfl, hp, ?_, ?_, hfa⟩
      · rw [← hinv.empty_eq]; exact he'
      · rw [hp, ← hinv.empty_eq]; exact heq
    obtain ⟨h1, h2, h3⟩ := genMeshNodesLink_foldl s2 Xn Yn Zn (slotOf Xn Yn x y z)
      (s.findNeighborElements x y z) s hinv hadj
    refine ⟨h1, h2, ?_⟩
    intro _ x' y' z' hx' hy' hz' hfa heq
    apply h3
    rw [mem_findNeighborElements s Xn Yn Zn hsX hsY hsZ]
    refine ⟨x', y', z', hx', hy', hz', hfa, ?_, rfl⟩
    rw [hinv.empty_eq, ← h1.empty_eq]
    exact heq

/-- Rule for a `for` loop whose passes each establish a fact that later passes keep. -/
theorem foldl_range_establish {σ : Type} (f : σ → Nat → σ) (I : σ → Prop) (M : σ → σ → Prop)
    (hrefl : ∀ s, M s s) (htrans : ∀ s s' s'', M s s' → M s' s'' → M s s'')
    (Q : Nat → σ → Prop) (hQ : ∀ j s s', I s → I s' → M s s' → Q j s → Q j s') (n : Nat)
    (hstep : ∀ s i, i < n → I s → I (f s i) ∧ M s (f s i) ∧ Q i (f s i))
    (s0 : σ) (h0 : I s0) :
    I ((List.range n).foldl f s0) ∧ M s0 ((List.range n).foldl f s0) ∧
    ∀ i, i < n → Q i ((List.range n).foldl f s0) := by
  induction n with
  | zero => exact ⟨by simpa using h0, by simpa using hrefl s0, fun i hi => absurd hi (by omega)⟩
  | succ n ih =>
    obtain ⟨h1, h2, h3⟩ := ih (fun s i hi hI => hstep s i (by omega) hI)
    obtain ⟨g1, g2, g3⟩ := hstep _ n (by omega) h1
    rw [List.range_succ, List.foldl_append]
    simp only [List.foldl_cons, List.foldl_nil]
    refine ⟨g1, htrans _ _ _ h2 g2, ?_⟩
    intro i hi
    by_cases hin : i = n
    · subst hin; exact g3
    · exact hQ i _ _ h1 g1 g2 (h3 i (by omega))

/-- The method `genMeshNodes` keeps the invariant and links every element with all its
Active face neighbours. -/
theorem genMeshNodes_spec (s2 : ThermalStack) (Xn Yn Zn : Nat)
    (hX : s2.xElementCountMax = Xn) (hY : s2.yElementCountMax = Yn)
    (hZ : s2.zElementCountMax = Zn) (hinv : NodeInv s2 Xn Yn Zn s2) :
    NodeInv s2 Xn Yn Zn s2.genMeshNodes ∧
    ∀ x y z, x < Xn → y < Yn → z < Zn → Closed Xn Yn Zn s2.genMeshNodes x y z := by
  have hzn : s2.zElementCountMax.toNat = Zn := by rw [hZ]; simp
  unfold ThermalStack.genMeshNodes
  rw [hzn]
  have hmain := foldl_range_establish
    (fun s (z : Nat) =>
      (List.range s.xElementCountMax.toNat).foldl
        (fun s (x : Nat) =>
          (List.range s.yElementCountMax.toNat).foldl
            (fun s (y : Nat) => ThermalStack.genMeshNodesCell z x y s) s) s)
    (NodeInv s2 Xn Yn Zn) NeighborsGrow NeighborsGrow.refl
    (fun _ _ _ h h' => NeighborsGrow.trans h h')
    (fun z s => ∀ x y, x < Xn → y < Yn → Closed Xn Yn Zn s x y z)
    (fun z s s' hs hs' hg h x y hx hy => Closed.mono hs hs' hg (h x y hx hy))
    Zn ?_ s2 hinv
  · exact ⟨hmain.1, fun x y z hx hy hz => hmain.2.2 z hz x y hx hy⟩
  · intro s z hz hs
    have hxn : s.xElementCountMax.toNat = Xn := by rw [hs.boxX, hX]; simp
    simp only [hxn]
    have hplane := foldl_range_establish
      (fun s (x : Nat) =>
        (List.range s.yElementCountMax.toNat).foldl
          (fun s (y : Nat) => ThermalStack.genMeshNodesCell z x y s) s)
      (NodeInv s2 Xn Yn Zn) NeighborsGrow NeighborsGrow.refl
      (fun _ _ _ h h' => NeighborsGrow.trans h h')
      (fun x s => ∀ y, y < Yn → Closed Xn Yn Zn s x y z)
      (fun x s s' hs hs' hg h y hy => Closed.mono hs hs' hg (h y hy))
      Xn ?_ s hs
    · exact ⟨hplane.1, hplane.2.1, fun x y hx hy => hplane.2.2 x hx y hy⟩
    · intro s' x hx hs'
      have hyn : s'.yElementCountMax.toNat = Yn := by rw [hs'.boxY, hY]; simp
      simp only [hyn]
      exact foldl_range_establish
        (fun s (y : Nat) => ThermalStack.genMeshNodesCell z x y s)
        (NodeInv s2 Xn Yn Zn) NeighborsGrow NeighborsGrow.refl
        (fun _ _ _ h h' => NeighborsGrow.trans h h')
        (fun y s => Closed Xn Yn Zn s x y z)
        (fun y s s' hs hs' hg h => Closed.mono hs hs' hg h)
        Yn
        (fun s'' y hy hs'' => genMeshNodesCell_spec s2 Xn Yn Zn hX hY hZ s'' hs'' x y z hx hy hz)
        s' hs'
theorem gridCoord_slotOf (s : ThermalStack) (Xn Yn : Nat)
    (hX : s.xElementCountMax = Xn) (hY : s.yElementCountMax = Yn)
    (x y z : Nat) (hx : x < Xn) (hy : y < Yn) :
    s.gridCoord (slotOf Xn Yn x y z) = (x, y, z) := by
  have hxn : s.xElementCountMax.toNat = Xn := by rw [hX]; simp
  have hyn : s.yElementCountMax.toNat = Yn := by rw [hY]; simp
  unfold ThermalStack.gridCoord slotOf
  rw [hxn, hyn]
  have e0 : x + y * Xn + z * Xn * Yn = x + Xn * (y + z * Yn) := by ring
  have e1 : (x + y * Xn + z * Xn * Yn) % Xn = x := by
    rw [e0, Nat.add_mul_mod_self_left, Nat.mod_eq_of_lt hx]
  have e2 : (x + y * Xn + z * Xn * Yn) / Xn = y + z * Yn := by
    rw [e0, Nat.add_mul_div_left _ _ (by omega), Nat.div_eq_of_lt hx, Nat.zero_add]
  have e3 : (y + z * Yn) % Yn = y := by
    rw [Nat.add_mul_mod_self_right, Nat.mod_eq_of_lt hy]
  have e4 : (x + y * Xn + z * Xn * Yn) / (Xn * Yn) = z := by
    rw [← Nat.div_div_eq_div_mul, e2, Nat.add_mul_div_right _ _ (by omega),
      Nat.div_eq_of_lt hy, Nat.zero_add]
  rw [e1, e2, e3, e4]

theorem activePair_iff_adjSlots (s : ThermalStack) (Xn Yn Zn : Nat)
    (hX : s.xElementCountMax = Xn) (hY : s.yElementCountMax = Yn)
    (hlen : s.elementArray.length = Xn * Yn * Zn) (a b : Nat) :
    s.ActivePair a b ↔ AdjSlots Xn Yn Zn s.elementArray a b := by
  constructor
  · rintro ⟨ha, hb, hea, heb, hadj⟩
    rw [hlen] at ha hb
    obtain ⟨x, y, z, hx, hy, hz, rfl⟩ := slotOf_surj ha
    obtain ⟨x', y', z', hx', hy', hz', rfl⟩ := slotOf_surj hb
    rw [gridCoord_slotOf s Xn Yn hX hY x y z hx hy,
      gridCoord_slotOf s Xn Yn hX hY x' y' z' hx' hy'] at hadj
    exact ⟨x, y, z, x', y', z', hx, hy, hz, hx', hy', hz', rfl, rfl, hea, heb, hadj⟩
  · rintro ⟨x, y, z, x', y', z', hx, hy, hz, hx', hy', hz', rfl, rfl, hea, heb, hadj⟩
    refine ⟨by rw [hlen]; exact slotOf_lt hx hy hz, by rw [hlen]; exact slotOf_lt hx' hy' hz',
      hea, heb, ?_⟩
    rw [gridCoord_slotOf s Xn Yn hX hY x y z hx hy,
      gridCoord_slotOf s Xn Yn hX hY x' y' z' hx' hy']
    exact hadj

theorem MeshNode.pair_eq_iff (n m : MeshNode) :
    n.pair = m.pair ↔ Joins m n.first n.second := by
  unfold MeshNode.pair Joins
  rw [Prod.mk.injEq]
  constructor
  · rintro ⟨h1, h2⟩
    omega
  · rintro (⟨h1, h2⟩ | ⟨h1, h2⟩) <;> constructor <;> omega

/-- Counting the nodes of a graph in which the nodes are, without repetition,
the face-adjacent Active pairs. -/
theorem length_eq_activePairCount (s : ThermalStack)
    (hsound : ∀ n ∈ s.nodeVector, s.ActivePair n.first n.second)
    (hcomplete : ∀ a b, s.ActivePair a b → ∃ n ∈ s.nodeVector, Joins n a b)
    (hdistinct : s.nodeVector.Pairwise (fun n m => ¬ Joins m n.first n.second)) :
    s.nodeVector.length = s.activePairCount := by
  have hactsymm : ∀ a b, s.ActivePair a b → s.ActivePair b a := by
    rintro a b ⟨h1, h2, h3, h4, h5⟩
    exact ⟨h2, h1, h4, h3, h5.symm⟩
  have hne : ∀ a b, s.ActivePair a b → a ≠ b := by
    rintro a b ⟨-, -, -, -, h5⟩ hab
    subst hab
    exact h5.ne rfl
  have hnodup : (s.nodeVector.map MeshNode.pair).Nodup := by
    unfold List.Nodup
    rw [List.pairwise_map]
    exact hdistinct.imp (fun {n m} h heq => h ((MeshNode.pair_eq_iff n m).mp heq))
  have hset : (s.nodeVector.map MeshNode.pair).toFinset =
      (Finset.range s.elementArray.length ×ˢ Finset.range s.elementArray.length).filter
        (fun p => p.1 < p.2 ∧ s.ActivePair p.1 p.2) := by
    ext ⟨a, b⟩
    simp only [List.mem_toFinset, List.mem_map, Finset.mem_filter, Finset.mem_product,
      Finset.mem_range]
    constructor
    · rintro ⟨n, hn, hp⟩
      have hact := hsound n hn
      have hneq := hne _ _ hact
      unfold MeshNode.pair at hp
      rw [Prod.mk.injEq] at hp
      obtain ⟨h1, h2⟩ := hp
      rcases Nat.lt_or_gt_of_ne hneq with hlt | hgt
      · have e1 : a = n.first := by omega
        have e2 : b = n.second := by omega
        subst e1 e2
        exact ⟨⟨hact.1, hact.2.1⟩, hlt, hact⟩
      · have e1 : a = n.second := by omega
        have e2 : b = n.first := by omega
        subst e1 e2
        exact ⟨⟨hact.2.1, hact.1⟩, hgt, hactsymm _ _ hact⟩
    · rintro ⟨-, hlt, hact⟩
      obtain ⟨n, hn, hj⟩ := hcomplete a b hact
      refine ⟨n, hn, ?_⟩
      unfold MeshNode.pair
      rw [Prod.mk.injEq]
      rcases hj with ⟨h1, h2⟩ | ⟨h1, h2⟩ <;> constructor <;> omega
  unfold ThermalStack.activePairCount
  rw [← hset, List.toFinset_card_of_nodup hnodup, List.length_map]

theorem meshedElement_neighbors (T0 dt : ℚ) (xMax yMax : Int) (b : Block) (x y z : Int) :
    (meshedElement T0 dt xMax yMax b x y z).neighbors = [] := by
  unfold meshedElement
  split_ifs <;> rfl

/-- The stack `mesh()` returns, described through the stack `s2` that
`genMeshElements` hands to `genMeshNodes`. -/
theorem mesh_spec (junk : Nat → MeshElement) (s0 : ThermalStack)
    (hun : Unmeshed s0) (hne : s0.blocks ≠ [])
    (hpos : ∀ b ∈ s0.blocks, 1 ≤ b.zElementCount) :
    ∃ (Xn Yn Zn : Nat) (s2 : ThermalStack),
      s0.mesh junk = some s2.genMeshNodes ∧
      s2.xElementCountMax = Xn ∧ s2.yElementCountMax = Yn ∧ s2.zElementCountMax = Zn ∧
      s2.totalElementCount = ((Xn * Yn * Zn : Nat) : Int) ∧
      GenInv (ThermalStack.initElementArray junk s0) Xn Yn Zn
        (fun i => ∃ x y z, x < Xn ∧ y < Yn ∧ z < Zn ∧ i = slotOf Xn Yn x y z) s2 ∧
      (ThermalStack.initElementArray junk s0).blocks = s0.blocks ∧
      (ThermalStack.initElementArray junk s0).startingTemperature = s0.startingTemperature ∧
      (ThermalStack.initElementArray junk s0).timeStep = s0.timeStep ∧
      NodeInv s2 Xn Yn Zn s2.genMeshNodes ∧
      ∀ x y z, x < Xn → y < Yn → z < Zn → Closed Xn Yn Zn s2.genMeshNodes x y z := by
  obtain ⟨Xn, Yn, Zn, s2, hgen, hX, hY, hZ, htot, hblocks, hnodes, hT, hdt, hZsum, hfit, hinv,
    hregs, hcount⟩ := genMeshElements_spec junk s0 hun hne hpos
  have h2X : s2.xElementCountMax = Xn := hinv.xMax.trans hX
  have h2Y : s2.yElementCountMax = Yn := hinv.yMax.trans hY
  have h2Z : s2.zElementCountMax = Zn := hinv.zMax.trans hZ
  have h2tot : s2.totalElementCount = ((Xn * Yn * Zn : Nat) : Int) := by
    have := congrArg ThermalStack.totalElementCount hinv.frame
    exact Eq.trans this htot
  have h2nodes : s2.nodeVector = [] := by
    have := congrArg ThermalStack.nodeVector hinv.frame
    exact Eq.trans this hnodes
  have hnb : ∀ i, (deref s2.elementArray i).neighbors = [] := by
    intro i
    by_cases hi : i < Xn * Yn * Zn
    · obtain ⟨x, y, z, hx, hy, hz, rfl⟩ := slotOf_surj hi
      obtain ⟨k, b, x', y', z', -, -, -, -, -, -, -, hel⟩ :=
        hinv.done _ ⟨x, y, z, hx, hy, hz, rfl⟩
      rw [hel, meshedElement_neighbors]
    · rw [deref_of_ge (by rw [hinv.size]; omega)]
      rfl
  have hinit : NodeInv s2 Xn Yn Zn s2 := by
    refine ⟨rfl, hinv.size, fun _ => rfl, ?_, ?_, ?_⟩
    · intro a b
      rw [hnb a, h2nodes]
      simp
    · rw [h2nodes]
      exact List.Pairwise.nil
    · rw [h2nodes]
      intro n hn
      exact absurd hn (List.not_mem_nil n)
  obtain ⟨hN, hC⟩ := genMeshNodes_spec s2 Xn Yn Zn h2X h2Y h2Z hinit
  exact ⟨Xn, Yn, Zn, s2, by simp [ThermalStack.mesh, hgen], h2X, h2Y, h2Z, h2tot, hinv,
    hblocks, hT, hdt, hN, hC⟩

theorem mesh_of_no_blocks (junk : Nat → MeshElement) (s0 : ThermalStack)
    (hnil : s0.blocks = []) : s0.mesh junk = none := by
  have hb : (ThermalStack.initElementArray junk s0).blocks = [] := by
    have := (initElementArrayStep_foldl s0.blocks s0).1
    have := congrArg ThermalStack.blocks this
    exact Eq.trans this hnil
  simp [ThermalStack.mesh, ThermalStack.genMeshElements, hb]

/-- C2: after `mesh()` on blocks with element counts at least 1 on every axis,
the node collection holds exactly one node for each unordered pair of Active
elements whose grid coordinates differ by exactly 1 along exactly one axis,
and nothing else: every such pair is connected by a node, every node connects
such a pair, no two nodes connect the same pair, and the number of nodes is
the number of such pairs. (`mesh()` returns whenever there is a block.) -/
theorem C2_mesh_nodes_are_adjacent_pairs (junk : Nat → MeshElement) (s0 : ThermalStack)
    (hun : Unmeshed s0)
    (hpos : ∀ b ∈ s0.blocks,
      1 ≤ b.xElementCount ∧ 1 ≤ b.yElementCount ∧ 1 ≤ b.zElementCount) :
    (s0.blocks ≠ [] → ∃ s, s0.mesh junk = some s) ∧
    ∀ s, s0.mesh junk = some s →
      (∀ a b, s.ActivePair a b → ∃ n ∈ s.nodeVector, Joins n a b) ∧
      (∀ n ∈ s.nodeVector, s.ActivePair n.first n.second) ∧
      s.nodeVector.Pairwise (fun n m => ¬ Joins m n.first n.second) ∧
      s.nodeVector.length = s.activePairCount ∧
      s.elementArray.length =
        (s.xElementCountMax * s.yElementCountMax * s.zElementCountMax).toNat ∧
      (∀ x y z : Nat, (x : Int) < s.xElementCountMax → (y : Int) < s.yElementCountMax →
        (z : Int) < s.zElementCountMax →
        s.gridCoord (x + y * s.xElementCountMax
          + z * s.xElementCountMax * s.yElementCountMax : Int).toNat = (x, y, z)) := by
  by_cases hne : s0.blocks = []
  · refine ⟨fun h => absurd hne h, ?_⟩
    intro s hs
    rw [mesh_of_no_blocks junk s0 hne] at hs
    cases hs
  · obtain ⟨Xn, Yn, Zn, s2, hmesh, h2X, h2Y, h2Z, -, -, -, -, -, hN, hC⟩ :=
      mesh_spec junk s0 hun hne (fun b hb => (hpos b hb).2.2)
    refine ⟨fun _ => ⟨_, hmesh⟩, ?_⟩
    intro s hs
    rw [hmesh] at hs
    have hs' : s2.genMeshNodes = s := Option.some.inj hs
    subst hs'
    have hX : s2.genMeshNodes.xElementCountMax = Xn := hN.boxX.trans h2X
    have hY : s2.genMeshNodes.yElementCountMax = Yn := hN.boxY.trans h2Y
    have hZ : s2.genMeshNodes.zElementCountMax = Zn := hN.boxZ.trans h2Z
    have hiff : ∀ a b, s2.genMeshNodes.ActivePair a b ↔
        AdjSlots Xn Yn Zn s2.elementArray a b := by
      intro a b
      rw [activePair_iff_adjSlots _ Xn Yn Zn hX hY hN.size]
      unfold AdjSlots
      simp only [hN.empty_eq]
    have hcomplete : ∀ a b, s2.genMeshNodes.ActivePair a b →
        ∃ n ∈ s2.genMeshNodes.nodeVector, Joins n a b := by
      intro a b hab
      obtain ⟨x, y, z, x', y', z', hx, hy, hz, hx', hy', hz', rfl, rfl, hea, heb, hadj⟩ :=
        (hiff a b).mp hab
      rw [← hN.empty_eq] at hea heb
      have := hC x y z hx hy hz hea x' y' z' hx' hy' hz' hadj heb
      obtain ⟨n, hn, hj⟩ := (hN.linked_iff _ _).mp this
      exact ⟨n, hn, hj.swap⟩
    have hsound : ∀ n ∈ s2.genMeshNodes.nodeVector,
        s2.genMeshNodes.ActivePair n.first n.second :=
      fun n hn => (hiff _ _).mpr (hN.adjacent n hn)
    refine ⟨hcomplete, hsound, hN.distinct,
      length_eq_activePairCount _ hsound hcomplete hN.distinct, ?_, ?_⟩
    · rw [hN.size, hX, hY, hZ]
      have : ((Xn : Int) * Yn * Zn) = ((Xn * Yn * Zn : Nat) : Int) := by push_cast; ring
      rw [this, Int.toNat_natCast]
    · intro x y z hx hy hz
      rw [hX] at hx
      rw [hY] at hy
      have := linearIndex_toNat s2.genMeshNodes Xn Yn hX hY x y z
      unfold ThermalStack.linearIndex at this
      rw [this]
      exact gridCoord_slotOf _ Xn Yn hX hY x y z (by omega) (by omega)

/-- C2 on the two-block stack `stackUnmeshed`: `mesh()` returns a stack with as
many nodes as face-adjacent Active pairs. -/
theorem C2_mesh_nodes_are_adjacent_pairs_witness :
    ∃ s, stackUnmeshed.mesh junkZero = some s ∧ s.nodeVector.length = s.activePairCount :=
  let h := C2_mesh_nodes_are_adjacent_pairs junkZero stackUnmeshed stackUnmeshed_unmeshed
    stackUnmeshed_counts
  let ⟨s, hs⟩ := h.1 (by simp [stackUnmeshed, ThermalStack.addBlock])
  ⟨s, hs, (h.2 s hs).2.2.2.1⟩

/-! ## Meshed stacks and the quiescent state -/

/-- What `mesh()` returns has the shape `Meshed`. -/
theorem mesh_meshed (junk : Nat → MeshElement) (s0 s : ThermalStack)
    (hun : Unmeshed s0) (hpos : ∀ b ∈ s0.blocks, 1 ≤ b.zElementCount)
    (hs : s0.mesh junk = some s) : Meshed s := by
  by_cases hne : s0.blocks = []
  · rw [mesh_of_no_blocks junk s0 hne] at hs
    cases hs
  · obtain ⟨Xn, Yn, Zn, s2, hmesh, h2X, h2Y, h2Z, h2tot, -, -, -, -, hN, -⟩ :=
      mesh_spec junk s0 hun hne hpos
    rw [hmesh] at hs
    have hs' : s2.genMeshNodes = s := Option.some.inj hs
    subst hs'
    constructor
    · have : s2.genMeshNodes.totalElementCount = s2.totalElementCount := by
        have := congrArg ThermalStack.totalElementCount hN.frame
        exact this
      rw [this, h2tot, hN.size, Int.toNat_natCast]
    · intro n hn
      have hadj := hN.adjacent n hn
      obtain ⟨h1, h2⟩ := hadj.lt
      obtain ⟨x, y, z, x', y', z', -, -, -, -, -, -, e1, e2, hea, heb, -⟩ := hadj
      rw [← hN.empty_eq] at hea heb
      rw [hN.size]
      exact ⟨h1, h2, hea, heb⟩

theorem solveStep_nodeVector (s : ThermalStack) : s.solveStep.nodeVector = s.nodeVector := rfl

theorem solveStep_totalElementCount (s : ThermalStack) :
    s.solveStep.totalElementCount = s.totalElementCount := rfl

theorem solveStep_timeStep (s : ThermalStack) : s.solveStep.timeStep = s.timeStep := rfl

/-- The arena after one step, slot by slot. -/
theorem solveStep_deref (s : ThermalStack) (hm : Meshed s) (i : Nat)
    (hi : i < s.elementArray.length) :
    s.solveStep.elementArray.length = s.elementArray.length ∧
    deref s.solveStep.elementArray i =
      MeshElement.applyEnergyTransfer
        { deref s.elementArray i with
          energyExternalPending := (deref s.elementArray i).energyExternalPending
            + (s.nodeVector.map (inflowThrough s.elementArray s.timeStep i)).sum } := by
  obtain ⟨ht1, ht2⟩ := transfer_foldl s.timeStep s.nodeVector s.elementArray
    (fun n hn => ⟨(hm.nodes_valid n hn).1, (hm.nodes_valid n hn).2.1⟩)
  obtain ⟨hc1, hc2⟩ :=
    commit_foldl s.transferPhase.totalElementCount.toNat s.transferPhase.elementArray
  have htot : s.transferPhase.totalElementCount = s.totalElementCount := rfl
  constructor
  · simp only [ThermalStack.solveStep, ThermalStack.commitPhase] at hc1 ⊢
    rw [hc1]
    exact ht1
  · have := hc2 i
    simp only [ThermalStack.solveStep, ThermalStack.commitPhase] at this ⊢
    rw [this, if_pos]
    · simp only [ThermalStack.transferPhase]
      rw [ht2 i]
    · refine ⟨by rw [htot, hm.size]; exact hi, ?_⟩
      simp only [ThermalStack.transferPhase]
      rw [ht1]
      exact hi

/-- A step keeps the shape `Meshed`. -/
theorem solveStep_meshed (s : ThermalStack) (hm : Meshed s) : Meshed s.solveStep := by
  have hlen : s.solveStep.elementArray.length = s.elementArray.length := by
    by_cases h0 : 0 < s.elementArray.length
    · exact (solveStep_deref s hm 0 h0).1
    · obtain ⟨ht1, -⟩ := transfer_foldl s.timeStep s.nodeVector s.elementArray
        (fun n hn => ⟨(hm.nodes_valid n hn).1, (hm.nodes_valid n hn).2.1⟩)
      obtain ⟨hc1, -⟩ :=
        commit_foldl s.transferPhase.totalElementCount.toNat s.transferPhase.elementArray
      simp only [ThermalStack.solveStep, ThermalStack.commitPhase] at hc1 ⊢
      rw [hc1]
      exact ht1
  constructor
  · rw [solveStep_totalElementCount, hlen]
    exact hm.size
  · intro n hn
    rw [solveStep_nodeVector] at hn
    obtain ⟨h1, h2, h3, h4⟩ := hm.nodes_valid n hn
    rw [hlen]
    refine ⟨h1, h2, ?_, ?_⟩
    · rw [(solveStep_deref s hm n.first h1).2]
      unfold MeshElement.applyEnergyTransfer
      simp [h3]
    · rw [(solveStep_deref s hm n.second h2).2]
      unfold MeshElement.applyEnergyTransfer
      simp [h4]

/-- A step leaves a uniform, generation-free arena uniform. -/
theorem solveStep_uniform (T0 : ℚ) (s : ThermalStack) (hm : Meshed s)
    (hu : UniformArena T0 s.elementArray) : UniformArena T0 s.solveStep.elementArray := by
  have htemp : ∀ j, j < s.elementArray.length → (deref s.elementArray j).temperature = T0 := by
    intro j hj
    rw [deref_of_lt hj]
    exact (hu _ (List.getElem_mem hj)).1
  intro e he
  obtain ⟨i, hi, rfl⟩ := List.getElem_of_mem he
  have hi' : i < s.elementArray.length := by
    by_cases h0 : 0 < s.elementArray.length
    · rw [← (solveStep_deref s hm 0 h0).1]; exact hi
    · have := (solveStep_meshed s hm).size
      rw [solveStep_totalElementCount, hm.size] at this
      omega
  have hzero : (s.nodeVector.map (inflowThrough s.elementArray s.timeStep i)).sum = 0 := by
    apply List.sum_eq_zero
    intro v hv
    obtain ⟨n, hn, rfl⟩ := List.mem_map.mp hv
    obtain ⟨h1, h2, -, -⟩ := hm.nodes_valid n hn
    unfold inflowThrough
    rw [htemp _ h1, htemp _ h2, htemp _ hi']
    simp
  have hval := (solveStep_deref s hm i hi').2
  rw [deref_of_lt hi] at hval
  rw [hval, hzero]
  obtain ⟨u1, u2, u3⟩ := hu _ (List.getElem_mem hi')
  rw [deref_of_lt hi']
  unfold MeshElement.applyEnergyTransfer
  by_cases hemp : (s.elementArray[i]).empty = true
  · simp [hemp, u1, u2, u3]
  · simp [hemp, u1, u2, u3]

theorem iterate_solveStep_uniform (T0 : ℚ) (n : Nat) (s : ThermalStack) (hm : Meshed s)
    (hu : UniformArena T0 s.elementArray) :
    Meshed (ThermalStack.solveStep^[n] s) ∧
    UniformArena T0 (ThermalStack.solveStep^[n] s).elementArray := by
  induction n generalizing s with
  | zero => exact ⟨hm, hu⟩
  | succ n ih =>
    rw [Function.iterate_succ_apply]
    exact ih s.solveStep (solveStep_meshed s hm) (solveStep_uniform T0 s hm hu)

/-- After `mesh()`, every slot holds the starting temperature and nothing
pending; it generates nothing when no block does. -/
theorem mesh_uniform (junk : Nat → MeshElement) (s0 s : ThermalStack)
    (hun : Unmeshed s0) (hpos : ∀ b ∈ s0.blocks, 1 ≤ b.zElementCount)
    (hq : ∀ b ∈ s0.blocks, b.qGenElement = 0)
    (hs : s0.mesh junk = some s) : UniformArena s0.startingTemperature s.elementArray := by
  by_cases hne : s0.blocks = []
  · rw [mesh_of_no_blocks junk s0 hne] at hs
    cases hs
  · obtain ⟨Xn, Yn, Zn, s2, hmesh, h2X, h2Y, h2Z, h2tot, hinv, hblocks, hT, hdt, hN, -⟩ :=
      mesh_spec junk s0 hun hne hpos
    rw [hmesh] at hs
    have hs' : s2.genMeshNodes = s := Option.some.inj hs
    subst hs'
    intro e he
    obtain ⟨i, hi, rfl⟩ := List.getElem_of_mem he
    have hiN : i < Xn * Yn * Zn := by rw [← hN.size]; exact hi
    obtain ⟨x, y, z, hx, hy, hz, rfl⟩ := slotOf_surj hiN
    obtain ⟨k, b, x', y', z', -, -, -, -, hb, -, -, hel⟩ :=
      hinv.done _ ⟨x, y, z, hx, hy, hz, rfl⟩
    have hbq : b.qGenElement = 0 := hq b (by rw [← hblocks]; exact mem_of_getElem?_some hb)
    have hclear := hN.elems (slotOf Xn Yn x y z)
    rw [deref_of_lt hi, hel] at hclear
    have h1 := congrArg MeshElement.temperature hclear
    have h2 := congrArg MeshElement.energyGenPerTimestep hclear
    have h3 := congrArg MeshElement.energyExternalPending hclear
    simp only [MeshElement.clearNeighbors] at h1 h2 h3
    rw [h1, h2, h3]
    unfold meshedElement
    split_ifs <;> simp [MeshElement.ctor, MeshElement.makeEmpty, hT, Block.getQGenElement, hbq]

/-- C7: a stack of a single block with zero heat generation (element counts at
least 1, non-zero element capacitance), meshed at the uniform starting
temperature `T0`: `mesh()` succeeds and after any number `n` of
transfer-then-commit steps every Active element is still exactly at `T0`. -/
theorem C7_single_block_no_generation_stays_uniform (junk : Nat → MeshElement)
    (meshSize timeStep : ℚ) (sampleIntervalSteps : Int) (threshold T0 : ℚ)
    (xIn yIn zIn : ℚ) (mat : Material)
    (hcount : 1 ≤ (Block.ctor xIn yIn zIn meshSize mat 0).xElementCount ∧
      1 ≤ (Block.ctor xIn yIn zIn meshSize mat 0).yElementCount ∧
      1 ≤ (Block.ctor xIn yIn zIn meshSize mat 0).zElementCount)
    (hcap : (Block.ctor xIn yIn zIn meshSize mat 0).cElement ≠ 0) :
    ∃ s, ((ThermalStack.ctor meshSize timeStep sampleIntervalSteps threshold T0).addBlock
        xIn yIn zIn mat 0).mesh junk = some s ∧
      (∀ e ∈ s.elementArray, e.empty = false → e.cElement ≠ 0) ∧
      ∀ n : Nat, ∀ e ∈ (ThermalStack.solveStep^[n] s).elementArray,
        e.empty = false → e.temperature = T0 := by
  set s0 := (ThermalStack.ctor meshSize timeStep sampleIntervalSteps threshold T0).addBlock
    xIn yIn zIn mat 0 with hs0
  have hblocks : s0.blocks = [Block.ctor xIn yIn zIn meshSize mat 0] := rfl
  have hun : Unmeshed s0 := by
    refine ⟨rfl, rfl, rfl, rfl, rfl, ?_⟩
    intro b hb
    rw [hblocks, List.mem_singleton] at hb
    subst hb
    rfl
  have hpos : ∀ b ∈ s0.blocks, 1 ≤ b.zElementCount := by
    intro b hb
    rw [hblocks, List.mem_singleton] at hb
    subst hb
    exact hcount.2.2
  have hq : ∀ b ∈ s0.blocks, b.qGenElement = 0 := by
    intro b hb
    rw [hblocks, List.mem_singleton] at hb
    subst hb
    simp [Block.ctor, Block.calcElementProperties, Block.genMeshDimensions]
  obtain ⟨Xn, Yn, Zn, s2, hmesh, -, -, -, -, hinv, hb1, -, -, hN, -⟩ :=
    mesh_spec junk s0 hun (by rw [hblocks]; simp) hpos
  have hm := mesh_meshed junk s0 _ hun hpos hmesh
  have hu := mesh_uniform junk s0 _ hun hpos hq hmesh
  refine ⟨s2.genMeshNodes, hmesh, ?_, ?_⟩
  · intro e he _
    obtain ⟨i, hi, rfl⟩ := List.getElem_of_mem he
    have hiN : i < Xn * Yn * Zn := by rw [← hN.size]; exact hi
    obtain ⟨x, y, z, hx, hy, hz, rfl⟩ := slotOf_surj hiN
    obtain ⟨k, b, x', y', z', -, -, -, -, hb, -, -, hel⟩ :=
      hinv.done _ ⟨x, y, z, hx, hy, hz, rfl⟩
    have hbmem : b ∈ s0.blocks := by rw [← hb1]; exact mem_of_getElem?_some hb
    rw [hblocks, List.mem_singleton] at hbmem
    have hclear := hN.elems (slotOf Xn Yn x y z)
    rw [deref_of_lt hi, hel] at hclear
    have h1 := congrArg MeshElement.cElement hclear
    simp only [MeshElement.clearNeighbors] at h1
    rw [h1]
    unfold meshedElement
    split_ifs <;> simp only [MeshElement.ctor, MeshElement.makeEmpty, Block.getCElement] <;>
      rw [hbmem] <;> exact hcap
  · intro n e he _
    exact ((iterate_solveStep_uniform T0 n _ hm hu).2 e he).1

theorem cround_natCast (k : Nat) : cround (k : ℚ) = k := by
  rw [cround_of_nonneg (by positivity), Int.floor_eq_iff]
  constructor
  · push_cast; linarith
  · push_cast; linarith

theorem sinkBlock_props :
    (1 ≤ (Block.ctor 2 2 1 1 unitMaterial 0).xElementCount ∧
      1 ≤ (Block.ctor 2 2 1 1 unitMaterial 0).yElementCount ∧
      1 ≤ (Block.ctor 2 2 1 1 unitMaterial 0).zElementCount) ∧
    (Block.ctor 2 2 1 1 unitMaterial 0).cElement ≠ 0 := by
  have h2 : cround 2 = 2 := by exact_mod_cast cround_natCast 2
  have hx : (Block.ctor 2 2 1 1 unitMaterial 0).xElementCount = 2 := by
    rw [Block.ctor_xElementCount, h2]
    norm_num [h2]
  have hy : (Block.ctor 2 2 1 1 unitMaterial 0).yElementCount = 2 := by
    rw [Block.ctor_yElementCount, h2]
    norm_num [h2]
  have hz : (Block.ctor 2 2 1 1 unitMaterial 0).zElementCount = 1 := by
    rw [Block.ctor_zElementCount]
    norm_num
  have hc : (Block.ctor 2 2 1 1 unitMaterial 0).cElement =
      (unitMaterial.c * ((cround 2 : ℚ) * (cround 2 : ℚ) * 1)) /
        (((Block.ctor 2 2 1 1 unitMaterial 0).xElementCount *
          (Block.ctor 2 2 1 1 unitMaterial 0).yElementCount *
          (Block.ctor 2 2 1 1 unitMaterial 0).zElementCount : Int) : ℚ) := rfl
  refine ⟨⟨by omega, by omega, by omega⟩, ?_⟩
  rw [hc, hx, hy, hz, h2]
  norm_num [unitMaterial, Material.ctor]

/-- C7 on a single 2 x 2 x 1 block without generation, starting at 65 degrees. -/
theorem C7_single_block_no_generation_stays_uniform_witness :
    ∃ s, ((ThermalStack.ctor 1 (1 / 10) 10 (1 / 1000) 65).addBlock
        2 2 1 unitMaterial 0).mesh junkZero = some s ∧
      ∀ n : Nat, ∀ e ∈ (ThermalStack.solveStep^[n] s).elementArray,
        e.empty = false → e.temperature = 65 :=
  let ⟨s, h1, _, h3⟩ := C7_single_block_no_generation_stays_uniform junkZero 1 (1 / 10) 10
    (1 / 1000) 65 2 2 1 unitMaterial sinkBlock_props.1 sinkBlock_props.2
  ⟨s, h1, h3⟩

/-! ## Element counts and per-element properties of a block -/

/-- C11: for a block with `zLength > 0` and `meshSize > 0`, `zElementCount` is
`ceil(zLength / meshSize)`; hence `zElementCount ≥ 1` and
`zElementCount * meshSize ≥ zLength`. The X and Y counts are
`round(round(xIn) / meshSize)` and `round(round(yIn) / meshSize)`. -/
theorem C11_element_counts_formula (xIn yIn zIn m : ℚ) (mat : Material) (q : ℚ)
    (hz : 0 < zIn) (hm : 0 < m) :
    (Block.ctor xIn yIn zIn m mat q).zLength = zIn ∧
    (Block.ctor xIn yIn zIn m mat q).zElementCount = cceil (zIn / m) ∧
    cceil (zIn / m) = ⌈zIn / m⌉ ∧
    1 ≤ (Block.ctor xIn yIn zIn m mat q).zElementCount ∧
    zIn ≤ ((Block.ctor xIn yIn zIn m mat q).zElementCount : ℚ) * m ∧
    (Block.ctor xIn yIn zIn m mat q).xElementCount = cround ((cround xIn : ℚ) / m) ∧
    (Block.ctor xIn yIn zIn m mat q).yElementCount = cround ((cround yIn : ℚ) / m) := by
  refine ⟨rfl, rfl, rfl, ?_, ?_, rfl, rfl⟩
  · rw [Block.ctor_zElementCount]
    have : 0 < ⌈zIn / m⌉ := Int.ceil_pos.mpr (div_pos hz hm)
    omega
  · rw [Block.ctor_zElementCount]
    have h := Int.le_ceil (zIn / m)
    rw [div_le_iff₀ hm] at h
    exact h

/-- C11 at the 15 x 10 x 3 block of mesh resolution one half. -/
theorem C11_element_counts_formula_witness :
    (3 : ℚ) ≤ ((Block.ctor 15 10 3 (1 / 2) unitMaterial 0).zElementCount : ℚ) * (1 / 2) :=
  (C11_element_counts_formula 15 10 3 (1 / 2) unitMaterial 0 (by norm_num)
    (by norm_num)).2.2.2.2.1

theorem Block.ctor_cElement (xIn yIn zIn m : ℚ) (mat : Material) (q : ℚ) :
    (Block.ctor xIn yIn zIn m mat q).cElement =
      (mat.c * ((cround xIn : ℚ) * (cround yIn : ℚ) * zIn)) /
        (((Block.ctor xIn yIn zIn m mat q).xElementCount *
          (Block.ctor xIn yIn zIn m mat q).yElementCount *
          (Block.ctor xIn yIn zIn m mat q).zElementCount : Int) : ℚ) := rfl

theorem Block.ctor_qGenElement (xIn yIn zIn m : ℚ) (mat : Material) (q : ℚ) :
    (Block.ctor xIn yIn zIn m mat q).qGenElement =
      q / (((Block.ctor xIn yIn zIn m mat q).xElementCount *
          (Block.ctor xIn yIn zIn m mat q).yElementCount *
          (Block.ctor xIn yIn zIn m mat q).zElementCount : Int) : ℚ) := rfl

/-- C12: for a block whose total element count
`N = xElementCount * yElementCount * zElementCount` is non-zero, the per-element
values partition the block totals exactly: `N * cElement` is the material `c`
times the volume `round(xIn) * round(yIn) * zIn`, and `N * qGenElement` is the
block's total heat generation. -/
theorem C12_per_element_values_partition (xIn yIn zIn m : ℚ) (mat : Material) (q : ℚ)
    (hN : (Block.ctor xIn yIn zIn m mat q).xElementCount *
        (Block.ctor xIn yIn zIn m mat q).yElementCount *
        (Block.ctor xIn yIn zIn m mat q).zElementCount ≠ 0) :
    (((Block.ctor xIn yIn zIn m mat q).xElementCount *
        (Block.ctor xIn yIn zIn m mat q).yElementCount *
        (Block.ctor xIn yIn zIn m mat q).zElementCount : Int) : ℚ) *
      (Block.ctor xIn yIn zIn m mat q).getCElement =
        mat.c * ((cround xIn : ℚ) * (cround yIn : ℚ) * zIn) ∧
    (((Block.ctor xIn yIn zIn m mat q).xElementCount *
        (Block.ctor xIn yIn zIn m mat q).yElementCount *
        (Block.ctor xIn yIn zIn m mat q).zElementCount : Int) : ℚ) *
      (Block.ctor xIn yIn zIn m mat q).getQGenElement =
        (Block.ctor xIn yIn zIn m mat q).getQGen ∧
    (Block.ctor xIn yIn zIn m mat q).getQGen = q ∧
    (Block.ctor xIn yIn zIn m mat q).getVolume = (cround xIn : ℚ) * (cround yIn : ℚ) * zIn ∧
    (Block.ctor xIn yIn zIn m mat q).c = mat.c := by
  have hN' : (((Block.ctor xIn yIn zIn m mat q).xElementCount *
        (Block.ctor xIn yIn zIn m mat q).yElementCount *
        (Block.ctor xIn yIn zIn m mat q).zElementCount : Int) : ℚ) ≠ 0 := by
    exact_mod_cast hN
  refine ⟨?_, ?_, rfl, rfl, rfl⟩
  · rw [Block.getCElement, Block.ctor_cElement, mul_div_cancel₀ _ hN']
  · rw [Block.getQGenElement, Block.ctor_qGenElement, mul_div_cancel₀ _ hN']
    rfl

/-- C12 at the 2 x 2 x 1 block of unit mesh resolution. -/
theorem C12_per_element_values_partition_witness :
    (((Block.ctor 2 2 1 1 unitMaterial 0).xElementCount *
        (Block.ctor 2 2 1 1 unitMaterial 0).yElementCount *
        (Block.ctor 2 2 1 1 unitMaterial 0).zElementCount : Int) : ℚ) *
      (Block.ctor 2 2 1 1 unitMaterial 0).getCElement =
        unitMaterial.c * ((cround 2 : ℚ) * (cround 2 : ℚ) * 1) :=
  (C12_per_element_values_partition 2 2 1 1 unitMaterial 0
    (ne_of_gt (mul_pos (mul_pos (by have := sinkBlock_props.1.1; omega)
      (by have := sinkBlock_props.1.2.1; omega)) (by have := sinkBlock_props.1.2.2; omega)))).1

theorem deref_modify_rememberNeighbor_fields (arena : List MeshElement) (n p i : Nat) :
    (deref (arena.modify (fun e => e.rememberNeighbor p) n) i).zLayer = (deref arena i).zLayer ∧
    (deref (arena.modify (fun e => e.rememberNeighbor p) n) i).xyRAbsolute
      = (deref arena i).xyRAbsolute ∧
    (deref (arena.modify (fun e => e.rememberNeighbor p) n) i).zRAbsolute
      = (deref arena i).zRAbsolute := by
  rw [deref_modify]
  split_ifs <;> exact ⟨rfl, rfl, rfl⟩

/-- The resistance the node constructor computes, read in the arena it was given. -/
theorem MeshNode.ctor_resistance (arena : List MeshElement) (p q : Nat) :
    (MeshNode.ctor arena p q).1.resistanceAbsolute =
      if (deref arena p).zLayer = (deref arena q).zLayer then
        (deref arena p).xyRAbsolute + (deref arena q).xyRAbsolute
      else (deref arena p).zRAbsolute + (deref arena q).zRAbsolute := by
  unfold MeshNode.ctor
  simp only [MeshElement.getZLayer, MeshElement.getXYRAbsolute, MeshElement.getZRAbsolute,
    deref_modify_rememberNeighbor_fields]

theorem Block.ctor_xyRAbsolute (xIn yIn zIn m : ℚ) (mat : Material) (q : ℚ) :
    (Block.ctor xIn yIn zIn m mat q).xyRAbsolute =
      (((cround xIn : ℚ) / ((Block.ctor xIn yIn zIn m mat q).xElementCount : ℚ)) / 2) /
        (mat.k * (((cround xIn : ℚ) / ((Block.ctor xIn yIn zIn m mat q).xElementCount : ℚ)) *
          (zIn / ((Block.ctor xIn yIn zIn m mat q).zElementCount : ℚ)))) := rfl

theorem Block.ctor_zRAbsolute (xIn yIn zIn m : ℚ) (mat : Material) (q : ℚ) :
    (Block.ctor xIn yIn zIn m mat q).zRAbsolute =
      ((zIn / ((Block.ctor xIn yIn zIn m mat q).zElementCount : ℚ)) / 2) /
        (mat.k * (((cround xIn : ℚ) / ((Block.ctor xIn yIn zIn m mat q).xElementCount : ℚ)) *
          ((cround xIn : ℚ) / ((Block.ctor xIn yIn zIn m mat q).xElementCount : ℚ)))) := rfl

/-- C13: for a block with non-zero conductivity and non-zero element counts,
writing `L = xLength / xElementCount` and `H = zLength / zElementCount`, the
lateral half-resistance is `(L/2) / (k * L * H)` and the vertical one
`(H/2) / (k * L^2)`. A node built between two elements carrying this block's
half-resistances has resistance `L / (k * L * H)` when the two are in the same
layer (lateral) and `H / (k * L^2)` otherwise (vertical). -/
theorem C13_half_resistances (xIn yIn zIn m : ℚ) (mat : Material) (q : ℚ)
    (hk : mat.k ≠ 0)
    (hx : (Block.ctor xIn yIn zIn m mat q).xElementCount ≠ 0)
    (hy : (Block.ctor xIn yIn zIn m mat q).yElementCount ≠ 0)
    (hz : (Block.ctor xIn yIn zIn m mat q).zElementCount ≠ 0) :
    (Block.ctor xIn yIn zIn m mat q).k = mat.k ∧
    (Block.ctor xIn yIn zIn m mat q).getXYRAbsolute =
      (((Block.ctor xIn yIn zIn m mat q).xLength
          / (Block.ctor xIn yIn zIn m mat q).xElementCount) / 2) /
        (mat.k * ((Block.ctor xIn yIn zIn m mat q).xLength
            / (Block.ctor xIn yIn zIn m mat q).xElementCount) *
          ((Block.ctor xIn yIn zIn m mat q).zLength
            / (Block.ctor xIn yIn zIn m mat q).zElementCount)) ∧
    (Block.ctor xIn yIn zIn m mat q).getZRAbsolute =
      (((Block.ctor xIn yIn zIn m mat q).zLength
          / (Block.ctor xIn yIn zIn m mat q).zElementCount) / 2) /
        (mat.k * ((Block.ctor xIn yIn zIn m mat q).xLength
            / (Block.ctor xIn yIn zIn m mat q).xElementCount) ^ 2) ∧
    ∀ (arena : List MeshElement) (p r : Nat),
      (deref arena p).xyRAbsolute = (Block.ctor xIn yIn zIn m mat q).getXYRAbsolute →
      (deref arena r).xyRAbsolute = (Block.ctor xIn yIn zIn m mat q).getXYRAbsolute →
      (deref arena p).zRAbsolute = (Block.ctor xIn yIn zIn m mat q).getZRAbsolute →
      (deref arena r).zRAbsolute = (Block.ctor xIn yIn zIn m mat q).getZRAbsolute →
      (MeshNode.ctor arena p r).1.resistanceAbsolute =
        if (deref arena p).zLayer = (deref arena r).zLayer then
          ((Block.ctor xIn yIn zIn m mat q).xLength
              / (Block.ctor xIn yIn zIn m mat q).xElementCount) /
            (mat.k * ((Block.ctor xIn yIn zIn m mat q).xLength
                / (Block.ctor xIn yIn zIn m mat q).xElementCount) *
              ((Block.ctor xIn yIn zIn m mat q).zLength
                / (Block.ctor xIn yIn zIn m mat q).zElementCount))
        else
          ((Block.ctor xIn yIn zIn m mat q).zLength
              / (Block.ctor xIn yIn zIn m mat q).zElementCount) /
            (mat.k * ((Block.ctor xIn yIn zIn m mat q).xLength
                / (Block.ctor xIn yIn zIn m mat q).xElementCount) ^ 2) := by
  have hxl : (Block.ctor xIn yIn zIn m mat q).xLength = (cround xIn : ℚ) := rfl
  have hzl : (Block.ctor xIn yIn zIn m mat q).zLength = zIn := rfl
  have e1 : (Block.ctor xIn yIn zIn m mat q).getXYRAbsolute =
      (((Block.ctor xIn yIn zIn m mat q).xLength
          / (Block.ctor xIn yIn zIn m mat q).xElementCount) / 2) /
        (mat.k * ((Block.ctor xIn yIn zIn m mat q).xLength
            / (Block.ctor xIn yIn zIn m mat q).xElementCount) *
          ((Block.ctor xIn yIn zIn m mat q).zLength
            / (Block.ctor xIn yIn zIn m mat q).zElementCount)) := by
    rw [Block.getXYRAbsolute, Block.ctor_xyRAbsolute, hxl, hzl, mul_assoc]
  have e2 : (Block.ctor xIn yIn zIn m mat q).getZRAbsolute =
      (((Block.ctor xIn yIn zIn m mat q).zLength
          / (Block.ctor xIn yIn zIn m mat q).zElementCount) / 2) /
        (mat.k * ((Block.ctor xIn yIn zIn m mat q).xLength
            / (Block.ctor xIn yIn zIn m mat q).xElementCount) ^ 2) := by
    rw [Block.getZRAbsolute, Block.ctor_zRAbsolute, hxl, hzl, pow_two]
  refine ⟨rfl, e1, e2, ?_⟩
  intro arena p r h1 h2 h3 h4
  rw [MeshNode.ctor_resistance, h1, h2, h3, h4, e1, e2]
  split_ifs <;> ring

/-- C13 at the 2 x 2 x 1 block of unit mesh resolution: its lateral half-resistance. -/
theorem C13_half_resistances_witness :
    (Block.ctor 2 2 1 1 unitMaterial 0).getXYRAbsolute =
      (((Block.ctor 2 2 1 1 unitMaterial 0).xLength
          / (Block.ctor 2 2 1 1 unitMaterial 0).xElementCount) / 2) /
        (unitMaterial.k * ((Block.ctor 2 2 1 1 unitMaterial 0).xLength
            / (Block.ctor 2 2 1 1 unitMaterial 0).xElementCount) *
          ((Block.ctor 2 2 1 1 unitMaterial 0).zLength
            / (Block.ctor 2 2 1 1 unitMaterial 0).zElementCount)) :=
  (C13_half_resistances 2 2 1 1 unitMaterial 0 (by norm_num [unitMaterial, Material.ctor])
    (by have := sinkBlock_props.1.1; omega) (by have := sinkBlock_props.1.2.1; omega)
    (by have := sinkBlock_props.1.2.2; omega)).2.1
/-! ## Order independence of the transfer phase -/

theorem arena_ext (a b : List MeshElement) (hlen : a.length = b.length)
    (h : ∀ i, i < a.length → deref a i = deref b i) : a = b := by
  apply List.ext_getElem hlen
  intro i h1 h2
  have := h i h1
  rwa [deref_of_lt h1, deref_of_lt h2] at this

/-- C14: the transfer phase does not depend on the order of the node
collection: processing any permutation of the nodes leaves the same arena
(so the same pending accumulator on every element), and no temperature
changes during the transfer phase. -/
theorem C14_transferPhase_order_independent (s : ThermalStack) (nodes : List MeshNode)
    (hperm : nodes.Perm s.nodeVector)
    (hvalid : ∀ n ∈ s.nodeVector,
      n.first < s.elementArray.length ∧ n.second < s.elementArray.length) :
    (s.withNodes nodes).transferPhase.elementArray = s.transferPhase.elementArray ∧
    (∀ i, (deref (s.withNodes nodes).transferPhase.elementArray i).energyExternalPending =
      (deref s.transferPhase.elementArray i).energyExternalPending) ∧
    (∀ i, (deref s.transferPhase.elementArray i).temperature =
      (deref s.elementArray i).temperature) ∧
    (∀ i, (deref (s.withNodes nodes).transferPhase.elementArray i).temperature =
      (deref s.elementArray i).temperature) := by
  have hvalid' : ∀ n ∈ nodes,
      n.first < s.elementArray.length ∧ n.second < s.elementArray.length :=
    fun n hn => hvalid n (hperm.subset hn)
  obtain ⟨h1, h2⟩ := transfer_foldl s.timeStep s.nodeVector s.elementArray hvalid
  obtain ⟨g1, g2⟩ := transfer_foldl s.timeStep nodes s.elementArray hvalid'
  have harena : (s.withNodes nodes).transferPhase.elementArray =
      s.transferPhase.elementArray := by
    show nodes.foldl (fun arena n => n.calcEnergyTransfer s.timeStep arena) s.elementArray
      = s.nodeVector.foldl (fun arena n => n.calcEnergyTransfer s.timeStep arena)
          s.elementArray
    apply arena_ext _ _ (g1.trans h1.symm)
    intro i _
    rw [g2 i, h2 i, (hperm.map (inflowThrough s.elementArray s.timeStep i)).sum_eq]
  have htemp : ∀ i, (deref s.transferPhase.elementArray i).temperature =
      (deref s.elementArray i).temperature := by
    intro i
    show (deref (s.nodeVector.foldl (fun arena n => n.calcEnergyTransfer s.timeStep arena)
      s.elementArray) i).temperature = _
    rw [h2 i]
  refine ⟨harena, ?_, htemp, ?_⟩
  · intro i
    rw [harena]
  · intro i
    rw [harena]
    exact htemp i

/-- C14 on the two elements of `arenaTwo` joined by two nodes, processed in
either order. -/
theorem C14_transferPhase_order_independent_witness :
    ((stackTwo.withNodes [nodeTwo, nodeTwoBack]).withNodes
        [nodeTwoBack, nodeTwo]).transferPhase.elementArray =
      (stackTwo.withNodes [nodeTwo, nodeTwoBack]).transferPhase.elementArray :=
  (C14_transferPhase_order_independent (stackTwo.withNodes [nodeTwo, nodeTwoBack])
    [nodeTwoBack, nodeTwo] (List.Perm.swap _ _ _) (by decide)).1

/-! ## The iterations of `solve` -/

theorem advanced_monitoredBlock (s : ThermalStack) :
    s.advanced.monitoredBlock = s.monitoredBlock := rfl

/-- An iteration that does not sample. -/
theorem solveIteration_of_not_due (s : ThermalStack) (l : SolveLocals) (h : ¬ s.sampleDue) :
    s.solveIteration l =
      some (s.advanced,
        { l with currStep := ctrunc ((s.currTime + s.timeStep) / s.timeStep) }, none) := by
  have h' : ¬ (ctrunc ((s.solveStep.currTime + s.solveStep.timeStep)
      / s.solveStep.timeStep)).tmod s.solveStep.sampleIntervalSteps = 0 := h
  unfold ThermalStack.solveIteration
  simp only
  rw [if_neg h']
  rfl

/-- An iteration that samples and sees the temperature still rising. -/
theorem solveIteration_of_rising (s : ThermalStack) (l : SolveLocals) (blk : Block)
    (hblk : s.monitoredBlock = some blk) (h : s.sampleDue)
    (hr : blk.getBulkTemp s.solveStep.elementArray - s.previousTemperature
      > s.deltaTConvergenceThreshold) :
    s.solveIteration l =
      some (s.sampled (blk.getBulkTemp s.solveStep.elementArray),
        { l with
          currStep := ctrunc ((s.currTime + s.timeStep) / s.timeStep)
          currMonitoredTemperature := blk.getBulkTemp s.solveStep.elementArray }, none) := by
  have h' : (ctrunc ((s.solveStep.currTime + s.solveStep.timeStep)
      / s.solveStep.timeStep)).tmod s.solveStep.sampleIntervalSteps = 0 := h
  have hb : ThermalStack.monitoredBlock
      { s.solveStep with currTime := s.solveStep.currTime + s.solveStep.timeStep } = some blk :=
    hblk
  have hr' : blk.getBulkTemp s.solveStep.elementArray - s.solveStep.previousTemperature
      > s.solveStep.deltaTConvergenceThreshold := hr
  unfold ThermalStack.solveIteration
  simp only
  rw [if_pos h', hb]
  simp only [Option.bind_eq_bind, Option.some_bind]
  rw [if_pos hr']
  rfl

/-- An iteration that samples and declares convergence. -/
theorem solveIteration_of_converged (s : ThermalStack) (l : SolveLocals) (blk : Block)
    (hblk : s.monitoredBlock = some blk) (h : s.sampleDue)
    (hr : ¬ blk.getBulkTemp s.solveStep.elementArray - s.previousTemperature
      > s.deltaTConvergenceThreshold) :
    ∃ report tau, s.solveIteration l =
      some (s.sampled (blk.getBulkTemp s.solveStep.elementArray),
        { haveIConvergedYet := true
          currStep := ctrunc ((s.currTime + s.timeStep) / s.timeStep)
          tauInterval := tau
          currMonitoredTemperature := blk.getBulkTemp s.solveStep.elementArray },
        some report) := by
  have h' : (ctrunc ((s.solveStep.currTime + s.solveStep.timeStep)
      / s.solveStep.timeStep)).tmod s.solveStep.sampleIntervalSteps = 0 := h
  have hb : ThermalStack.monitoredBlock
      { s.solveStep with currTime := s.solveStep.currTime + s.solveStep.timeStep } = some blk :=
    hblk
  have hr' : ¬ blk.getBulkTemp s.solveStep.elementArray - s.solveStep.previousTemperature
      > s.solveStep.deltaTConvergenceThreshold := hr
  unfold ThermalStack.solveIteration
  simp only
  rw [if_pos h', hb]
  simp only [Option.bind_eq_bind, Option.some_bind]
  rw [if_neg hr']
  exact ⟨_, _, rfl⟩

theorem solveStep_elementArray_congr (s s' : ThermalStack)
    (h1 : s.elementArray = s'.elementArray) (h2 : s.nodeVector = s'.nodeVector)
    (h3 : s.timeStep = s'.timeStep) (h4 : s.totalElementCount = s'.totalElementCount) :
    s.solveStep.elementArray = s'.solveStep.elementArray := by
  simp only [ThermalStack.solveStep, ThermalStack.commitPhase, ThermalStack.transferPhase,
    h1, h2, h3, h4]

theorem ctrunc_natCast (k : Nat) : ctrunc (k : ℚ) = k := by
  unfold ctrunc
  rw [if_pos (by positivity)]
  exact Int.floor_natCast k

/-- The step counter after the iteration that starts at `currTime = k * timeStep`. -/
theorem sampleDue_iff (s : ThermalStack) (k N : Nat) (hdt : s.timeStep ≠ 0)
    (hcur : s.currTime = k * s.timeStep) (hS : s.sampleIntervalSteps = N) :
    s.sampleDue ↔ N ∣ k + 1 := by
  unfold ThermalStack.sampleDue
  have h1 : (s.currTime + s.timeStep) / s.timeStep = ((k + 1 : Nat) : ℚ) := by
    rw [hcur]
    field_simp
    ring
  rw [h1, ctrunc_natCast, hS, Int.tmod_eq_emod (by positivity) (by positivity)]
  constructor
  · intro h
    exact Int.natCast_dvd_natCast.mp (Int.dvd_of_emod_eq_zero h)
  · intro h
    exact Int.emod_eq_zero_of_dvd (Int.natCast_dvd_natCast.mpr h)

/-- Every iteration of the loop body can run when the monitored block exists, and
its effect on the stack is one of two: time advanced, or time advanced and a
sample of the monitored bulk temperature appended. -/
theorem solveIteration_effect (s : ThermalStack) (l : SolveLocals) (blk : Block)
    (hblk : s.monitoredBlock = some blk) :
    ∃ r, s.solveIteration l = some r ∧
      (¬ s.sampleDue → r.1 = s.advanced ∧
        r.2.1.haveIConvergedYet = l.haveIConvergedYet ∧
        r.2.1.currMonitoredTemperature = l.currMonitoredTemperature) ∧
      (s.sampleDue → r.1 = s.sampled (blk.getBulkTemp s.solveStep.elementArray) ∧
        r.2.1.currMonitoredTemperature = blk.getBulkTemp s.solveStep.elementArray ∧
        (blk.getBulkTemp s.solveStep.elementArray - s.previousTemperature
            > s.deltaTConvergenceThreshold →
          r.2.1.haveIConvergedYet = l.haveIConvergedYet) ∧
        (¬ blk.getBulkTemp s.solveStep.elementArray - s.previousTemperature
            > s.deltaTConvergenceThreshold →
          r.2.1.haveIConvergedYet = true)) := by
  by_cases hdue : s.sampleDue
  · by_cases hr : blk.getBulkTemp s.solveStep.elementArray - s.previousTemperature
        > s.deltaTConvergenceThreshold
    · exact ⟨_, solveIteration_of_rising s l blk hblk hdue hr, fun h => absurd hdue h,
        fun _ => ⟨rfl, rfl, fun _ => rfl, fun h => absurd hr h⟩⟩
    · obtain ⟨report, tau, h⟩ := solveIteration_of_converged s l blk hblk hdue hr
      exact ⟨_, h, fun h => absurd hdue h,
        fun _ => ⟨rfl, rfl, fun h => absurd h hr, fun _ => rfl⟩⟩
  · exact ⟨_, solveIteration_of_not_due s l hdue, fun _ => ⟨rfl, rfl, rfl⟩,
      fun h => absurd h hdue⟩

theorem solveIterations_succ (k : Nat)
    (t r : ThermalStack × SolveLocals × Option ConvergenceReport)
    (h : ThermalStack.solveIterations k t = some r) :
    ThermalStack.solveIterations (k + 1) t = r.1.solveIteration r.2.1 := by
  simp only [ThermalStack.solveIterations, h]

/-- The state after `k` iterations of the loop body, from a clock at `timeStep`. -/
theorem solveIterations_state (s : ThermalStack) (l : SolveLocals)
    (rep : Option ConvergenceReport) (N : Nat)
    (hS : s.sampleIntervalSteps = N)
    (hcur : s.currTime = s.timeStep) (blk : Block) (hblk : s.monitoredBlock = some blk)
    (k : Nat) :
    ∃ r, ThermalStack.solveIterations k (s, l, rep) = some r ∧
      r.1.elementArray = (ThermalStack.solveStep^[k] s).elementArray ∧
      r.1.nodeVector = s.nodeVector ∧
      r.1.timeStep = s.timeStep ∧
      r.1.totalElementCount = s.totalElementCount ∧
      r.1.sampleIntervalSteps = N ∧
      r.1.monitoredBlock = some blk ∧
      r.1.currTime = ((k + 1 : Nat) : ℚ) * s.timeStep := by
  induction k with
  | zero =>
    exact ⟨(s, l, rep), rfl, rfl, rfl, rfl, rfl, hS, hblk, by simp [hcur]⟩
  | succ k ih =>
    obtain ⟨r, hr, h1, h2, h3, h4, h5, h6, h7⟩ := ih
    obtain ⟨r', hr', hnot, hdue⟩ := solveIteration_effect r.1 r.2.1 blk h6
    have hstep : r.1.solveStep.elementArray =
        (ThermalStack.solveStep^[k + 1] s).elementArray := by
      rw [Function.iterate_succ_apply']
      have hn : ∀ j, (ThermalStack.solveStep^[j] s).nodeVector = s.nodeVector ∧
          (ThermalStack.solveStep^[j] s).timeStep = s.timeStep ∧
          (ThermalStack.solveStep^[j] s).totalElementCount = s.totalElementCount := by
        intro j
        induction j with
        | zero => exact ⟨rfl, rfl, rfl⟩
        | succ j ihj =>
          rw [Function.iterate_succ_apply']
          exact ihj
      exact solveStep_elementArray_congr _ _ h1 (h2.trans (hn k).1.symm)
        (h3.trans (hn k).2.1.symm) (h4.trans (hn k).2.2.symm)
    have hshape : r'.1 = r.1.advanced ∨
        r'.1 = r.1.sampled (blk.getBulkTemp r.1.solveStep.elementArray) := by
      by_cases hd : r.1.sampleDue
      · exact Or.inr (hdue hd).1
      · exact Or.inl (hnot hd).1
    refine ⟨r', by rw [solveIterations_succ k _ r hr]; exact hr', ?_, ?_, ?_, ?_, ?_, ?_, ?_⟩
    · rcases hshape with h | h <;> rw [h] <;> exact hstep
    · rcases hshape with h | h <;> rw [h] <;> exact h2
    · rcases hshape with h | h <;> rw [h] <;> exact h3
    · rcases hshape with h | h <;> rw [h] <;> exact h4
    · rcases hshape with h | h <;> rw [h] <;> exact h5
    · rcases hshape with h | h <;> rw [h] <;> exact h6
    · have : r.1.advanced.currTime = ((k + 1 + 1 : Nat) : ℚ) * s.timeStep := by
        show r.1.currTime + r.1.timeStep = _
        rw [h7, h3]
        push_cast
        ring
      rcases hshape with h | h <;> rw [h] <;> exact this

/-- Iteration number `k + 1` of the loop body: it samples exactly when `N` divides
`k + 2`, and what it samples is the bulk temperature after `k + 1` steps. -/
theorem solveIterations_next (s : ThermalStack) (l : SolveLocals)
    (rep : Option ConvergenceReport) (N : Nat)
    (hS : s.sampleIntervalSteps = N) (hdt : s.timeStep ≠ 0)
    (hcur : s.currTime = s.timeStep) (blk : Block) (hblk : s.monitoredBlock = some blk)
    (k : Nat) :
    ∃ r r', ThermalStack.solveIterations k (s, l, rep) = some r ∧
      ThermalStack.solveIterations (k + 1) (s, l, rep) = some r' ∧
      r.1.elementArray = (ThermalStack.solveStep^[k] s).elementArray ∧
      r'.1.elementArray = (ThermalStack.solveStep^[k + 1] s).elementArray ∧
      (N ∣ k + 2 → r'.1.tempHistory = r.1.tempHistory ++
        [blk.getBulkTemp (ThermalStack.solveStep^[k + 1] s).elementArray]) ∧
      (¬ N ∣ k + 2 → r'.1.tempHistory = r.1.tempHistory) := by
  obtain ⟨r, hr, h1, h2, h3, h4, h5, h6, h7⟩ :=
    solveIterations_state s l rep N hS hcur blk hblk k
  obtain ⟨r', hr', g1, -, -, -, -, -, -⟩ :=
    solveIterations_state s l rep N hS hcur blk hblk (k + 1)
  have hr'' : r.1.solveIteration r.2.1 = some r' := by
    rw [← solveIterations_succ k _ r hr]; exact hr'
  obtain ⟨r2, hr2, hnot, hdue⟩ := solveIteration_effect r.1 r.2.1 blk h6
  have hrr : r2 = r' := Option.some.inj (hr2.symm.trans hr'')
  subst hrr
  have hiff : r.1.sampleDue ↔ N ∣ k + 1 + 1 :=
    sampleDue_iff r.1 (k + 1) N (by rw [h3]; exact hdt) (by rw [h7, h3]) h5
  refine ⟨r, r2, hr, hr', h1, g1, ?_, ?_⟩
  · intro hd
    have hs := (hdue (hiff.mpr hd)).1
    have harena : r.1.solveStep.elementArray =
        (ThermalStack.solveStep^[k + 1] s).elementArray := by
      rw [← g1, hs]
      rfl
    rw [hs, ← harena]
    rfl
  · intro hd
    have hs := (hnot (fun h => hd (hiff.mp h))).1
    rw [hs]
    rfl

/-- With a sample interval `N ≥ 2`, the samples in the history after `k` iterations. -/
theorem solveIterations_history (s : ThermalStack) (l : SolveLocals)
    (rep : Option ConvergenceReport) (N : Nat) (hN : 2 ≤ N)
    (hS : s.sampleIntervalSteps = N) (hdt : s.timeStep ≠ 0)
    (hcur : s.currTime = s.timeStep) (blk : Block) (hblk : s.monitoredBlock = some blk)
    (k : Nat) :
    ∀ r, ThermalStack.solveIterations k (s, l, rep) = some r →
      r.1.tempHistory = s.tempHistory ++ (List.range ((k + 1) / N)).map
        (fun i => blk.getBulkTemp
          (ThermalStack.solveStep^[(i + 1) * N - 1] s).elementArray) := by
  induction k with
  | zero =>
    intro r hr
    have : r = (s, l, rep) := (Option.some.inj hr).symm
    subst this
    have h0 : (0 + 1) / N = 0 := Nat.div_eq_of_lt (by omega)
    simp [h0]
  | succ k ih =>
    intro r' hr'
    obtain ⟨r, r2, hr, hr2, -, -, hd, hnd⟩ :=
      solveIterations_next s l rep N hS hdt hcur blk hblk k
    have : r2 = r' := Option.some.inj (hr2.symm.trans hr')
    subst this
    have ihr := ih r hr
    by_cases hdiv : N ∣ k + 2
    · rw [hd hdiv, ihr]
      have hq : (k + 1 + 1) / N = (k + 1) / N + 1 := by
        rw [Nat.succ_div, if_pos hdiv]
      rw [hq, List.range_succ, List.map_append, List.append_assoc]
      have hidx : ((k + 1) / N + 1) * N - 1 = k + 1 := by
        obtain ⟨c, hc⟩ := hdiv
        have hq' : (k + 1 + 1) / N = c := by
          rw [show k + 1 + 1 = N * c by omega]
          exact Nat.mul_div_cancel_left c (by omega)
        have : (k + 1) / N + 1 = c := by omega
        rw [this, Nat.mul_comm c N, ← hc]
        omega
      simp [hidx]
    · rw [hnd hdiv, ihr]
      have hq : (k + 1 + 1) / N = (k + 1) / N := by
        rw [Nat.succ_div, if_neg hdiv]
        rfl
      rw [hq]

/-- C15 (as the code has it): on a stack whose clock starts at `currTime = timeStep`
(as the constructor sets it), with sample interval `N ≥ 1`, a non-zero time
step and a valid monitored block, the loop body can always run. Iteration
number `k + 1` appends a sample exactly when `N` divides `k + 2`, one more than
its number; the sample is the monitored bulk temperature after `k + 1` steps
and goes to the end of the history. Hence, for `N ≥ 2`, after `k` iterations
the history has gained `(k + 1) / N` samples, sample `i` (0-based) being the
bulk temperature after `(i + 1) * N - 1` steps, in the order taken. -/
theorem C15_sample_when_step_counter_divides (s : ThermalStack) (l : SolveLocals)
    (rep : Option ConvergenceReport) (N : Nat) (hN : 0 < N)
    (hS : s.sampleIntervalSteps = N) (hdt : s.timeStep ≠ 0)
    (hcur : s.currTime = s.timeStep) (blk : Block) (hblk : s.monitoredBlock = some blk)
    (k : Nat) :
    ∃ r r', ThermalStack.solveIterations k (s, l, rep) = some r ∧
      ThermalStack.solveIterations (k + 1) (s, l, rep) = some r' ∧
      r.1.elementArray = (ThermalStack.solveStep^[k] s).elementArray ∧
      r'.1.elementArray = (ThermalStack.solveStep^[k + 1] s).elementArray ∧
      (N ∣ k + 2 → r'.1.tempHistory = r.1.tempHistory ++
        [blk.getBulkTemp (ThermalStack.solveStep^[k + 1] s).elementArray]) ∧
      (¬ N ∣ k + 2 → r'.1.tempHistory = r.1.tempHistory) ∧
      (2 ≤ N → r.1.tempHistory = s.tempHistory ++ (List.range ((k + 1) / N)).map
        (fun i => blk.getBulkTemp
          (ThermalStack.solveStep^[(i + 1) * N - 1] s).elementArray)) := by
  obtain ⟨r, r', hr, hr', h1, h2, h3, h4⟩ :=
    solveIterations_next s l rep N hS hdt hcur blk hblk k
  exact ⟨r, r', hr, hr', h1, h2, h3, h4,
    fun h2N => solveIterations_history s l rep N h2N hS hdt hcur blk hblk k r hr⟩

theorem stackHot_sampleDue : stackHot.sampleDue := by
  have h := (sampleDue_iff stackHot 1 2 (by norm_num [stackHot]) (by norm_num [stackHot])
    rfl).mpr (by norm_num)
  exact h

/-- C15 on `stackHot` (sample interval 2): the first iteration already samples. -/
theorem C15_sample_when_step_counter_divides_witness :
    ∃ r r', ThermalStack.solveIterations 0 (stackHot, ThermalStack.solveLocalsInit, none)
        = some r ∧
      ThermalStack.solveIterations 1 (stackHot, ThermalStack.solveLocalsInit, none)
        = some r' ∧
      r'.1.tempHistory = r.1.tempHistory ++
        [blockHot.getBulkTemp (ThermalStack.solveStep^[1] stackHot).elementArray] :=
  let ⟨r, r', h1, h2, _, _, h3, _⟩ := C15_sample_when_step_counter_divides stackHot
    ThermalStack.solveLocalsInit none 2 (by norm_num) rfl (by norm_num [stackHot])
    (by norm_num [stackHot]) blockHot rfl 0
  ⟨r, r', h1, h2, h3 (by norm_num)⟩

/-- C15 as stated fails: on `stackHot`, whose sample interval is 2, the first
iteration of the loop (`k = 1`, not a multiple of 2) appends a sample to the
empty history. -/
theorem C15_counterexample :
    stackHot.sampleIntervalSteps = 2 ∧ stackHot.tempHistory = [] ∧
    stackHot.currTime = stackHot.timeStep ∧ ¬ ((2 : Nat) ∣ 1) ∧
    ∃ r, stackHot.solveIteration ThermalStack.solveLocalsInit = some r ∧
      r.1.tempHistory.length = 1 := by
  refine ⟨rfl, rfl, rfl, by norm_num, ?_⟩
  obtain ⟨r, hr, -, hdue⟩ :=
    solveIteration_effect stackHot ThermalStack.solveLocalsInit blockHot rfl
  refine ⟨r, hr, ?_⟩
  rw [(hdue stackHot_sampleDue).1]
  rfl
/-! ## Convergence -/

theorem solveLoop_of_converged (fuel : Nat) (s : ThermalStack) (l : SolveLocals)
    (rep : Option ConvergenceReport) (h : l.haveIConvergedYet = true) :
    s.solveLoop fuel l rep = some (s, l, rep) := by
  cases fuel <;> simp [ThermalStack.solveLoop, h]

theorem solveLoop_zero (s : ThermalStack) (l : SolveLocals)
    (rep : Option ConvergenceReport) (h : l.haveIConvergedYet = false) :
    s.solveLoop 0 l rep = none := by
  simp [ThermalStack.solveLoop, h]

theorem solveLoop_succ (fuel : Nat) (s : ThermalStack) (l : SolveLocals)
    (rep : Option ConvergenceReport) (h : l.haveIConvergedYet = false)
    (r : ThermalStack × SolveLocals × Option ConvergenceReport)
    (hr : s.solveIteration l = some r) :
    s.solveLoop (fuel + 1) l rep = r.1.solveLoop fuel r.2.1 r.2.2 := by
  rw [ThermalStack.solveLoop]
  simp [h, hr]

/-- The sample before position `samples.length`: the last sample, or `before`. -/
theorem getD_cons_length (before : ℚ) (samples : List ℚ) :
    (before :: samples).getD samples.length 0 = (samples.getLast?).getD before := by
  induction samples generalizing before with
  | nil => simp
  | cons a samples ih =>
    simp only [List.length_cons, List.getD_cons_succ]
    rw [ih a]
    cases samples with
    | nil => simp
    | cons b rest =>
      rw [List.getLast?_cons_cons]
      cases h : (b :: rest).getLast? with
      | none => simp at h
      | some v => rfl

theorem increaseAt_append_last (before : ℚ) (samples : List ℚ) (c : ℚ) :
    increaseAt before (samples ++ [c]) samples.length =
      c - (samples.getLast?).getD before := by
  unfold increaseAt
  have h1 : (before :: (samples ++ [c])).getD (samples.length + 1) 0 = c := by
    simp [List.getD_eq_getElem?_getD]
  have h2 : (before :: (samples ++ [c])).getD samples.length 0 =
      (before :: samples).getD samples.length 0 := by
    rw [← List.cons_append, List.getD_append _ _ _ _ (by simp)]
  rw [h1, h2, getD_cons_length]

theorem increaseAt_append_of_lt (before : ℚ) (samples : List ℚ) (c : ℚ) (i : Nat)
    (hi : i < samples.length) :
    increaseAt before (samples ++ [c]) i = increaseAt before samples i := by
  unfold increaseAt
  rw [← List.cons_append, List.getD_append _ _ _ _ (by simp; omega),
    List.getD_append _ _ _ _ (by simp; omega)]

/-- The loop of `solve` from a state in which no sample so far has ended the rise:
if it returns, it returns right after the first sample whose increase is at
most the threshold. -/
theorem solveLoop_spec (blk : Block) (thr T0 : ℚ) (h0 : List ℚ) (before : ℚ) (fuel : Nat) :
    ∀ (s : ThermalStack) (l : SolveLocals) (rep : Option ConvergenceReport)
      (samples : List ℚ),
      s.monitoredBlock = some blk → s.deltaTConvergenceThreshold = thr →
      s.startingTemperature = T0 → l.haveIConvergedYet = false →
      s.tempHistory = h0 ++ samples →
      s.previousTemperature = (samples.getLast?).getD before →
      AllRising thr before samples →
      ∀ r, s.solveLoop fuel l rep = some r →
        ∃ samples', r.1.tempHistory = h0 ++ samples' ∧
          FirstSmallIncrease thr before samples' ∧
          r.2.1.haveIConvergedYet = true ∧
          r.1.previousTemperature = (samples'.getLast?).getD before ∧
          r.2.1.currMonitoredTemperature = blk.getBulkTemp r.1.elementArray ∧
          samples'.getLast? = some (blk.getBulkTemp r.1.elementArray) ∧
          r.1.monitoredBlock = some blk ∧ r.1.startingTemperature = T0 ∧
          r.1.deltaTConvergenceThreshold = thr := by
  induction fuel with
  | zero =>
    intro s l rep samples _ _ _ hl _ _ _ r hr
    rw [solveLoop_zero s l rep hl] at hr
    cases hr
  | succ fuel ih =>
    intro s l rep samples hblk hthr hT hl hhist hprev hrise r hr
    by_cases hdue : s.sampleDue
    · by_cases hgt : blk.getBulkTemp s.solveStep.elementArray - s.previousTemperature
          > s.deltaTConvergenceThreshold
      · -- a sample that is still rising: the loop goes on
        have hit := solveIteration_of_rising s l blk hblk hdue hgt
        rw [solveLoop_succ fuel s l rep hl _ hit] at hr
        refine ih _ _ _ (samples ++ [blk.getBulkTemp s.solveStep.elementArray])
          ?_ ?_ ?_ ?_ ?_ ?_ ?_ r hr
        · exact hblk
        · exact hthr
        · exact hT
        · exact hl
        · show s.tempHistory ++ [_] = _
          rw [hhist, List.append_assoc]
        · show blk.getBulkTemp s.solveStep.elementArray = _
          simp
        · intro i hi
          rw [List.length_append, List.length_singleton] at hi
          by_cases hlt : i < samples.length
          · rw [increaseAt_append_of_lt _ _ _ _ hlt]
            exact hrise i hlt
          · have : i = samples.length := by omega
            subst this
            rw [increaseAt_append_last, ← hprev, ← hthr]
            exact hgt
      · -- the first sample that is not: convergence
        obtain ⟨report, tau, hit⟩ := solveIteration_of_converged s l blk hblk hdue hgt
        rw [solveLoop_succ fuel s l rep hl _ hit, solveLoop_of_converged _ _ _ _ rfl] at hr
        have hr' := (Option.some.inj hr).symm
        subst hr'
        refine ⟨samples ++ [blk.getBulkTemp s.solveStep.elementArray], ?_, ⟨by simp, ?_, ?_⟩,
          rfl, ?_, rfl, ?_, hblk, hT, hthr⟩
        · show s.tempHistory ++ [_] = _
          rw [hhist, List.append_assoc]
        · intro i hi
          rw [List.length_append, List.length_singleton] at hi
          have hlt : i < samples.length := by omega
          rw [increaseAt_append_of_lt _ _ _ _ hlt]
          exact hrise i hlt
        · have : (samples ++ [blk.getBulkTemp s.solveStep.elementArray]).length - 1
              = samples.length := by simp
          rw [this, increaseAt_append_last, ← hprev, ← hthr]
          exact not_lt.mp hgt
        · show blk.getBulkTemp s.solveStep.elementArray = _
          simp
        · rw [List.getLast?_concat]
          rfl
    · have hit := solveIteration_of_not_due s l hdue
      rw [solveLoop_succ fuel s l rep hl _ hit] at hr
      refine ih _ _ _ samples ?_ ?_ ?_ ?_ ?_ ?_ hrise r hr
      · exact hblk
      · exact hthr
      · exact hT
      · exact hl
      · exact hhist
      · exact hprev

theorem solveIterations_front (k : Nat)
    (t : ThermalStack × SolveLocals × Option ConvergenceReport) :
    ThermalStack.solveIterations (k + 1) t =
      (t.1.solveIteration t.2.1).bind (ThermalStack.solveIterations k) := by
  induction k with
  | zero =>
    simp only [ThermalStack.solveIterations]
    cases t.1.solveIteration t.2.1 <;> rfl
  | succ k ih =>
    rw [ThermalStack.solveIterations, ih]
    cases h : t.1.solveIteration t.2.1 with
    | none => rfl
    | some r =>
      simp only [Option.some_bind]
      rw [ThermalStack.solveIterations]

/-- The loop of `solve` does return once the iterations have produced a sample whose
increase is at most the threshold. -/
theorem solveLoop_returns (blk : Block) (thr : ℚ) (h0 : List ℚ) (before : ℚ) (k : Nat) :
    ∀ (s : ThermalStack) (l : SolveLocals) (rep : Option ConvergenceReport)
      (samples : List ℚ),
      s.monitoredBlock = some blk → s.deltaTConvergenceThreshold = thr →
      l.haveIConvergedYet = false →
      s.tempHistory = h0 ++ samples →
      s.previousTemperature = (samples.getLast?).getD before →
      AllRising thr before samples →
      ∀ r, ThermalStack.solveIterations k (s, l, rep) = some r →
        (∃ samples' i, r.1.tempHistory = h0 ++ samples' ∧ i < samples'.length ∧
          increaseAt before samples' i ≤ thr) →
        ∃ r', s.solveLoop k l rep = some r' := by
  induction k with
  | zero =>
    intro s l rep samples _ _ _ hhist _ hrise r hr ⟨samples', i, hs', hi, hle⟩
    have hr' := (Option.some.inj hr).symm
    subst hr'
    have : samples' = samples := by
      have := hs'.symm.trans hhist
      exact List.append_cancel_left this
    subst this
    exact absurd (hrise i hi) (not_lt.mpr hle)
  | succ k ih =>
    intro s l rep samples hblk hthr hl hhist hprev hrise r hr hex
    rw [solveIterations_front] at hr
    by_cases hdue : s.sampleDue
    · by_cases hgt : blk.getBulkTemp s.solveStep.elementArray - s.previousTemperature
          > s.deltaTConvergenceThreshold
      · have hit := solveIteration_of_rising s l blk hblk hdue hgt
        rw [solveLoop_succ k s l rep hl _ hit]
        rw [hit, Option.some_bind] at hr
        refine ih _ _ _ (samples ++ [blk.getBulkTemp s.solveStep.elementArray])
          ?_ ?_ ?_ ?_ ?_ ?_ r hr hex
        · exact hblk
        · exact hthr
        · exact hl
        · show s.tempHistory ++ [_] = _
          rw [hhist, List.append_assoc]
        · show blk.getBulkTemp s.solveStep.elementArray = _
          simp
        · intro i hi
          rw [List.length_append, List.length_singleton] at hi
          by_cases hlt : i < samples.length
          · rw [increaseAt_append_of_lt _ _ _ _ hlt]
            exact hrise i hlt
          · have : i = samples.length := by omega
            subst this
            rw [increaseAt_append_last, ← hprev, ← hthr]
            exact hgt
      · obtain ⟨report, tau, hit⟩ := solveIteration_of_converged s l blk hblk hdue hgt
        rw [solveLoop_succ k s l rep hl _ hit, solveLoop_of_converged _ _ _ _ rfl]
        exact ⟨_, rfl⟩
    · have hit := solveIteration_of_not_due s l hdue
      rw [solveLoop_succ k s l rep hl _ hit]
      rw [hit, Option.some_bind] at hr
      refine ih _ _ _ samples ?_ ?_ ?_ ?_ ?_ hrise r hr hex
      · exact hblk
      · exact hthr
      · exact hl
      · exact hhist
      · exact hprev

theorem allRising_nil (thr before : ℚ) : AllRising thr before [] := by
  intro i hi
  cases hi

/-- The bulk temperature of `blockHot` after the first step of `stackHot`. -/
theorem stackHot_first_sample :
    blockHot.getBulkTemp stackHot.solveStep.elementArray = 327 / 5 := by
  norm_num [stackHot, blockHot, ThermalStack.solveStep, ThermalStack.transferPhase,
    ThermalStack.commitPhase, Block.getBulkTemp, MeshElement.ctor,
    MeshElement.applyEnergyTransfer, MeshElement.getTemperature, deref, List.range_succ,
    List.modify, List.modifyHead]

/-- On `stackHot` the run of `solve` ends after one iteration. -/
theorem stackHot_solve : ∃ r, ThermalStack.solve 1 stackHot = some r := by
  have hgt : ¬ blockHot.getBulkTemp stackHot.solveStep.elementArray
      - stackHot.previousTemperature > stackHot.deltaTConvergenceThreshold := by
    rw [stackHot_first_sample]
    norm_num [stackHot]
  obtain ⟨report, tau, hit⟩ := solveIteration_of_converged stackHot
    ThermalStack.solveLocalsInit blockHot rfl stackHot_sampleDue hgt
  have hloop := (solveLoop_succ 0 stackHot ThermalStack.solveLocalsInit none rfl _ hit).trans
    (solveLoop_of_converged 0 _ _ _ rfl)
  exact ⟨(stackHot.sampled (blockHot.getBulkTemp stackHot.solveStep.elementArray),
    some report, (blockHot.getBulkTemp stackHot.solveStep.elementArray
      - stackHot.startingTemperature) / blockHot.getQGen), by
    unfold ThermalStack.solve
    rw [hloop]
    rfl⟩

/-- C16: a run of `solve` on a stack with an empty history whose previous-sample
value is the initial temperature ends exactly at the first sample whose increase
over the sample before it (the initial temperature for the first sample) is at
most the convergence threshold: if `solve` returns, the last sample of the
history has an increase at most the threshold and every earlier sample an
increase strictly above it; `solve` does return, within `k` iterations, as soon
as `k` iterations of the loop body produce a sample with such an increase; and
every iteration that samples stores the sample as the previous-sample value,
keeps the loop going when the increase is above the threshold and sets the
convergence flag otherwise. -/
theorem C16_convergence_at_first_small_increase (s : ThermalStack) (blk : Block)
    (hblk : s.monitoredBlock = some blk) (hh : s.tempHistory = [])
    (hp : s.previousTemperature = s.startingTemperature) :
    (∀ fuel r, ThermalStack.solve fuel s = some r →
      FirstSmallIncrease s.deltaTConvergenceThreshold s.startingTemperature r.1.tempHistory ∧
      r.1.previousTemperature = (r.1.tempHistory.getLast?).getD s.startingTemperature) ∧
    (∀ k r, ThermalStack.solveIterations k (s, ThermalStack.solveLocalsInit, none) = some r →
      (∃ i, i < r.1.tempHistory.length ∧
        increaseAt s.startingTemperature r.1.tempHistory i ≤ s.deltaTConvergenceThreshold) →
      ∃ r', ThermalStack.solve k s = some r') ∧
    (∀ (t : ThermalStack) (l : SolveLocals) (b : Block), t.monitoredBlock = some b →
      ∃ r, t.solveIteration l = some r ∧
        (t.sampleDue →
          r.1.tempHistory = t.tempHistory ++ [b.getBulkTemp t.solveStep.elementArray] ∧
          r.1.previousTemperature = b.getBulkTemp t.solveStep.elementArray ∧
          (b.getBulkTemp t.solveStep.elementArray - t.previousTemperature
              > t.deltaTConvergenceThreshold →
            r.2.1.haveIConvergedYet = l.haveIConvergedYet) ∧
          (b.getBulkTemp t.solveStep.elementArray - t.previousTemperature
              ≤ t.deltaTConvergenceThreshold →
            r.2.1.haveIConvergedYet = true)) ∧
        (¬ t.sampleDue →
          r.1.tempHistory = t.tempHistory ∧
          r.1.previousTemperature = t.previousTemperature ∧
          r.2.1.haveIConvergedYet = l.haveIConvergedYet)) := by
  refine ⟨?_, ?_, ?_⟩
  · intro fuel r hr
    unfold ThermalStack.solve at hr
    cases hloop : s.solveLoop fuel ThermalStack.solveLocalsInit none with
    | none => rw [hloop] at hr; cases hr
    | some q =>
      obtain ⟨samples', h1, h2, _, h4, _, _, h7, _, _⟩ :=
        solveLoop_spec blk s.deltaTConvergenceThreshold s.startingTemperature []
          s.startingTemperature fuel s ThermalStack.solveLocalsInit none [] hblk rfl rfl rfl
          (by rw [hh]; rfl) (by rw [hp]; rfl) (allRising_nil _ _) q hloop
      rw [hloop] at hr
      simp only [Option.bind_eq_bind, Option.some_bind, h7] at hr
      have hr' := (Option.some.inj hr).symm
      subst hr'
      rw [List.nil_append] at h1
      show FirstSmallIncrease _ _ q.1.tempHistory ∧
        q.1.previousTemperature = (q.1.tempHistory.getLast?).getD _
      rw [h1]
      exact ⟨h2, h4⟩
  · intro k r hr ⟨i, hi, hle⟩
    obtain ⟨q, hq⟩ := solveLoop_returns blk s.deltaTConvergenceThreshold []
      s.startingTemperature k s ThermalStack.solveLocalsInit none [] hblk rfl rfl
      (by rw [hh]; rfl) (by rw [hp]; rfl) (allRising_nil _ _) r hr
      ⟨r.1.tempHistory, i, (List.nil_append _).symm, hi, hle⟩
    obtain ⟨_, _, _, _, _, _, _, h7, _, _⟩ :=
      solveLoop_spec blk s.deltaTConvergenceThreshold s.startingTemperature []
        s.startingTemperature k s ThermalStack.solveLocalsInit none [] hblk rfl rfl rfl
        (by rw [hh]; rfl) (by rw [hp]; rfl) (allRising_nil _ _) q hq
    exact ⟨(q.1, q.2.2,
      (q.2.1.currMonitoredTemperature - q.1.startingTemperature) / blk.getQGen), by
      unfold ThermalStack.solve
      rw [hq]
      simp only [Option.bind_eq_bind, Option.some_bind, h7]
      rfl⟩
  · intro t l b hb
    obtain ⟨r, hr, hnot, hdue⟩ := solveIteration_effect t l b hb
    refine ⟨r, hr, ?_, ?_⟩
    · intro hd
      obtain ⟨h1, _, h3, h4⟩ := hdue hd
      rw [h1]
      exact ⟨rfl, rfl, h3, fun hle => h4 (not_lt.mpr hle)⟩
    · intro hd
      obtain ⟨h1, h2, _⟩ := hnot hd
      rw [h1]
      exact ⟨rfl, rfl, h2⟩

/-- C16 on `stackHot`: the first sample, 65.4, is within the threshold 1/2 of the
initial temperature 65, and `solve` ends there. -/
theorem C16_convergence_at_first_small_increase_witness :
    stackHot.monitoredBlock = some blockHot ∧ stackHot.tempHistory = [] ∧
    stackHot.previousTemperature = stackHot.startingTemperature ∧
    ∀ fuel r, ThermalStack.solve fuel stackHot = some r →
      FirstSmallIncrease stackHot.deltaTConvergenceThreshold stackHot.startingTemperature
        r.1.tempHistory ∧
      r.1.previousTemperature = (r.1.tempHistory.getLast?).getD stackHot.startingTemperature :=
  ⟨rfl, rfl, rfl, (C16_convergence_at_first_small_increase stackHot blockHot rfl rfl rfl).1⟩

/-- C17: when `solve` returns, the thermal impedance it reports is the bulk
temperature of the monitored block in the final element state, minus the
initial temperature of the stack, over the heat generation of the monitored
block; that temperature is the last sample of the history, so no step was
taken after the last sample. -/
theorem C17_impedance_from_final_state (s : ThermalStack) (blk : Block)
    (hblk : s.monitoredBlock = some blk) (fuel : Nat)
    (r : ThermalStack × Option ConvergenceReport × ℚ)
    (hr : ThermalStack.solve fuel s = some r) :
    r.2.2 = (blk.getBulkTemp r.1.elementArray - s.startingTemperature) / blk.getQGen ∧
    r.1.tempHistory.getLast? = some (blk.getBulkTemp r.1.elementArray) ∧
    r.1.tempHistory ≠ s.tempHistory := by
  unfold ThermalStack.solve at hr
  cases hloop : s.solveLoop fuel ThermalStack.solveLocalsInit none with
  | none => rw [hloop] at hr; cases hr
  | some q =>
    obtain ⟨samples', h1, h2, _, _, h5, h6, h7, h8, _⟩ :=
      solveLoop_spec blk s.deltaTConvergenceThreshold s.startingTemperature s.tempHistory
        s.previousTemperature fuel s ThermalStack.solveLocalsInit none [] hblk rfl rfl rfl
        (List.append_nil _).symm rfl (allRising_nil _ _) q hloop
    rw [hloop] at hr
    simp only [Option.bind_eq_bind, Option.some_bind, h7] at hr
    have hr' := (Option.some.inj hr).symm
    subst hr'
    have hne : samples' ≠ [] := h2.1
    refine ⟨?_, ?_, ?_⟩
    · show (q.2.1.currMonitoredTemperature - q.1.startingTemperature) / blk.getQGen = _
      rw [h5, h8]
    · show q.1.tempHistory.getLast? = _
      rw [h1, List.getLast?_append_of_ne_nil _ hne]
      exact h6
    · show q.1.tempHistory ≠ _
      rw [h1]
      intro h
      have := congrArg List.length h
      rw [List.length_append] at this
      have : samples'.length = 0 := by omega
      exact hne (List.length_eq_zero.mp this)

/-- C17 on `stackHot`: `solve` returns after one iteration, and what it reports is
the impedance of the final state. -/
theorem C17_impedance_from_final_state_witness :
    ∃ r, ThermalStack.solve 1 stackHot = some r ∧
      r.2.2 = (blockHot.getBulkTemp r.1.elementArray - stackHot.startingTemperature)
        / blockHot.getQGen :=
  let ⟨r, hr⟩ := stackHot_solve
  ⟨r, hr, (C17_impedance_from_final_state stackHot blockHot rfl 1 r hr).1⟩

theorem mem_layerRegs (Xn Yn : Nat) (b : Block) (z0 n i : Nat) :
    i ∈ layerRegs Xn Yn b z0 n ↔
      ∃ dz x y, dz < n ∧ x < Xn ∧ y < Yn ∧ inFootprint Xn Yn b x y ∧
        i = slotOf Xn Yn x y (z0 + dz) := by
  unfold layerRegs planeRegs columnRegs
  simp only [List.mem_flatMap, List.mem_map, List.mem_filter, List.mem_range, decide_eq_true_eq]
  constructor
  · rintro ⟨dz, hdz, x, hx, y, ⟨hy, hf⟩, rfl⟩
    exact ⟨dz, x, y, hdz, hx, hy, hf, rfl⟩
  · rintro ⟨dz, x, y, hdz, hx, hy, hf, rfl⟩
    exact ⟨dz, hdz, x, hx, y, ⟨hy, hf⟩, rfl⟩

theorem layersBefore_mono (B : List Block) (hpos : ∀ b ∈ B, 1 ≤ b.zElementCount)
    (k d : Nat) : layersBefore B k ≤ layersBefore B (k + d) := by
  induction d with
  | zero => exact le_refl _
  | succ d ih =>
    by_cases hk : k + d < B.length
    · have hb : B[k + d]? = some B[k + d] := List.getElem?_eq_getElem hk
      have := layersBefore_succ B (k + d) _ hb
      have h1 := hpos _ (List.getElem_mem hk)
      rw [← Nat.add_assoc, this]
      omega
    · have e1 : layersBefore B (k + (d + 1)) = layersBefore B (k + d) := by
        unfold layersBefore
        rw [List.take_of_length_le (by omega), List.take_of_length_le (by omega)]
      rw [e1]
      exact ih

/-- With at least one layer per block, a layer belongs to one block only. -/
theorem layer_owner_unique (B : List Block) (hpos : ∀ b ∈ B, 1 ≤ b.zElementCount)
    (z : Int) (k k' : Nat)
    (hk : layersBefore B k ≤ z ∧ z < layersBefore B (k + 1))
    (hk' : layersBefore B k' ≤ z ∧ z < layersBefore B (k' + 1)) : k' = k := by
  rcases Nat.lt_trichotomy k' k with h | h | h
  · obtain ⟨d, rfl⟩ : ∃ d, k = k' + 1 + d := ⟨k - (k' + 1), by omega⟩
    have := layersBefore_mono B hpos (k' + 1) d
    omega
  · exact h
  · obtain ⟨d, rfl⟩ : ∃ d, k' = k + 1 + d := ⟨k' - (k + 1), by omega⟩
    have := layersBefore_mono B hpos (k + 1) d
    omega

/-- The layout `mesh()` produces: each in-bounds slot holds, up to its adjacency
record, the element of the block owning its layer, and each block has
registered the footprint slots of its own layers. -/
theorem mesh_layout (junk : Nat → MeshElement) (s0 : ThermalStack)
    (hun : Unmeshed s0) (hne : s0.blocks ≠ [])
    (hpos : ∀ b ∈ s0.blocks, 1 ≤ b.zElementCount) :
    ∃ (Xn Yn Zn : Nat) (s : ThermalStack), s0.mesh junk = some s ∧
      s.xElementCountMax = Xn ∧ s.yElementCountMax = Yn ∧ s.zElementCountMax = Zn ∧
      s.elementArray.length = Xn * Yn * Zn ∧
      (∀ x y z, x < Xn → y < Yn → z < Zn → ∃ k b, s0.blocks[k]? = some b ∧
        layersBefore s0.blocks k ≤ (z : Int) ∧ (z : Int) < layersBefore s0.blocks (k + 1) ∧
        (deref s.elementArray (slotOf Xn Yn x y z)).clearNeighbors =
          (meshedElement s0.startingTemperature s0.timeStep Xn Yn b x y z).clearNeighbors) ∧
      (∀ (k : Nat) (b : Block), s0.blocks[k]? = some b → ∃ b' : Block,
        s.blocks[k]? = some b' ∧ b'.clearElements = b.clearElements ∧
        b'.blockElements =
          layerRegs Xn Yn b (layersBefore s0.blocks k).toNat b.zElementCount.toNat) := by
  obtain ⟨Xn, Yn, Zn, s2, hgen, hX, hY, hZ, htot, hblocks, hnodes, hT, hdt, hZsum, hfit, hinv,
    hregs, hcount⟩ := genMeshElements_spec junk s0 hun hne hpos
  obtain ⟨Xn', Yn', Zn', s2', hmesh', hX', hY', hZ', -, hinv', hblocks', hT', hdt', hN', -⟩ :=
    mesh_spec junk s0 hun hne hpos
  have hmesh : s0.mesh junk = some s2.genMeshNodes := by simp [ThermalStack.mesh, hgen]
  have heq : s2'.genMeshNodes = s2.genMeshNodes := Option.some.inj (hmesh'.symm.trans hmesh)
  have hfr := genMeshNodes_withoutGraph s2
  have hfr' := genMeshNodes_withoutGraph s2'
  have h2X : s2.genMeshNodes.xElementCountMax = Xn := by
    have := congrArg ThermalStack.xElementCountMax hfr
    exact (Eq.trans this hinv.xMax).trans hX
  have h2Y : s2.genMeshNodes.yElementCountMax = Yn := by
    have := congrArg ThermalStack.yElementCountMax hfr
    exact (Eq.trans this hinv.yMax).trans hY
  have h2Z : s2.genMeshNodes.zElementCountMax = Zn := by
    have := congrArg ThermalStack.zElementCountMax hfr
    exact (Eq.trans this hinv.zMax).trans hZ
  have hXX : Xn' = Xn := by
    have := congrArg ThermalStack.xElementCountMax hfr'
    have h : s2'.genMeshNodes.xElementCountMax = Xn' := Eq.trans this hX'
    rw [heq, h2X] at h
    exact_mod_cast h.symm
  have hYY : Yn' = Yn := by
    have := congrArg ThermalStack.yElementCountMax hfr'
    have h : s2'.genMeshNodes.yElementCountMax = Yn' := Eq.trans this hY'
    rw [heq, h2Y] at h
    exact_mod_cast h.symm
  have hZZ : Zn' = Zn := by
    have := congrArg ThermalStack.zElementCountMax hfr'
    have h : s2'.genMeshNodes.zElementCountMax = Zn' := Eq.trans this hZ'
    rw [heq, h2Z] at h
    exact_mod_cast h.symm
  subst hXX hYY hZZ
  have h2b : s2.genMeshNodes.blocks = s2.blocks := by
    have := congrArg ThermalStack.blocks hfr
    exact this
  refine ⟨Xn', Yn', Zn', s2.genMeshNodes, hmesh, h2X, h2Y, h2Z, ?_, ?_, ?_⟩
  · rw [← heq]
    exact hN'.size
  · intro x y z hx hy hz
    obtain ⟨k, b, x', y', z', hx', hy', hz', hi, hb, h1, h2, hel⟩ :=
      hinv'.done _ ⟨x, y, z, hx, hy, hz, rfl⟩
    obtain ⟨rfl, rfl, rfl⟩ := slotOf_inj hx hy hx' hy' hi
    rw [hblocks'] at hb h1 h2
    refine ⟨k, b, hb, h1, h2, ?_⟩
    rw [← heq, hN'.elems, hel, hT', hdt']
  · intro k b hb
    refine ⟨Block.register
      (layerRegs Xn' Yn' b (layersBefore s0.blocks k).toNat b.zElementCount.toNat) b,
      by rw [h2b]; exact hregs k b hb, rfl, ?_⟩
    show b.blockElements ++ _ = _
    rw [hun.regs b (mem_of_getElem?_some hb), List.nil_append]

/-- C18: for a non-empty list of blocks with element counts at least 1 on every
axis, `mesh()` returns, and the element at the in-bounds coordinate `(x, y, z)`
is owned by block `k`, the only index whose run of layers
`[layersBefore k, layersBefore (k + 1))` contains `z`. The element is Active
exactly when `xStart <= x <= xStart + bX - 1` and `yStart <= y <= yStart + bY - 1`
with `xStart = (xMax - bX) div 2`, `yStart = (yMax - bY) div 2`, and Empty
otherwise; its slot is registered with block `k` exactly in that case, and
with no other block. An Active element carries the initial temperature, zero
pending energy, layer index `z`, and the capacitance, half-resistances and
per-element generation times `timeStep` of block `k`. -/
theorem C18_element_owned_by_layer_block (junk : Nat → MeshElement) (s0 : ThermalStack)
    (hun : Unmeshed s0) (hne : s0.blocks ≠ [])
    (hpos : ∀ b ∈ s0.blocks,
      1 ≤ b.xElementCount ∧ 1 ≤ b.yElementCount ∧ 1 ≤ b.zElementCount) :
    ∃ s, s0.mesh junk = some s ∧
      ∀ x y z : Nat, (x : Int) < s.xElementCountMax → (y : Int) < s.yElementCountMax →
        (z : Int) < s.zElementCountMax →
        ∃ (k : Nat) (b b' : Block) (e : MeshElement),
          s0.blocks[k]? = some b ∧ s.blocks[k]? = some b' ∧
          b'.clearElements = b.clearElements ∧
          s.elementArray[(s.linearIndex x y z).toNat]? = some e ∧
          layersBefore s0.blocks k ≤ (z : Int) ∧ (z : Int) < layersBefore s0.blocks (k + 1) ∧
          (∀ (j : Nat) (c : Block), s0.blocks[j]? = some c →
            layersBefore s0.blocks j ≤ (z : Int) → (z : Int) < layersBefore s0.blocks (j + 1) →
            j = k) ∧
          (e.empty = false ↔
            ((s.xElementCountMax - b.xElementCount).tdiv 2 ≤ (x : Int) ∧
              (x : Int) ≤ (s.xElementCountMax - b.xElementCount).tdiv 2 + b.xElementCount - 1) ∧
            ((s.yElementCountMax - b.yElementCount).tdiv 2 ≤ (y : Int) ∧
              (y : Int) ≤ (s.yElementCountMax - b.yElementCount).tdiv 2 + b.yElementCount - 1)) ∧
          ((s.linearIndex x y z).toNat ∈ b'.blockElements ↔ e.empty = false) ∧
          (∀ (j : Nat) (c : Block), j ≠ k → s.blocks[j]? = some c →
            (s.linearIndex x y z).toNat ∉ c.blockElements) ∧
          (e.empty = false →
            e.temperature = s0.startingTemperature ∧ e.energyExternalPending = 0 ∧
            e.zLayer = (z : Int) ∧ e.cElement = b.getCElement ∧
            e.xyRAbsolute = b.getXYRAbsolute ∧ e.zRAbsolute = b.getZRAbsolute ∧
            e.energyGenPerTimestep = b.getQGenElement * s0.timeStep) := by
  have hposz : ∀ b ∈ s0.blocks, 1 ≤ b.zElementCount := fun b hb => (hpos b hb).2.2
  obtain ⟨Xn, Yn, Zn, s, hmesh, hX, hY, hZ, hsize, hel, hreg⟩ :=
    mesh_layout junk s0 hun hne hposz
  refine ⟨s, hmesh, ?_⟩
  intro x y z hx hy hz
  rw [hX] at hx
  rw [hY] at hy
  rw [hZ] at hz
  have hx' : x < Xn := by exact_mod_cast hx
  have hy' : y < Yn := by exact_mod_cast hy
  have hz' : z < Zn := by exact_mod_cast hz
  obtain ⟨k, b, hb, h1, h2, hclear⟩ := hel x y z hx' hy' hz'
  obtain ⟨b', hb', hgeo, hregs⟩ := hreg k b hb
  have hslot := linearIndex_toNat s Xn Yn hX hY x y z
  have hlt : slotOf Xn Yn x y z < s.elementArray.length := by
    rw [hsize]
    exact slotOf_lt hx' hy' hz'
  have huniq : ∀ (j : Nat), layersBefore s0.blocks j ≤ (z : Int) →
      (z : Int) < layersBefore s0.blocks (j + 1) → j = k :=
    fun j hj1 hj2 => layer_owner_unique s0.blocks hposz z k j ⟨h1, h2⟩ ⟨hj1, hj2⟩
  have hnn : ∀ j, 0 ≤ layersBefore s0.blocks j := by
    intro j
    have := layersBefore_mono s0.blocks hposz 0 j
    rw [layersBefore_zero, Nat.zero_add] at this
    exact this
  -- membership of the slot in the registered elements of block `j`
  have hmem : ∀ (j : Nat) (c : Block), s0.blocks[j]? = some c →
      (slotOf Xn Yn x y z ∈
          layerRegs Xn Yn c (layersBefore s0.blocks j).toNat c.zElementCount.toNat ↔
        inFootprint Xn Yn c x y ∧ layersBefore s0.blocks j ≤ (z : Int) ∧
          (z : Int) < layersBefore s0.blocks (j + 1)) := by
    intro j c hc
    have hsucc := layersBefore_succ s0.blocks j c hc
    have hcz := hposz c (mem_of_getElem?_some hc)
    have hj0 := hnn j
    rw [mem_layerRegs]
    constructor
    · rintro ⟨dz, x1, y1, hdz, hx1, hy1, hf, hi⟩
      obtain ⟨rfl, rfl, rfl⟩ := slotOf_inj hx' hy' hx1 hy1 hi
      refine ⟨hf, ?_, ?_⟩
      · push_cast
        omega
      · push_cast
        omega
    · rintro ⟨hf, hz1, hz2⟩
      refine ⟨z - (layersBefore s0.blocks j).toNat, x, y, by omega, hx', hy', hf, ?_⟩
      congr 1
      omega
  have hfoot : inFootprint Xn Yn b x y ↔
      ((s.xElementCountMax - b.xElementCount).tdiv 2 ≤ (x : Int) ∧
        (x : Int) ≤ (s.xElementCountMax - b.xElementCount).tdiv 2 + b.xElementCount - 1) ∧
      ((s.yElementCountMax - b.yElementCount).tdiv 2 ≤ (y : Int) ∧
        (y : Int) ≤ (s.yElementCountMax - b.yElementCount).tdiv 2 + b.yElementCount - 1) := by
    rw [hX, hY]
    unfold inFootprint Block.getXElementCount Block.getYElementCount
    simp only [not_or, not_lt, gt_iff_lt]
    tauto
  have hempty : (deref s.elementArray (slotOf Xn Yn x y z)).empty = false ↔
      inFootprint Xn Yn b x y := by
    have := congrArg MeshElement.empty hclear
    have h' : (deref s.elementArray (slotOf Xn Yn x y z)).empty =
        (meshedElement s0.startingTemperature s0.timeStep Xn Yn b x y z).empty := this
    rw [h']
    unfold meshedElement
    by_cases hf : inFootprint Xn Yn b x y
    · simp [hf, MeshElement.ctor]
    · simp [hf, MeshElement.ctor, MeshElement.makeEmpty]
  refine ⟨k, b, b', deref s.elementArray (slotOf Xn Yn x y z), hb, hb', hgeo, ?_, h1, h2,
    fun j c _ hj1 hj2 => huniq j hj1 hj2, hempty.trans hfoot, ?_, ?_, ?_⟩
  · rw [hslot, List.getElem?_eq_getElem hlt, deref_of_lt hlt]
  · rw [hslot, hregs, hmem k b hb, hempty]
    exact ⟨fun h => h.1, fun h => ⟨h, h1, h2⟩⟩
  · intro j c hjk hc hin
    rw [hslot] at hin
    have hjlt : j < s0.blocks.length := by
      by_contra hge
      have hnone : s0.blocks[j]? = none := List.getElem?_eq_none (by omega)
      obtain ⟨bk, hbk⟩ : ∃ bk, s.blocks[j]? = some bk := ⟨c, hc⟩
      have hlen : s.blocks.length = s0.blocks.length := by
        obtain ⟨s', hs', -, hl, -⟩ := mesh_blocks_spec junk s0 hun hne hpos
        have : s' = s := Option.some.inj (hs'.symm.trans hmesh)
        rw [← this]
        exact hl
      have : j < s.blocks.length := by
        by_contra h'
        rw [List.getElem?_eq_none (by omega)] at hc
        cases hc
      omega
    obtain ⟨c', hc', -, hregs'⟩ := hreg j _ (List.getElem?_eq_getElem hjlt)
    have : c' = c := Option.some.inj (hc'.symm.trans hc)
    subst this
    rw [hregs', hmem j _ (List.getElem?_eq_getElem hjlt)] at hin
    exact hjk (huniq j hin.2.1 hin.2.2)
  · intro hact
    have hf := hempty.mp hact
    have hval : (deref s.elementArray (slotOf Xn Yn x y z)).clearNeighbors =
        (MeshElement.ctor s0.startingTemperature (b.getQGenElement * s0.timeStep) b.getCElement
          b.getXYRAbsolute b.getZRAbsolute z).clearNeighbors := by
      rw [hclear]
      unfold meshedElement
      simp [hf]
    exact ⟨congrArg MeshElement.temperature hval,
      congrArg MeshElement.energyExternalPending hval,
      congrArg MeshElement.zLayer hval, congrArg MeshElement.cElement hval,
      congrArg MeshElement.xyRAbsolute hval, congrArg MeshElement.zRAbsolute hval,
      congrArg MeshElement.energyGenPerTimestep hval⟩

/-- C18 on the two-block stack `stackUnmeshed`: every in-bounds element has an
owning block, and is at 65 degrees when Active. -/
theorem C18_element_owned_by_layer_block_witness :
    Unmeshed stackUnmeshed ∧ stackUnmeshed.blocks ≠ [] ∧
    ∃ s, stackUnmeshed.mesh junkZero = some s ∧
      ∀ x y z : Nat, (x : Int) < s.xElementCountMax → (y : Int) < s.yElementCountMax →
        (z : Int) < s.zElementCountMax →
        ∃ (k : Nat) (b : Block) (e : MeshElement),
          stackUnmeshed.blocks[k]? = some b ∧
          s.elementArray[(s.linearIndex x y z).toNat]? = some e ∧
          layersBefore stackUnmeshed.blocks k ≤ (z : Int) ∧
          (z : Int) < layersBefore stackUnmeshed.blocks (k + 1) ∧
          (e.empty = false → e.temperature = 65) :=
  ⟨stackUnmeshed_unmeshed, by simp [stackUnmeshed, ThermalStack.addBlock],
    let ⟨s, h1, h2⟩ := C18_element_owned_by_layer_block junkZero stackUnmeshed
      stackUnmeshed_unmeshed (by simp [stackUnmeshed, ThermalStack.addBlock])
      stackUnmeshed_counts
    ⟨s, h1, fun x y z hx hy hz =>
      let ⟨k, b, _, e, hb, _, _, he, hl1, hl2, _, _, _, _, hact⟩ := h2 x y z hx hy hz
      ⟨k, b, e, hb, he, hl1, hl2, fun h => (hact h).1⟩⟩⟩

theorem nodeResistance_congr (arena arena0 : List MeshElement)
    (h : ∀ i, (deref arena i).clearNeighbors = (deref arena0 i).clearNeighbors) (p q : Nat) :
    nodeResistance arena p q = nodeResistance arena0 p q := by
  have hz : ∀ i, (deref arena i).zLayer = (deref arena0 i).zLayer :=
    fun i => by have := congrArg MeshElement.zLayer (h i); exact this
  have hxy : ∀ i, (deref arena i).xyRAbsolute = (deref arena0 i).xyRAbsolute :=
    fun i => by have := congrArg MeshElement.xyRAbsolute (h i); exact this
  have hzr : ∀ i, (deref arena i).zRAbsolute = (deref arena0 i).zRAbsolute :=
    fun i => by have := congrArg MeshElement.zRAbsolute (h i); exact this
  unfold nodeResistance
  rw [hz p, hz q, hxy p, hxy q, hzr p, hzr q]

theorem genMeshNodesLink_resistances (arena0 : List MeshElement) (s : ThermalStack)
    (h : ResistancesRead arena0 s) (p q : Nat) :
    ResistancesRead arena0 (ThermalStack.genMeshNodesLink p s q) := by
  unfold ThermalStack.genMeshNodesLink
  split_ifs with hchk
  · refine ⟨?_, ?_⟩
    · intro i
      show (deref (MeshNode.ctor s.elementArray p q).2 i).clearNeighbors = _
      rw [← h.1 i]
      unfold MeshNode.ctor
      simp only
      rw [deref_modify, deref_modify]
      split_ifs <;> rfl
    · intro n hn
      have hn' : n ∈ s.nodeVector ++ [(MeshNode.ctor s.elementArray p q).1] := hn
      rw [List.mem_append, List.mem_singleton] at hn'
      rcases hn' with hn' | rfl
      · exact h.2 n hn'
      · rw [MeshNode.ctor_resistance]
        exact nodeResistance_congr s.elementArray arena0 h.1 p q
  · exact h

theorem genMeshNodesCell_resistances (arena0 : List MeshElement) (s : ThermalStack)
    (h : ResistancesRead arena0 s) (x y z : Int) :
    ResistancesRead arena0 (ThermalStack.genMeshNodesCell z x y s) := by
  unfold ThermalStack.genMeshNodesCell
  cases s.nav3DArray x y z with
  | none => exact h
  | some p =>
    simp only
    generalize s.findNeighborElements x y z = qs
    induction qs generalizing s with
    | nil => exact h
    | cons q qs ih =>
      rw [List.foldl_cons]
      exact ih _ (genMeshNodesLink_resistances arena0 s h p q)

theorem genMeshNodes_resistances (arena0 : List MeshElement) (s : ThermalStack)
    (h : ResistancesRead arena0 s) : ResistancesRead arena0 s.genMeshNodes := by
  unfold ThermalStack.genMeshNodes
  refine foldl_range_inv _ (fun _ (t : ThermalStack) => ResistancesRead arena0 t) _ s h ?_
  intro z t _ ht
  refine foldl_range_inv _ (fun _ (t : ThermalStack) => ResistancesRead arena0 t) _ t ht ?_
  intro x t' _ ht'
  refine foldl_range_inv _ (fun _ (t : ThermalStack) => ResistancesRead arena0 t) _ t' ht' ?_
  intro y t'' _ ht''
  exact genMeshNodesCell_resistances arena0 t'' ht'' x y z

theorem meshedElement_zLayer (T0 dt : ℚ) (xMax yMax : Int) (b : Block) (x y z : Int) :
    (meshedElement T0 dt xMax yMax b x y z).zLayer = z := by
  unfold meshedElement
  simp only
  split_ifs <;> rfl

/-- C19: for every node created by `mesh()`, the same-layer test of the node
constructor agrees with the axis along which its two endpoints are adjacent:
the endpoints have equal layer indices exactly when their grid coordinates
have the same Z. So a node whose endpoints differ in X or in Y has as
resistance the sum of the two endpoints' lateral (xy) half-resistances, and a
node whose endpoints differ in Z the sum of their vertical (z)
half-resistances. (`mesh()` returns whenever there is a block.) -/
theorem C19_node_resistance_follows_axis (junk : Nat → MeshElement) (s0 : ThermalStack)
    (hun : Unmeshed s0) (hpos : ∀ b ∈ s0.blocks, 1 ≤ b.zElementCount) :
    (s0.blocks ≠ [] → ∃ s, s0.mesh junk = some s) ∧
    ∀ s, s0.mesh junk = some s → ∀ n ∈ s.nodeVector,
      FaceAdjacent (s.gridCoord n.first) (s.gridCoord n.second) ∧
      ((deref s.elementArray n.first).getZLayer = (deref s.elementArray n.second).getZLayer ↔
        (s.gridCoord n.first).2.2 = (s.gridCoord n.second).2.2) ∧
      ((s.gridCoord n.first).1 ≠ (s.gridCoord n.second).1 ∨
          (s.gridCoord n.first).2.1 ≠ (s.gridCoord n.second).2.1 →
        n.resistanceAbsolute = (deref s.elementArray n.first).getXYRAbsolute
          + (deref s.elementArray n.second).getXYRAbsolute) ∧
      ((s.gridCoord n.first).2.2 ≠ (s.gridCoord n.second).2.2 →
        n.resistanceAbsolute = (deref s.elementArray n.first).getZRAbsolute
          + (deref s.elementArray n.second).getZRAbsolute) := by
  refine ⟨fun hne => ?_, ?_⟩
  · obtain ⟨_, _, _, s2, hmesh, _⟩ := mesh_spec junk s0 hun hne hpos
    exact ⟨_, hmesh⟩
  intro s hs n hn
  have hne : s0.blocks ≠ [] := by
    intro hnil
    rw [mesh_of_no_blocks junk s0 hnil] at hs
    cases hs
  obtain ⟨Xn, Yn, Zn, s2, hmesh, hX, hY, hZ, -, hinv, -, -, -, hN, -⟩ :=
    mesh_spec junk s0 hun hne hpos
  obtain ⟨_, _, _, _, _, _, _, _, _, _, hnodes, _⟩ := genMeshElements_spec junk s0 hun hne hpos
  have hs' : s = s2.genMeshNodes := Option.some.inj (hs.symm.trans hmesh)
  subst hs'
  have h2nodes : s2.nodeVector = [] := by
    have := congrArg ThermalStack.nodeVector hinv.frame
    exact Eq.trans this hnodes
  have hR : ResistancesRead s2.elementArray s2.genMeshNodes :=
    genMeshNodes_resistances s2.elementArray s2
      ⟨fun _ => rfl, fun m hm => by rw [h2nodes] at hm; cases hm⟩
  have hsX : s2.genMeshNodes.xElementCountMax = Xn := hN.boxX.trans hX
  have hsY : s2.genMeshNodes.yElementCountMax = Yn := hN.boxY.trans hY
  obtain ⟨x, y, z, x', y', z', hx, hy, hz, hx', hy', hz', hfirst, hsecond, -, -, hfa⟩ :=
    hN.adjacent n hn
  have hzl : ∀ a b c : Nat, a < Xn → b < Yn → c < Zn →
      (deref s2.genMeshNodes.elementArray (slotOf Xn Yn a b c)).zLayer = (c : Int) := by
    intro a b c ha hb hc
    have h1 : (deref s2.genMeshNodes.elementArray (slotOf Xn Yn a b c)).zLayer =
        (deref s2.elementArray (slotOf Xn Yn a b c)).zLayer := by
      have := congrArg MeshElement.zLayer (hN.elems (slotOf Xn Yn a b c))
      exact this
    obtain ⟨k, blk, a', b', c', ha', hb', hc', hi, -, -, -, hel⟩ :=
      hinv.done _ ⟨a, b, c, ha, hb, hc, rfl⟩
    obtain ⟨rfl, rfl, rfl⟩ := slotOf_inj ha hb ha' hb' hi
    rw [h1, hel, meshedElement_zLayer]
  have hg1 := gridCoord_slotOf s2.genMeshNodes Xn Yn hsX hsY x y z hx hy
  have hg2 := gridCoord_slotOf s2.genMeshNodes Xn Yn hsX hsY x' y' z' hx' hy'
  have hres : n.resistanceAbsolute =
      nodeResistance s2.genMeshNodes.elementArray n.first n.second := by
    rw [hR.2 n hn]
    exact (nodeResistance_congr _ _ hR.1 n.first n.second).symm
  have hlayer : (deref s2.genMeshNodes.elementArray n.first).zLayer =
      (deref s2.genMeshNodes.elementArray n.second).zLayer ↔ z = z' := by
    rw [hfirst, hsecond, hzl x y z hx hy hz, hzl x' y' z' hx' hy' hz']
    exact Int.ofNat_inj
  have hgc1 : s2.genMeshNodes.gridCoord n.first = (x, y, z) := by rw [hfirst]; exact hg1
  have hgc2 : s2.genMeshNodes.gridCoord n.second = (x', y', z') := by rw [hsecond]; exact hg2
  rw [hgc1, hgc2]
  refine ⟨hfa, hlayer, ?_, ?_⟩
  · intro hxy
    have hzz : z = z' := by
      rcases hfa with ⟨_, _, h⟩ | ⟨_, _, h⟩ | ⟨h1, h2, _⟩
      · exact h
      · exact h
      · exact absurd hxy (not_or.mpr ⟨not_not.mpr h1, not_not.mpr h2⟩)
    rw [hres]
    unfold nodeResistance
    rw [if_pos (hlayer.mpr hzz)]
    rfl
  · intro hzz
    rw [hres]
    unfold nodeResistance
    rw [if_neg (fun h => hzz (hlayer.mp h))]
    rfl

/-- C19 on the two-block stack `stackUnmeshed`: `mesh()` returns, and each of its
nodes joins face-adjacent elements. -/
theorem C19_node_resistance_follows_axis_witness :
    Unmeshed stackUnmeshed ∧
    ∃ s, stackUnmeshed.mesh junkZero = some s ∧ ∀ n ∈ s.nodeVector,
      ((s.gridCoord n.first).2.2 ≠ (s.gridCoord n.second).2.2 →
        n.resistanceAbsolute = (deref s.elementArray n.first).getZRAbsolute
          + (deref s.elementArray n.second).getZRAbsolute) :=
  have h := C19_node_resistance_follows_axis junkZero stackUnmeshed stackUnmeshed_unmeshed
    (fun b hb => (stackUnmeshed_counts b hb).2.2)
  let ⟨s, hs⟩ := h.1 (by simp [stackUnmeshed, ThermalStack.addBlock])
  ⟨stackUnmeshed_unmeshed, s, hs, fun n hn => (h.2 s hs n hn).2.2.2⟩

/-- C20 (as the code has it): right after `initElementArray` the arena has
`xElementCountMax * yElementCountMax * zElementCountMax` slots, and every slot
holds a default-constructed element, which is not Empty (`isEmpty()` is
false) and has no neighbours. -/
theorem C20_fresh_slots_are_not_empty (junk : Nat → MeshElement) (s : ThermalStack) :
    (ThermalStack.initElementArray junk s).elementArray.length =
      ((ThermalStack.initElementArray junk s).xElementCountMax *
        (ThermalStack.initElementArray junk s).yElementCountMax *
        (ThermalStack.initElementArray junk s).zElementCountMax).toNat ∧
    ∀ e ∈ (ThermalStack.initElementArray junk s).elementArray,
      e.isEmpty = false ∧ e.neighbors = [] := by
  refine ⟨by simp [ThermalStack.initElementArray], ?_⟩
  intro e he
  simp only [ThermalStack.initElementArray, List.mem_map] at he
  obtain ⟨i, -, rfl⟩ := he
  exact ⟨rfl, rfl⟩

/-- C20 as stated fails: after `initElementArray` on the two-block stack
`stackUnmeshed` the arena has 8 slots, and slot 0 is not Empty. -/
theorem C20_counterexample :
    (ThermalStack.initElementArray junkZero stackUnmeshed).elementArray.length = 8 ∧
    ∃ e, (ThermalStack.initElementArray junkZero stackUnmeshed).elementArray[0]? = some e ∧
      e.isEmpty = false := by
  have h1 : cround 1 = 1 := by exact_mod_cast cround_natCast 1
  have h2 : cround 2 = 2 := by exact_mod_cast cround_natCast 2
  have hlen : (ThermalStack.initElementArray junkZero stackUnmeshed).elementArray.length = 8 := by
    simp only [ThermalStack.initElementArray, stackUnmeshed, ThermalStack.addBlock,
      ThermalStack.ctor, List.nil_append, List.cons_append, List.foldl_cons, List.foldl_nil,
      ThermalStack.initElementArrayStep, Block.getXElementCount, Block.getYElementCount,
      Block.getZElementCount, Block.ctor_xElementCount, Block.ctor_yElementCount,
      Block.ctor_zElementCount, List.length_map, List.length_range]
    norm_num [h1, h2, cceil]
    rfl
  refine ⟨hlen, ?_⟩
  have h0 : 0 < (ThermalStack.initElementArray junkZero stackUnmeshed).elementArray.length := by
    rw [hlen]; norm_num
  refine ⟨_, List.getElem?_eq_getElem h0, ?_⟩
  simp [ThermalStack.initElementArray, MeshElement.ctorDefault, MeshElement.isEmpty]

/-- A sum over the arena as a sum over its slots. -/
theorem sum_map_eq_sum_range (g : MeshElement → ℚ) (arena : List MeshElement) :
    (arena.map g).sum = ∑ i in Finset.range arena.length, g (deref arena i) := by
  induction arena using List.reverseRecOn with
  | nil => simp
  | append_singleton l a ih =>
    rw [List.map_append, List.sum_append, List.length_append, List.length_singleton,
      Finset.sum_range_succ, ih]
    congr 1
    · apply Finset.sum_congr rfl
      intro i hi
      have hi' : i < l.length := Finset.mem_range.mp hi
      rw [deref_of_lt hi', deref_of_lt (by rw [List.length_append]; omega),
        List.getElem_append_left hi']
    · rw [deref_of_lt (by rw [List.length_append, List.length_singleton]; omega)]
      simp

/-- What the nodes move into the Active elements adds up to nothing: each node
takes from one endpoint what it gives to the other. -/
theorem inflow_sum_zero (arena : List MeshElement) (dt : ℚ) (nodes : List MeshNode)
    (hv : ∀ n ∈ nodes, n.first < arena.length ∧ n.second < arena.length ∧
      (deref arena n.first).empty = false ∧ (deref arena n.second).empty = false) :
    ∑ i in Finset.range arena.length,
      (if (deref arena i).empty then 0 else (nodes.map (inflowThrough arena dt i)).sum) = 0 := by
  induction nodes with
  | nil => simp
  | cons n rest ih =>
    have hrest := ih (fun m hm => hv m (List.mem_cons_of_mem _ hm))
    obtain ⟨h1, h2, h3, h4⟩ := hv n (List.mem_cons_self _ _)
    have hsplit : ∀ i ∈ Finset.range arena.length,
        (if (deref arena i).empty then 0
          else ((n :: rest).map (inflowThrough arena dt i)).sum) =
        ((if n.first = i then ((deref arena n.second).temperature
              - (deref arena n.first).temperature) * dt / n.resistanceAbsolute else 0)
          + (if n.second = i then ((deref arena n.first).temperature
              - (deref arena n.second).temperature) * dt / n.resistanceAbsolute else 0))
        + (if (deref arena i).empty then 0
          else (rest.map (inflowThrough arena dt i)).sum) := by
      intro i _
      rw [List.map_cons, List.sum_cons]
      by_cases he : (deref arena i).empty = true
      · have hn1 : n.first ≠ i := by
          intro h; rw [h, he] at h3; cases h3
        have hn2 : n.second ≠ i := by
          intro h; rw [h, he] at h4; cases h4
        simp [he, hn1, hn2]
      · have he' : (deref arena i).empty = false := by simpa using he
        simp only [he', Bool.false_eq_true, if_false]
        congr 1
        unfold inflowThrough
        by_cases hn1 : n.first = i <;> by_cases hn2 : n.second = i <;> simp [hn1, hn2]
    rw [Finset.sum_congr rfl hsplit, Finset.sum_add_distrib, hrest, add_zero,
      Finset.sum_add_distrib, Finset.sum_ite_eq, Finset.sum_ite_eq,
      if_pos (Finset.mem_range.mpr h1), if_pos (Finset.mem_range.mpr h2)]
    ring

/-- C21: a step conserves energy. From a meshed state in which no Active element
has anything pending and every Active capacitance is nonzero, one
transfer-then-commit step raises the stored energy (the sum over the Active
elements of capacitance times temperature) by exactly the sum over the Active
elements of their generation per step, for any node resistances and any
temperatures. -/
theorem C21_step_conserves_energy (s : ThermalStack) (hm : Meshed s)
    (hpending : ∀ e ∈ s.elementArray, e.empty = false → e.energyExternalPending = 0)
    (hcap : ∀ e ∈ s.elementArray, e.empty = false → e.cElement ≠ 0) :
    storedEnergy s.solveStep.elementArray =
      storedEnergy s.elementArray + generatedPerStep s.elementArray := by
  have hlen : s.solveStep.elementArray.length = s.elementArray.length := by
    have a := hm.size
    have b := (solveStep_meshed s hm).size
    have c : s.solveStep.totalElementCount = s.totalElementCount := rfl
    rw [c] at b
    omega
  unfold storedEnergy generatedPerStep
  rw [sum_map_eq_sum_range, sum_map_eq_sum_range, sum_map_eq_sum_range, hlen]
  have hcell : ∀ i ∈ Finset.range s.elementArray.length,
      (if (deref s.solveStep.elementArray i).empty then 0
        else (deref s.solveStep.elementArray i).cElement
          * (deref s.solveStep.elementArray i).temperature) =
      ((if (deref s.elementArray i).empty then 0
          else (deref s.elementArray i).cElement * (deref s.elementArray i).temperature)
        + (if (deref s.elementArray i).empty then 0
          else (deref s.elementArray i).energyGenPerTimestep))
      + (if (deref s.elementArray i).empty then 0
          else (s.nodeVector.map (inflowThrough s.elementArray s.timeStep i)).sum) := by
    intro i hi
    have hi' : i < s.elementArray.length := Finset.mem_range.mp hi
    rw [(solveStep_deref s hm i hi').2]
    have hmem : deref s.elementArray i ∈ s.elementArray := by
      rw [deref_of_lt hi']
      exact List.getElem_mem hi'
    by_cases he : (deref s.elementArray i).empty = true
    · simp [MeshElement.applyEnergyTransfer, he]
    · have he' : (deref s.elementArray i).empty = false := by simpa using he
      have hc := hcap _ hmem he'
      have hp := hpending _ hmem he'
      simp only [MeshElement.applyEnergyTransfer, he', Bool.false_eq_true, if_false, hp,
        zero_add]
      field_simp
      ring
  rw [Finset.sum_congr rfl hcell, Finset.sum_add_distrib, Finset.sum_add_distrib,
    inflow_sum_zero s.elementArray s.timeStep s.nodeVector
      (fun n hn => hm.nodes_valid n hn), add_zero]

/-- C21 on `stackTwo`: two elements of capacitance 4 at 70 and 60 degrees exchange
heat and generate none, and the stored energy stays 520. -/
theorem C21_step_conserves_energy_witness :
    Meshed stackTwo ∧ storedEnergy stackTwo.solveStep.elementArray = 520 := by
  refine ⟨stackTwo_meshed, ?_⟩
  rw [C21_step_conserves_energy stackTwo stackTwo_meshed
    (by simp [stackTwo, arenaTwo, MeshElement.ctor])
    (by simp [stackTwo, arenaTwo, MeshElement.ctor])]
  norm_num [storedEnergy, generatedPerStep, stackTwo, arenaTwo, MeshElement.ctor]

theorem meshedElement_pending (T0 dt : ℚ) (xMax yMax : Int) (b : Block) (x y z : Int) :
    (meshedElement T0 dt xMax yMax b x y z).energyExternalPending = 0 := by
  unfold meshedElement
  simp only
  split_ifs <;> rfl

theorem applyEnergyTransfer_pending (e : MeshElement)
    (h : e.applyEnergyTransfer.empty = false) :
    e.applyEnergyTransfer.energyExternalPending = 0 ∧ e.empty = false := by
  unfold MeshElement.applyEnergyTransfer at h ⊢
  by_cases he : e.empty = true
  · rw [if_pos he] at h
    rw [he] at h
    cases h
  · rw [if_neg he]
    exact ⟨rfl, by simpa using he⟩

/-- After a step from a meshed state every Active element has nothing pending,
whatever was pending before. -/
theorem solveStep_pending (t : ThermalStack) (hm : Meshed t) :
    ∀ e ∈ t.solveStep.elementArray, e.empty = false → e.energyExternalPending = 0 := by
  intro e he hact
  obtain ⟨i, hi, rfl⟩ := List.getElem_of_mem he
  have hlen := (solveStep_deref t hm 0 (by
    have := hi
    by_contra h0
    have hz : t.elementArray.length = 0 := by omega
    have hm' := solveStep_meshed t hm
    have h1 : t.solveStep.elementArray.length = t.elementArray.length := by
      have a := hm.size
      have b := hm'.size
      have c : t.solveStep.totalElementCount = t.totalElementCount := rfl
      rw [c] at b
      omega
    omega)).1
  have hi' : i < t.elementArray.length := by omega
  have hd := (solveStep_deref t hm i hi').2
  rw [deref_of_lt hi] at hd
  rw [hd] at hact ⊢
  exact (applyEnergyTransfer_pending _ hact).1

theorem iterate_solveStep_meshed (s : ThermalStack) (hm : Meshed s) (k : Nat) :
    Meshed (ThermalStack.solveStep^[k] s) := by
  induction k with
  | zero => exact hm
  | succ k ih =>
    rw [Function.iterate_succ_apply']
    exact solveStep_meshed _ ih

/-- C22: the pending accumulator is zero at every step boundary. After `mesh()`
(which returns whenever there is a block) every Active element has pending
energy 0, and so has every Active element after any number of complete
transfer-then-commit steps. More generally, a step from any meshed state,
whatever is pending in it, leaves every Active element with pending energy 0,
and leaves the Empty elements as they were. -/
theorem C22_pending_zero_at_step_boundaries (junk : Nat → MeshElement) (s0 : ThermalStack)
    (hun : Unmeshed s0) (hpos : ∀ b ∈ s0.blocks, 1 ≤ b.zElementCount) :
    (s0.blocks ≠ [] → ∃ s, s0.mesh junk = some s) ∧
    (∀ s, s0.mesh junk = some s → ∀ k : Nat,
      ∀ e ∈ (ThermalStack.solveStep^[k] s).elementArray,
        e.empty = false → e.energyExternalPending = 0) ∧
    (∀ t : ThermalStack, Meshed t →
      (∀ e ∈ t.solveStep.elementArray, e.empty = false → e.energyExternalPending = 0) ∧
      t.solveStep.elementArray.length = t.elementArray.length ∧
      ∀ i, (deref t.elementArray i).empty = true →
        deref t.solveStep.elementArray i = deref t.elementArray i) := by
  refine ⟨fun hne => ?_, ?_, ?_⟩
  · obtain ⟨_, _, _, s2, hmesh, _⟩ := mesh_spec junk s0 hun hne hpos
    exact ⟨_, hmesh⟩
  · intro s hs k
    have hm : Meshed s := mesh_meshed junk s0 s hun hpos hs
    cases k with
    | succ k =>
      rw [Function.iterate_succ_apply']
      exact solveStep_pending _ (iterate_solveStep_meshed s hm k)
    | zero =>
      show ∀ e ∈ s.elementArray, e.empty = false → e.energyExternalPending = 0
      intro e he _
      have hne : s0.blocks ≠ [] := by
        intro hnil
        rw [mesh_of_no_blocks junk s0 hnil] at hs
        cases hs
      obtain ⟨Xn, Yn, Zn, s', hmesh, -, -, -, hsize, hel, -⟩ :=
        mesh_layout junk s0 hun hne hpos
      have hs' : s' = s := Option.some.inj (hmesh.symm.trans hs)
      subst hs'
      obtain ⟨i, hi, rfl⟩ := List.getElem_of_mem he
      have hi' : i < Xn * Yn * Zn := by rw [← hsize]; exact hi
      obtain ⟨x, y, z, hx, hy, hz, rfl⟩ := slotOf_surj hi'
      obtain ⟨k, b, -, -, -, hclear⟩ := hel x y z hx hy hz
      have := congrArg MeshElement.energyExternalPending hclear
      have h2 : (deref s'.elementArray (slotOf Xn Yn x y z)).energyExternalPending =
          (meshedElement s0.startingTemperature s0.timeStep Xn Yn b x y z).energyExternalPending :=
        this
      rw [deref_of_lt hi, meshedElement_pending] at h2
      exact h2
  · intro t hm
    have hlen : t.solveStep.elementArray.length = t.elementArray.length := by
      have a := hm.size
      have b := (solveStep_meshed t hm).size
      have c : t.solveStep.totalElementCount = t.totalElementCount := rfl
      rw [c] at b
      omega
    refine ⟨solveStep_pending t hm, hlen, ?_⟩
    intro i hemp
    by_cases hi : i < t.elementArray.length
    · have hd := (solveStep_deref t hm i hi).2
      rw [hd]
      have hvalid : ∀ n ∈ t.nodeVector, n.first ≠ i ∧ n.second ≠ i := by
        intro n hn
        obtain ⟨-, -, h1, h2⟩ := hm.nodes_valid n hn
        constructor
        · intro h; rw [h, hemp] at h1; cases h1
        · intro h; rw [h, hemp] at h2; cases h2
      have hsum : (t.nodeVector.map (inflowThrough t.elementArray t.timeStep i)).sum = 0 := by
        apply List.sum_eq_zero
        intro v hv
        obtain ⟨n, hn, rfl⟩ := List.mem_map.mp hv
        unfold inflowThrough
        rw [if_neg (hvalid n hn).1, if_neg (hvalid n hn).2]
        norm_num
      rw [hsum, add_zero]
      have heta : ({ deref t.elementArray i with
          energyExternalPending := (deref t.elementArray i).energyExternalPending } :
          MeshElement) = deref t.elementArray i := rfl
      rw [heta]
      unfold MeshElement.applyEnergyTransfer
      rw [if_pos hemp]
    · rw [deref_of_ge (by omega), deref_of_ge (by omega)]

/-- C22 on the two-block stack `stackUnmeshed`: after `mesh()` and three steps
nothing is pending on an Active element. -/
theorem C22_pending_zero_at_step_boundaries_witness :
    Unmeshed stackUnmeshed ∧
    ∃ s, stackUnmeshed.mesh junkZero = some s ∧
      ∀ e ∈ (ThermalStack.solveStep^[3] s).elementArray,
        e.empty = false → e.energyExternalPending = 0 :=
  have h := C22_pending_zero_at_step_boundaries junkZero stackUnmeshed stackUnmeshed_unmeshed
    (fun b hb => (stackUnmeshed_counts b hb).2.2)
  let ⟨s, hs⟩ := h.1 (by simp [stackUnmeshed, ThermalStack.addBlock])
  ⟨stackUnmeshed_unmeshed, s, hs, h.2.1 s hs 3⟩

/-- The report of an iteration that converges: the time-constant temperature
is read from the history, with the sample just taken appended, at the value
`locateTauStep` returns. -/
theorem solveIteration_converged_report (s : ThermalStack) (l : SolveLocals) (blk : Block)
    (hblk : s.monitoredBlock = some blk) (h : s.sampleDue)
    (hr : ¬ blk.getBulkTemp s.solveStep.elementArray - s.previousTemperature
      > s.deltaTConvergenceThreshold) :
    ∃ report tau, s.solveIteration l =
      some (s.sampled (blk.getBulkTemp s.solveStep.elementArray),
        { haveIConvergedYet := true
          currStep := ctrunc ((s.currTime + s.timeStep) / s.timeStep)
          tauInterval := tau
          currMonitoredTemperature := blk.getBulkTemp s.solveStep.elementArray },
        some report) ∧
      tau = (s.sampled (blk.getBulkTemp s.solveStep.elementArray)).locateTauStep
        s.startingTemperature (blk.getBulkTemp s.solveStep.elementArray) ∧
      report.tauTemperature =
        (s.sampled (blk.getBulkTemp s.solveStep.elementArray)).tempHistory[tau.toNat]? := by
  have h' : (ctrunc ((s.solveStep.currTime + s.solveStep.timeStep)
      / s.solveStep.timeStep)).tmod s.solveStep.sampleIntervalSteps = 0 := h
  have hb : ThermalStack.monitoredBlock
      { s.solveStep with currTime := s.solveStep.currTime + s.solveStep.timeStep } = some blk :=
    hblk
  have hr' : ¬ blk.getBulkTemp s.solveStep.elementArray - s.solveStep.previousTemperature
      > s.solveStep.deltaTConvergenceThreshold := hr
  unfold ThermalStack.solveIteration
  simp only
  rw [if_pos h', hb]
  simp only [Option.bind_eq_bind, Option.some_bind]
  rw [if_neg hr']
  exact ⟨_, _, rfl, rfl, rfl⟩

/-- C23 on the run of `solve` on `stackHot`: the run converges at its first
sample, 65.4, so the history is `[65.4]`; `locateTauStep 65 65.4` returns 1,
the length of the history, and the read `tempHistory[1]` that `solve` makes
for the time-constant temperature is out of range. -/
theorem C23_tau_index_reaches_length :
    ∃ r rep, ThermalStack.solve 1 stackHot = some r ∧ r.2.1 = some rep ∧
      r.1.tempHistory = [327 / 5] ∧
      r.1.locateTauStep stackHot.startingTemperature (327 / 5) = (r.1.tempHistory.length : Int) ∧
      rep.tauTemperature = none := by
  have hgt : ¬ blockHot.getBulkTemp stackHot.solveStep.elementArray
      - stackHot.previousTemperature > stackHot.deltaTConvergenceThreshold := by
    rw [stackHot_first_sample]
    norm_num [stackHot]
  obtain ⟨report, tau, hit, htau, hrep⟩ := solveIteration_converged_report stackHot
    ThermalStack.solveLocalsInit blockHot rfl stackHot_sampleDue hgt
  have hloop := (solveLoop_succ 0 stackHot ThermalStack.solveLocalsInit none rfl _ hit).trans
    (solveLoop_of_converged 0 _ _ _ rfl)
  have hhist : (stackHot.sampled (blockHot.getBulkTemp stackHot.solveStep.elementArray)).tempHistory
      = [327 / 5] := by
    show stackHot.tempHistory ++ [_] = _
    rw [stackHot_first_sample]
    rfl
  have hloc : (stackHot.sampled (blockHot.getBulkTemp
      stackHot.solveStep.elementArray)).locateTauStep stackHot.startingTemperature (327 / 5)
        = 1 := by
    unfold ThermalStack.locateTauStep
    rw [hhist]
    norm_num [ThermalStack.locateTauStepLoop, stackHot]
  refine ⟨(stackHot.sampled (blockHot.getBulkTemp stackHot.solveStep.elementArray),
    some report, (blockHot.getBulkTemp stackHot.solveStep.elementArray
      - stackHot.startingTemperature) / blockHot.getQGen), report, ?_, rfl, hhist, ?_, ?_⟩
  · unfold ThermalStack.solve
    rw [hloop]
    rfl
  · rw [hloc, hhist]
    rfl
  · rw [hrep, htau, hhist, stackHot_first_sample]
    rw [stackHot_first_sample] at hloc
    rw [hloc]
    rfl

/-- What the two length accessors return on a constructed block. -/
theorem Block.ctor_getLengths (xIn yIn zIn m : ℚ) (mat : Material) (q : ℚ) :
    (Block.ctor xIn yIn zIn m mat q).getXLength = cround yIn ∧
    (Block.ctor xIn yIn zIn m mat q).getYLength = cround yIn ∧
    (Block.ctor xIn yIn zIn m mat q).xLength = cround xIn :=
  ⟨rfl, rfl, rfl⟩

/-- C24 at the block built with `xIn = 15`, `yIn = 10`: the stored X extent is
`round(15) = 15`, but `getXLength()` returns 10, the Y extent, which is also
what `getYLength()` returns. -/
theorem C24_getXLength_returns_y_extent :
    (Block.ctor 15 10 1 1 unitMaterial 0).xLength = 15 ∧
    (Block.ctor 15 10 1 1 unitMaterial 0).getXLength = 10 ∧
    (Block.ctor 15 10 1 1 unitMaterial 0).getYLength = 10 ∧
    (Block.ctor 15 10 1 1 unitMaterial 0).getXLength ≠ ((cround 15 : Int) : ℚ) := by
  have h15 : cround 15 = 15 := by exact_mod_cast cround_natCast 15
  have h10 : cround 10 = 10 := by exact_mod_cast cround_natCast 10
  obtain ⟨hx, hy, hl⟩ := Block.ctor_getLengths 15 10 1 1 unitMaterial 0
  rw [hx, hy, hl, h15, h10]
  norm_num

theorem initElementArrayStep_foldl_max (B : List Block) (s : ThermalStack) :
    (B.foldl ThermalStack.initElementArrayStep s).xElementCountMax =
      (B.map (fun b => b.xElementCount)).foldl max s.xElementCountMax ∧
    (B.foldl ThermalStack.initElementArrayStep s).yElementCountMax =
      (B.map (fun b => b.yElementCount)).foldl max s.yElementCountMax := by
  induction B generalizing s with
  | nil => exact ⟨rfl, rfl⟩
  | cons a B ih =>
    have e : (ThermalStack.initElementArrayStep s a).xElementCountMax =
          max s.xElementCountMax a.xElementCount ∧
        (ThermalStack.initElementArrayStep s a).yElementCountMax =
          max s.yElementCountMax a.yElementCount := by
      unfold ThermalStack.initElementArrayStep
      by_cases hxa : s.xElementCountMax < a.getXElementCount <;>
        by_cases hya : s.yElementCountMax < a.getYElementCount <;>
        simp only [hxa, hya, if_true, if_false] <;>
        simp only [Block.getXElementCount, Block.getYElementCount] at hxa hya ⊢ <;>
        constructor <;> omega
    simp only [List.foldl_cons, List.map_cons]
    rw [(ih _).1, (ih _).2, e.1, e.2]
    exact ⟨rfl, rfl⟩

/-- C25: after `initElementArray` on a stack not meshed before, `xElementCountMax`
and `yElementCountMax` are the maxima of the blocks' X and Y counts (over 0),
`zElementCountMax` is the sum of their Z counts and the arena has
`xMax * yMax * zMax` slots. For coordinates with `0 <= x < xMax`,
`0 <= y < yMax`, `0 <= z < zMax` the linear index `x + y*xMax + z*xMax*yMax`
is at least 0, below `xMax * yMax * zMax` and a slot of the arena; two
in-bounds coordinates with the same index are equal; and every slot of the
arena is the index of an in-bounds coordinate. -/
theorem C25_linear_index_bijective (junk : Nat → MeshElement) (s0 : ThermalStack)
    (hun : Unmeshed s0) :
    ((ThermalStack.initElementArray junk s0).xElementCountMax =
        (s0.blocks.map (fun b => b.xElementCount)).foldl max 0 ∧
      (ThermalStack.initElementArray junk s0).yElementCountMax =
        (s0.blocks.map (fun b => b.yElementCount)).foldl max 0 ∧
      (ThermalStack.initElementArray junk s0).zElementCountMax =
        (s0.blocks.map (fun b => b.zElementCount)).sum ∧
      (ThermalStack.initElementArray junk s0).elementArray.length =
        ((ThermalStack.initElementArray junk s0).xElementCountMax *
          (ThermalStack.initElementArray junk s0).yElementCountMax *
          (ThermalStack.initElementArray junk s0).zElementCountMax).toNat) ∧
    (∀ x y z : Int,
      0 ≤ x → x < (ThermalStack.initElementArray junk s0).xElementCountMax →
      0 ≤ y → y < (ThermalStack.initElementArray junk s0).yElementCountMax →
      0 ≤ z → z < (ThermalStack.initElementArray junk s0).zElementCountMax →
      0 ≤ (ThermalStack.initElementArray junk s0).linearIndex x y z ∧
      (ThermalStack.initElementArray junk s0).linearIndex x y z <
        (ThermalStack.initElementArray junk s0).xElementCountMax *
          (ThermalStack.initElementArray junk s0).yElementCountMax *
          (ThermalStack.initElementArray junk s0).zElementCountMax ∧
      ((ThermalStack.initElementArray junk s0).linearIndex x y z).toNat <
        (ThermalStack.initElementArray junk s0).elementArray.length) ∧
    (∀ x y z x' y' z' : Int,
      0 ≤ x → x < (ThermalStack.initElementArray junk s0).xElementCountMax →
      0 ≤ y → y < (ThermalStack.initElementArray junk s0).yElementCountMax →
      0 ≤ z → z < (ThermalStack.initElementArray junk s0).zElementCountMax →
      0 ≤ x' → x' < (ThermalStack.initElementArray junk s0).xElementCountMax →
      0 ≤ y' → y' < (ThermalStack.initElementArray junk s0).yElementCountMax →
      0 ≤ z' → z' < (ThermalStack.initElementArray junk s0).zElementCountMax →
      (ThermalStack.initElementArray junk s0).linearIndex x y z =
        (ThermalStack.initElementArray junk s0).linearIndex x' y' z' →
      x = x' ∧ y = y' ∧ z = z') ∧
    (∀ i : Nat, i < (ThermalStack.initElementArray junk s0).elementArray.length →
      ∃ x y z : Int,
        0 ≤ x ∧ x < (ThermalStack.initElementArray junk s0).xElementCountMax ∧
        0 ≤ y ∧ y < (ThermalStack.initElementArray junk s0).yElementCountMax ∧
        0 ≤ z ∧ z < (ThermalStack.initElementArray junk s0).zElementCountMax ∧
        (ThermalStack.initElementArray junk s0).linearIndex x y z = (i : Int)) := by
  generalize hs : ThermalStack.initElementArray junk s0 = s
  have hlen : s.elementArray.length =
      (s.xElementCountMax * s.yElementCountMax * s.zElementCountMax).toNat := by
    rw [← hs]
    simp [ThermalStack.initElementArray]
  have hbox : s.xElementCountMax = (s0.blocks.map (fun b => b.xElementCount)).foldl max 0 ∧
      s.yElementCountMax = (s0.blocks.map (fun b => b.yElementCount)).foldl max 0 ∧
      s.zElementCountMax = (s0.blocks.map (fun b => b.zElementCount)).sum := by
    obtain ⟨hx, hy⟩ := initElementArrayStep_foldl_max s0.blocks s0
    obtain ⟨-, hz, -⟩ := initElementArrayStep_foldl s0.blocks s0
    rw [hun.xMax] at hx
    rw [hun.yMax] at hy
    rw [hun.zMax, Int.zero_add] at hz
    rw [← hs]
    exact ⟨hx, hy, hz⟩
  refine ⟨⟨hbox.1, hbox.2.1, hbox.2.2, hlen⟩, ?_, ?_, ?_⟩
  · intro x y z hx0 hx hy0 hy hz0 hz
    have hb := linearIndex_bounds _ _ _ x y z hx0 hx hy0 hy hz0 hz
    refine ⟨hb.1, hb.2, ?_⟩
    rw [hlen]
    unfold ThermalStack.linearIndex
    omega
  · intro x y z x' y' z' hx0 hx hy0 hy hz0 hz hx0' hx' hy0' hy' hz0' hz' heq
    obtain ⟨Xn, hXn⟩ := Int.eq_ofNat_of_zero_le (show 0 ≤ s.xElementCountMax by omega)
    obtain ⟨Yn, hYn⟩ := Int.eq_ofNat_of_zero_le (show 0 ≤ s.yElementCountMax by omega)
    obtain ⟨a, rfl⟩ := Int.eq_ofNat_of_zero_le hx0
    obtain ⟨b, rfl⟩ := Int.eq_ofNat_of_zero_le hy0
    obtain ⟨c, rfl⟩ := Int.eq_ofNat_of_zero_le hz0
    obtain ⟨a', rfl⟩ := Int.eq_ofNat_of_zero_le hx0'
    obtain ⟨b', rfl⟩ := Int.eq_ofNat_of_zero_le hy0'
    obtain ⟨c', rfl⟩ := Int.eq_ofNat_of_zero_le hz0'
    have h1 := linearIndex_toNat s Xn Yn hXn hYn a b c
    have h2 := linearIndex_toNat s Xn Yn hXn hYn a' b' c'
    rw [heq, h2] at h1
    rw [hXn] at hx hx'
    rw [hYn] at hy hy'
    obtain ⟨e1, e2, e3⟩ := @slotOf_inj Xn Yn a' b' c' a b c
      (by exact_mod_cast hx') (by exact_mod_cast hy') (by exact_mod_cast hx)
      (by exact_mod_cast hy) h1
    subst e1 e2 e3
    exact ⟨rfl, rfl, rfl⟩
  · intro i hi
    rw [hlen] at hi
    have hpos : 0 < s.xElementCountMax * s.yElementCountMax * s.zElementCountMax := by omega
    have hx0 : 0 ≤ s.xElementCountMax := by
      have := (initElementArrayStep_foldl s0.blocks s0).2.2.1
      rw [hun.xMax] at this
      rw [← hs]
      exact this
    have hy0 : 0 ≤ s.yElementCountMax := by
      have := (initElementArrayStep_foldl s0.blocks s0).2.2.2.1
      rw [hun.yMax] at this
      rw [← hs]
      exact this
    have hz0 : 0 ≤ s.zElementCountMax := by
      by_contra hneg
      have : s.xElementCountMax * s.yElementCountMax * s.zElementCountMax ≤ 0 :=
        mul_nonpos_of_nonneg_of_nonpos (mul_nonneg hx0 hy0) (by omega)
      omega
    obtain ⟨Xn, hXn⟩ := Int.eq_ofNat_of_zero_le hx0
    obtain ⟨Yn, hYn⟩ := Int.eq_ofNat_of_zero_le hy0
    obtain ⟨Zn, hZn⟩ := Int.eq_ofNat_of_zero_le hz0
    have hi' : i < Xn * Yn * Zn := by
      rw [hXn, hYn, hZn] at hi
      have : ((Xn : Int) * Yn * Zn).toNat = Xn * Yn * Zn := by
        rw [show ((Xn : Int) * Yn * Zn) = ((Xn * Yn * Zn : Nat) : Int) by push_cast; ring]
        exact Int.toNat_natCast _
      omega
    obtain ⟨x, y, z, hx, hy, hz, rfl⟩ := slotOf_surj hi'
    refine ⟨x, y, z, by omega, by omega, by omega, by omega, by omega, by omega, ?_⟩
    unfold ThermalStack.linearIndex slotOf
    rw [hXn, hYn]
    push_cast
    ring

/-- C25 on the two-block stack `stackUnmeshed`: the arena has as many slots as
the bounding box has coordinates. -/
theorem C25_linear_index_bijective_witness :
    Unmeshed stackUnmeshed ∧
    (ThermalStack.initElementArray junkZero stackUnmeshed).elementArray.length =
      ((ThermalStack.initElementArray junkZero stackUnmeshed).xElementCountMax *
        (ThermalStack.initElementArray junkZero stackUnmeshed).yElementCountMax *
        (ThermalStack.initElementArray junkZero stackUnmeshed).zElementCountMax).toNat :=
  ⟨stackUnmeshed_unmeshed,
    (C25_linear_index_bijective junkZero stackUnmeshed stackUnmeshed_unmeshed).1.2.2.2⟩

end ThermalStackFEA
